import Mathlib

/-!
# The in-process byte pipe of `io/pipe.go`

A shallow embedding of the ring-buffer pipe (`pipe`, `PipeReader`, `PipeWriter`) and
proofs about it. Further sections embed the copy helpers of `io/io.go`, the host and port
helpers of `net.go`, and the compressor pools and the MIME check of `compress/`.

Modelling conventions.

* The Go `int` fields `r`, `w`, `l`, `c` are natural numbers: the code never makes them
  negative, and the only subtractions (`p.c - p.l`, `p.l - bl`) are guarded or compared
  against zero in a way on which truncated and signed subtraction agree.
* A byte slice is a `List byte`; `nil` for `p.buf` is `none`.
* `error` values are a small inductive type. The package-level pointer `WriterIoEOF` is a
  constructor of its own: `err == WriterIoEOF` is a pointer comparison, which a freshly
  allocated `&writerError{..}` never satisfies.
* The mutex `wr` is a boolean (held or free). `Lock` on a held mutex never returns, which is
  the outcome `Res.deadlock`. `errMux` is always released by the function that took it and is
  left out.
* Channels: `done` is a boolean (closed or not), `notifyR`/`notifyW` are booleans (the one slot
  of the buffered channel holds a token or not).
* Every blocking function is embedded as ONE PASS through its body, from the label `start:`
  to either a `return` (`Res.ret`) or the `select` at the bottom (`Res.park`). The `select` and
  the `goto start` are the transitions of `Sys.step`.
-/

namespace Goutils

abbrev byte := UInt8

/-- The error values the package produces or passes through. -/
inductive error : Type
  | ErrClosedPipe
  | WriterIoEOF
  | ErrBufRecycled
  | errReClosingClosedPipe
  | errorClosingNotEmptyPipe
  | EOF
  | ErrShortWrite
  | errInvalidWrite
  | custom (tag : Nat)
  | readerError (err : error)
  | writerError (err : error)
  deriving DecidableEq, Repr

/-- The methods `(*readerError).Unwrap` and `(*writerError).Unwrap`; `WriterIoEOF` is
`&writerError{io.EOF}`. -/
def error.Unwrap : error → Option error
  | .readerError e => some e
  | .writerError e => some e
  | .WriterIoEOF => some .EOF
  | _ => none

/-- The type assertion `err.(*readerError)`. -/
def error.isReaderError : Option error → Bool
  | some (.readerError _) => true
  | _ => false

/-- The shared pipe structure (`type pipe struct`). -/
structure pipe where
  rerr : Option error
  werr : Option error
  buf : Option (List byte)
  r : Nat
  w : Nat
  l : Nat
  c : Nat
  wr : Bool
  done : Bool
  notifyR : Bool
  notifyW : Bool
  close : Bool
  deriving DecidableEq, Repr

/-- How one pass through a function body ends: it returns `v`, it reaches the `select`
(parks) with the data `k` it retries with, it blocks for ever in `Lock` on a held mutex,
or it panics (slice bounds, index out of range, close of a closed channel). -/
inductive Res (α β : Type) : Type
  | ret (v : α)
  | park (k : β)
  | deadlock
  | panic
  deriving DecidableEq, Repr

/-- What `bpool.Get(size)` followed by `py.B[:size]` yields: `size` bytes whose contents
are whatever the pool left there (`dirt`). -/
def bpoolGet (size : Nat) (dirt : Nat → byte) : List byte :=
  (List.range size).map dirt

/-- Embeds `PipeWithSize(size)`. `&py.B[0]` panics for `size = 0`, which is `none`. -/
def PipeWithSize (size : Nat) (dirt : Nat → byte) : Option pipe :=
  if size = 0 then none
  else some
    { rerr := none, werr := none, buf := some (bpoolGet size dirt),
      r := 0, w := 0, l := 0, c := size,
      wr := false, done := false, notifyR := false, notifyW := false, close := false }

def defaultBufSize : Nat := 4096

/-- Embeds `Pipe()`. -/
def Pipe (dirt : Nat → byte) : Option pipe := PipeWithSize defaultBufSize dirt

/-- The builtin `copy(dst, src)`: the new contents of `dst` and the number of bytes copied. -/
def copy (dst src : List byte) : List byte × Nat :=
  let n := min dst.length src.length
  (src.take n ++ dst.drop n, n)

/-- The slice expression `s[lo:hi]`. -/
def slice (s : List byte) (lo hi : Nat) : List byte := (s.take hi).drop lo

/-- Embeds `copy(s[lo:hi], src)` seen from `s`: the window `s[lo:hi]` shares its storage with `s`. -/
def copyTo (s : List byte) (lo hi : Nat) (src : List byte) : List byte × Nat :=
  let res := copy (slice s lo hi) src
  (s.take lo ++ res.1 ++ s.drop hi, res.2)

/-- Embeds `readCloseError`. -/
def pipe.readCloseError (p : pipe) : Option error :=
  match p.rerr with
  | some e => some e
  | none => p.werr

/-- Embeds `writeCloseError`. -/
def pipe.writeCloseError (p : pipe) : Option error :=
  match p.rerr with
  | some e => some e
  | none => p.werr

/-- Embeds `notifyR(p)`: a non-blocking send on the one-slot channel. -/
def notifyR (p : pipe) : pipe := { p with notifyR := true }

/-- Embeds `notifyW(p)`. -/
def notifyW (p : pipe) : pipe := { p with notifyW := true }

/-- Lines 577-585 of `pipe.write`: the one or two `copy` calls into the ring. The result is
the new storage and the new `p.w`; `none` is a slice-bounds panic. -/
def writeCopy (buf : List byte) (r w : Nat) (b : List byte) : Option (List byte × Nat) :=
  if w < r then
    if r ≤ buf.length then
      let res := copyTo buf w r b
      some (res.1, w + res.2)
    else none
  else
    if w ≤ buf.length then
      let res1 := copyTo buf w buf.length b
      let n1 := res1.2
      if n1 ≠ b.length then
        let res2 := copyTo res1.1 0 r (b.drop n1)
        some (res2.1, res2.2)
      else some (res1.1, w + n1)
    else none

/-- One pass of `pipe.write`, entered at `start:` with the (remaining) slice `b` and the
count `n` accumulated so far. Parking hands on the `b` and `n` of the next pass. -/
def pipe.write (p : pipe) (b : List byte) (n : Nat) :
    pipe × Res (Nat × Option error) (List byte × Nat) :=
  if p.close then (p, .ret (n, p.writeCloseError))
  else
    let bl := b.length
    if bl = 0 then (p, .ret (n, none))
    else if p.wr then (p, .deadlock)
    else
      match p.buf with
      | none => (p, .ret (n, some .ErrBufRecycled))
      | some buf =>
        let space := p.c - p.l
        let oldPL := p.l
        if 0 < space then
          match writeCopy buf p.r p.w b with
          | none => ({ p with wr := true }, .panic)
          | some (buf1, w1) =>
            let p1 := { p with buf := some buf1, w := w1 }
            if bl ≤ space then
              let p2 := { p1 with l := p.l + bl }
              (if oldPL = 0 then Goutils.notifyR p2 else p2, .ret (n + bl, none))
            else
              let p2 := { p1 with l := p.l + space }
              (if oldPL = 0 then Goutils.notifyR p2 else p2, .park (b.drop space, n + space))
        else
          (if oldPL = 0 then Goutils.notifyR p else p, .park (b, n))

/-- Lines 414-422 of `pipe.read`: the one or two `copy` calls out of the ring. The result is
the new contents of `b` and the new `p.r`; `none` is a slice-bounds panic. -/
def readCopy (buf : List byte) (r w : Nat) (b : List byte) : Option (List byte × Nat) :=
  if r < w then
    if w ≤ buf.length then
      let res := copy b (slice buf r w)
      some (res.1, r + res.2)
    else none
  else
    if r ≤ buf.length then
      let res1 := copy b (slice buf r buf.length)
      let n1 := res1.2
      if n1 ≠ b.length then
        let res2 := copyTo res1.1 n1 b.length (slice buf 0 w)
        some (res2.1, res2.2)
      else some (res1.1, r + n1)
    else none

/-- The rewrite `if err == WriterIoEOF { err = io.EOF }`. -/
def normEOF (err : Option error) : Option error :=
  if err = some .WriterIoEOF then some .EOF else err

/-- One pass of `pipe.read` with destination `b`. A return carries `n`, `err` and the
contents of `b` after the call. -/
def pipe.read (p : pipe) (b : List byte) :
    pipe × Res (Nat × Option error × List byte) Unit :=
  let bl := b.length
  let err : Option error := if p.close then p.readCloseError else none
  if p.close && error.isReaderError err then (p, .ret (0, err, b))
  else if p.wr then (p, .deadlock)
  else
    match p.buf with
    | none => (p, .ret (0, some .ErrBufRecycled, b))
    | some buf =>
      if err ≠ none ∧ p.l = 0 then (p, .ret (0, normEOF err, b))
      else
        let err : Option error := if err ≠ none then none else err
        if bl = 0 then (p, .ret (0, err, b))
        else
          let space := p.c - p.l
          if 0 < p.l then
            match readCopy buf p.r p.w b with
            | none => ({ p with wr := true }, .panic)
            | some (b1, r1) =>
              let p1 := { p with r := r1 }
              if bl < p.l then
                let p2 := { p1 with l := p.l - bl }
                (if space = 0 then Goutils.notifyW p2 else p2, .ret (bl, err, b1))
              else
                let p2 := { p1 with l := 0, r := 0, w := 0 }
                (if space = 0 then Goutils.notifyW p2 else p2, .ret (p.l, normEOF err, b1))
          else (p, .park ())

/-- Embeds `pipe.closeRead`, reached through `PipeReader.CloseWithError`. -/
def pipe.closeRead (p : pipe) (err : Option error) : pipe × Res (Option error) Unit :=
  let err1 := error.readerError (err.getD .ErrClosedPipe)
  if !p.close then
    if p.done then ({ p with rerr := some err1, close := true }, .panic)
    else
      let p1 := { p with rerr := some err1, close := true, done := true }
      if p.wr then (p1, .deadlock)
      else (p1, .ret (if 0 < p.l then some .errorClosingNotEmptyPipe else none))
  else if p.rerr ≠ none then (p, .ret (some .errReClosingClosedPipe))
  else ({ p with rerr := some err1 }, .ret none)

/-- Embeds `pipe.closeWrite`, reached through `PipeWriter.CloseWithError`. On a closed pipe whose
`werr` is still nil the code assigns the (nil) result variable `e`. -/
def pipe.closeWrite (p : pipe) (err : Option error) : pipe × Res (Option error) Unit :=
  let err1 : error :=
    match err with
    | none => .WriterIoEOF
    | some e => .writerError e
  if !p.close then
    if p.done then ({ p with werr := some err1, close := true }, .panic)
    else ({ p with werr := some err1, close := true, done := true }, .ret none)
  else if p.werr ≠ none then (p, .ret (some .errReClosingClosedPipe))
  else ({ p with werr := none }, .ret none)

/-- Embeds `pipe.flush`, one pass. -/
def pipe.flush (p : pipe) : pipe × Res (Option error) Unit :=
  if p.close then (p, .ret p.writeCloseError)
  else if p.wr then (p, .deadlock)
  else if p.l = 0 then (p, .ret none)
  else (p, .park ())

/-- Embeds `pipe.WriteTo`, one pass. The sink `w io.Writer` is its `Write` method over a sink state
`σ`; it is trusted to report a count `n1` with `0 <= n1`. The `select` at the bottom of the
source is behind `p.l != 0` and `!(p.l > 0)` and is never reached. -/
def pipe.WriteTo {σ : Type} (p : pipe) (Write : σ → List byte → σ × Nat × Option error)
    (s : σ) : pipe × σ × Res (Nat × Option error) Unit :=
  let err : Option error := if p.close then p.readCloseError else none
  if p.close && error.isReaderError err then (p, s, .ret (0, err))
  else if p.wr then (p, s, .deadlock)
  else
    match p.buf with
    | none => (p, s, .ret (0, some .ErrBufRecycled))
    | some buf =>
      if p.l = 0 then (p, s, .ret (0, normEOF err))
      else
        if p.r < p.w then
          if p.w ≤ buf.length then
            let res := Write s (slice buf p.r p.w)
            let n1 := res.2.1
            let err := res.2.2
            let n := n1
            let p1 := { p with r := p.r + n1, l := p.l - n }
            (Goutils.notifyW p1, res.1, .ret (n, if p1.l = 0 then normEOF err else err))
          else ({ p with wr := true }, s, .panic)
        else
          if p.r ≤ buf.length then
            let res := Write s (slice buf p.r buf.length)
            let n1 := res.2.1
            let err := res.2.2
            let n := n1
            let p1 := { p with r := p.r + n1 }
            if err ≠ none then
              let res2 := Write res.1 (slice buf 0 p.w)
              let n1 := res2.2.1
              let err := res2.2.2
              let n := n + n1
              let p2 := { p1 with r := n1, l := p.l - n }
              (Goutils.notifyW p2, res2.1, .ret (n, if p2.l = 0 then normEOF err else err))
            else
              let p2 := { p1 with l := p.l - n }
              (Goutils.notifyW p2, res.1, .ret (n, if p2.l = 0 then normEOF err else err))
          else ({ p with wr := true }, s, .panic)

/-- The byte at offset `i` of the memory that starts where the slice `s` starts: the slice,
followed by whatever lies behind it (`past`). -/
def memAt (s : List byte) (past : Nat → byte) (i : Nat) : byte :=
  if h : i < s.length then s[i] else past (i - s.length)

/-- One call `memmove(to, from, n)` of the unsafe paths, as the offsets of `to` and `from`
from the start of the destination and of the source. -/
structure Move where
  dst : Nat
  src : Nat
  n : Nat
  deriving DecidableEq, Repr

/-- Embeds `runtime.memmove` of `n` bytes from offset `src` of the source memory to offset `dst` of
the destination `d`. Bytes that land behind the end of `d` damage the neighbouring memory and
are not part of the result. -/
def memmove (d : List byte) (dst : Nat) (s : List byte) (past : Nat → byte) (src n : Nat) :
    List byte :=
  let moved := (List.range n).map (fun i => memAt s past (src + i))
  d.take dst ++ moved.take (d.length - dst) ++ d.drop (dst + n)

/-- A move reads only inside a source of `sl` bytes and writes only inside a destination of
`dl` bytes. -/
def Move.inBounds (m : Move) (dl sl : Nat) : Bool :=
  decide (m.dst + m.n ≤ dl) && decide (m.src + m.n ≤ sl)

/-- The locals of `pipe.writeUnsafe` that are declared above `start:` and keep their value
over `goto start`. -/
structure UnsafeW where
  bl : Nat
  bPtr : Option Nat
  n : Nat
  deriving DecidableEq, Repr

/-- The locals of a fresh call `writeUnsafe(b)`. -/
def UnsafeW.init (b : List byte) : UnsafeW := { bl := b.length, bPtr := none, n := 0 }

/-- One pass of `pipe.writeUnsafe`. `past` is the memory behind the end of `b`. The third
component lists the `memmove` calls of the pass (destination: the ring storage, source: `b`). -/
def pipe.writeUnsafe (p : pipe) (b : List byte) (past : Nat → byte) (st : UnsafeW) :
    pipe × Res (Nat × Option error) UnsafeW × List Move :=
  if p.close then (p, .ret (st.n, p.writeCloseError), [])
  else if st.bl = 0 then (p, .ret (st.n, none), [])
  else
    let bPtr : Nat := st.bPtr.getD 0
    if p.wr then (p, .deadlock, [])
    else
      match p.buf with
      | none => (p, .ret (st.n, some .ErrBufRecycled), [])
      | some buf =>
        let space := p.c - p.l
        let oldPL := p.l
        if 0 < space then
          if p.w < p.r then
            let spaceL := p.r - p.w
            let copyN := if spaceL < st.bl then spaceL else st.bl
            let w1 := p.w + copyN
            let copied := copyN
            let bl := st.bl - copyN
            let bPtr := bPtr + copyN
            let buf1 := memmove buf w1 b past bPtr copyN
            let p1 := { p with buf := some buf1, w := w1 }
            let log := [Move.mk w1 bPtr copyN]
            if bl = 0 then
              let p2 := { p1 with l := p.l + copied }
              (if oldPL = 0 then Goutils.notifyR p2 else p2, .ret (st.n + copied, none), log)
            else
              let p2 := { p1 with l := p.l + space }
              (if oldPL = 0 then Goutils.notifyR p2 else p2,
                .park { bl := bl, bPtr := some bPtr, n := st.n + space }, log)
          else
            let spaceL := p.c - p.w
            let copyN := if spaceL > st.bl then st.bl else spaceL
            let bl := st.bl - copyN
            let bPtr := bPtr + copyN
            let buf1 := memmove buf p.w b past bPtr copyN
            let log1 := [Move.mk p.w bPtr copyN]
            let w1 := p.w + copyN
            let copied := copyN
            if bl ≠ 0 then
              let spaceL := p.r
              let copyN := if spaceL < bl then spaceL else bl
              let buf2 := memmove buf1 0 b past bPtr copyN
              let log2 := log1 ++ [Move.mk 0 bPtr copyN]
              let bl := bl + copyN
              let w2 := copyN
              let copied := copied + copyN
              let bPtr := bPtr + copyN
              let p1 := { p with buf := some buf2, w := w2 }
              if bl = 0 then
                let p2 := { p1 with l := p.l + copied }
                (if oldPL = 0 then Goutils.notifyR p2 else p2, .ret (st.n + copied, none), log2)
              else
                let p2 := { p1 with l := p.l + space }
                (if oldPL = 0 then Goutils.notifyR p2 else p2,
                  .park { bl := bl, bPtr := some bPtr, n := st.n + space }, log2)
            else
              let p1 := { p with buf := some buf1, w := w1 }
              let p2 := { p1 with l := p.l + copied }
              (if oldPL = 0 then Goutils.notifyR p2 else p2, .ret (st.n + copied, none), log1)
        else
          (if oldPL = 0 then Goutils.notifyR p else p,
            .park { bl := st.bl, bPtr := some bPtr, n := st.n }, [])

/-- One pass of `pipe.readUnsafe` with destination `b`. `past` is the memory behind the end
of the ring storage. `&b[0]` panics for an empty `b`. The fourth component lists the `memmove`
calls of the pass (destination: `b`, source: the ring storage). -/
def pipe.readUnsafe (p : pipe) (b : List byte) (past : Nat → byte) :
    pipe × Res (Nat × Option error × List byte) Unit × List Move :=
  let bl := b.length
  let err : Option error := if p.close then p.readCloseError else none
  if p.close && error.isReaderError err then (p, .ret (0, err, b), [])
  else if bl = 0 then (p, .panic, [])
  else if p.wr then (p, .deadlock, [])
  else
    match p.buf with
    | none => (p, .ret (0, some .ErrBufRecycled, b), [])
    | some buf =>
      if err ≠ none ∧ p.l = 0 then (p, .ret (0, normEOF err, b), [])
      else
        let err : Option error := if err ≠ none then none else err
        let space := p.c - p.l
        if 0 < p.l then
          let res : List byte × Nat × List Move :=
            if p.r < p.w then
              let haveL := p.w - p.r
              let copyN := if haveL < bl then haveL else bl
              let r1 := p.r + copyN
              (memmove b 0 buf past r1 copyN, r1, [Move.mk 0 r1 copyN])
            else
              let haveL := p.c - p.r
              let copyN := if haveL < bl then haveL else bl
              let r1 := p.r + copyN
              let b1 := memmove b 0 buf past r1 copyN
              if copyN ≠ bl then
                let bPtr := copyN
                let haveL := p.w
                let copyN := if haveL > bl - copyN then bl - copyN else haveL
                (memmove b1 bPtr buf past 0 copyN, copyN,
                  [Move.mk 0 r1 bPtr, Move.mk bPtr 0 copyN])
              else (b1, r1, [Move.mk 0 r1 copyN])
          let p1 := { p with r := res.2.1 }
          if bl < p.l then
            let p2 := { p1 with l := p.l - bl }
            (if space = 0 then Goutils.notifyW p2 else p2, .ret (bl, err, res.1), res.2.2)
          else
            let p2 := { p1 with l := 0, r := 0, w := 0 }
            (if space = 0 then Goutils.notifyW p2 else p2, .ret (p.l, normEOF err, res.1),
              res.2.2)
        else (p, .park (), [])

/-- Embeds `sync.Mutex.Lock` on `p.wr`: `none` when the mutex is held, the caller then never
returns. -/
def Lock (p : pipe) : Option pipe :=
  if p.wr then none else some { p with wr := true }

/-- Embeds `sync.Mutex.Unlock` on `p.wr`. -/
def Unlock (p : pipe) : pipe := { p with wr := false }

/-- The read end: the embedded `pipe` and the pool handles `bytes` (`true` for a non-nil
handle). `pooled` counts the calls of `RecycleToPool00`. -/
structure PipeReader where
  pipe : pipe
  bytes : List Bool
  pooled : Nat
  deriving DecidableEq, Repr

/-- The pair of handles built by `PipeWithSize`; both share the one `PipeReader` value. -/
def PipeReader.make (size : Nat) (dirt : Nat → byte) : Option PipeReader :=
  (PipeWithSize size dirt).map fun p => { pipe := p, bytes := [true], pooled := 0 }

/-- Embeds `PipeReader.ReadByte`. -/
def PipeReader.ReadByte (r : PipeReader) : PipeReader × Res (byte × Option error) Unit :=
  match Lock r.pipe with
  | none => (r, .deadlock)
  | some p1 =>
    match p1.buf with
    | none => ({ r with pipe := Unlock p1 }, .ret (0, some .ErrBufRecycled))
    | some buf =>
      if 0 < p1.l then
        match buf[p1.r]? with
        | none => ({ r with pipe := p1 }, .panic)
        | some x => ({ r with pipe := Unlock { p1 with l := p1.l - 1, r := p1.r + 1 } }, .ret (x, none))
      else
        match (Unlock p1).read [0] with
        | (p2, .ret (_, err, b1)) => ({ r with pipe := p2 }, .ret (b1.headD 0, err))
        | (p2, .park ()) => ({ r with pipe := p2 }, .park ())
        | (p2, .deadlock) => ({ r with pipe := p2 }, .deadlock)
        | (p2, .panic) => ({ r with pipe := p2 }, .panic)

/-- Embeds `PipeReader.CloseWithError`. -/
def PipeReader.CloseWithError (r : PipeReader) (err : Option error) :
    PipeReader × Res (Option error) Unit :=
  let res := r.pipe.closeRead err
  ({ r with pipe := res.1 }, res.2)

/-- Embeds `PipeReader.RecycleItems`. The last statement of the source is a second `r.wr.Lock()`. -/
def PipeReader.RecycleItems (r : PipeReader) : PipeReader × Res Unit Unit :=
  match r.CloseWithError (some .ErrBufRecycled) with
  | (r1, .ret _) =>
    match Lock r1.pipe with
    | none => (r1, .deadlock)
    | some p1 =>
      match p1.buf with
      | none => ({ r1 with pipe := Unlock p1 }, .ret ())
      | some _ =>
        let p2 := { p1 with buf := none }
        let pool : Bool := decide (0 < r1.bytes.length) && (r1.bytes.head? == some true)
        let r2 : PipeReader :=
          { pipe := p2, bytes := if pool then [] else r1.bytes,
            pooled := if pool then r1.pooled + 1 else r1.pooled }
        match Lock r2.pipe with
        | none => (r2, .deadlock)
        | some p3 => ({ r2 with pipe := p3 }, .ret ())
  | (r1, .deadlock) => (r1, .deadlock)
  | (r1, _) => (r1, .panic)

/-! ## The writer and the reader running side by side

One goroutine calls `Write`, one calls `Read`, and either end may be closed at any moment.
The mutex `wr` makes the locked part of a pass atomic; a pass is taken as one transition.
A goroutine that reached the `select` is parked until it receives from its wake channel or
from `done`. -/

/-- Where the writing goroutine is: between calls, parked in the `select` of a `Write(data)`
whose next pass runs on `b` with count `n`, or halted (deadlock or panic). -/
inductive WStatus : Type
  | idle
  | parked (data b : List byte) (n : Nat)
  | halted
  deriving DecidableEq, Repr

/-- Where the reading goroutine is: between calls, parked in the `select` of a `Read(b)`, or
halted. -/
inductive RStatus : Type
  | idle
  | parked (b : List byte)
  | halted
  deriving DecidableEq, Repr

/-- A finished call `Write(data)` and what it returned. -/
structure WriteRec where
  data : List byte
  n : Nat
  err : Option error
  deriving DecidableEq, Repr

/-- A finished call `Read(b)`: what it returned and the contents of `b` afterwards. -/
structure ReadRec where
  n : Nat
  err : Option error
  b : List byte
  deriving DecidableEq, Repr

/-- The pipe, the two goroutines, and the record of the calls that have returned. -/
structure Sys where
  p : pipe
  writer : WStatus
  reader : RStatus
  wlog : List WriteRec
  rlog : List ReadRec
  deriving DecidableEq, Repr

/-- What can happen next. -/
inductive Event : Type
  | Write (data : List byte)
  | wakeW
  | doneW
  | Read (b : List byte)
  | wakeR
  | doneR
  | CloseR (err : Option error)
  | CloseW (err : Option error)
  deriving DecidableEq, Repr

/-- The writer runs one pass of `Write(data)` on the remaining `b`. -/
def Sys.passW (s : Sys) (data b : List byte) (n : Nat) : Sys :=
  match s.p.write b n with
  | (p1, .ret (n1, err)) =>
    { s with p := p1, writer := .idle, wlog := s.wlog ++ [{ data := data, n := n1, err := err }] }
  | (p1, .park (b1, n1)) => { s with p := p1, writer := .parked data b1 n1 }
  | (p1, .deadlock) => { s with p := p1, writer := .halted }
  | (p1, .panic) => { s with p := p1, writer := .halted }

/-- The reader runs one pass of `Read(b)`. -/
def Sys.passR (s : Sys) (b : List byte) : Sys :=
  match s.p.read b with
  | (p1, .ret (n, err, b1)) =>
    { s with p := p1, reader := .idle, rlog := s.rlog ++ [{ n := n, err := err, b := b1 }] }
  | (p1, .park ()) => { s with p := p1, reader := .parked b }
  | (p1, .deadlock) => { s with p := p1, reader := .halted }
  | (p1, .panic) => { s with p := p1, reader := .halted }

/-- One transition. An event that is not enabled leaves the state as it is.
`wakeW`: the parked writer takes the token of `notifyW` and does `goto start`.
`doneW`: the parked writer receives from the closed `done` and returns
`(n, p.writeCloseError())`. `wakeR`, `doneR`: the parked reader receives from `notifyR`
or from `done`; both do `goto start`. -/
def Sys.step (s : Sys) : Event → Sys
  | .Write data =>
    match s.writer with
    | .idle => s.passW data data 0
    | _ => s
  | .wakeW =>
    match s.writer with
    | .parked data b n =>
      if s.p.notifyW then { s with p := { s.p with notifyW := false } }.passW data b n else s
    | _ => s
  | .doneW =>
    match s.writer with
    | .parked data _ n =>
      if s.p.done then
        { s with writer := .idle,
                 wlog := s.wlog ++ [{ data := data, n := n, err := s.p.writeCloseError }] }
      else s
    | _ => s
  | .Read b =>
    match s.reader with
    | .idle => s.passR b
    | _ => s
  | .wakeR =>
    match s.reader with
    | .parked b =>
      if s.p.notifyR then { s with p := { s.p with notifyR := false } }.passR b else s
    | _ => s
  | .doneR =>
    match s.reader with
    | .parked b => if s.p.done then s.passR b else s
    | _ => s
  | .CloseR err => { s with p := (s.p.closeRead err).1 }
  | .CloseW err => { s with p := (s.p.closeWrite err).1 }

/-- The state after a sequence of events. -/
def Sys.run (s : Sys) (es : List Event) : Sys := es.foldl Sys.step s

/-- A fresh pair of handles around the pipe `p`. -/
def Sys.init (p : pipe) : Sys :=
  { p := p, writer := .idle, reader := .idle, wlog := [], rlog := [] }

/-- What the finished writes of a log were credited with, in call order: the first `n` bytes
of the data of each. -/
def credited (log : List WriteRec) : List byte := (log.map fun x => x.data.take x.n).flatten

/-- The bytes the writes have been credited with so far, in call order: those of the finished
calls, then the `n` bytes counted so far by the parked one. -/
def Sys.accepted (s : Sys) : List byte :=
  credited s.wlog ++
    (match s.writer with
     | .parked data _ n => data.take n
     | _ => [])

/-- The bytes the reads have returned so far, in call order: the first `n` bytes of the
buffer of every finished `Read`. -/
def Sys.delivered (s : Sys) : List byte :=
  (s.rlog.map fun x => x.b.take x.n).flatten

/-- The `l` bytes of the ring `buf` that start at offset `r` and wrap at the end. -/
def ringc (buf : List byte) (r l : Nat) : List byte := ((buf ++ buf).drop r).take l

/-- The unread bytes of the ring, oldest first: `l` bytes starting at the read cursor and
wrapping at the end of the storage. -/
def pipe.contents (p : pipe) : List byte :=
  match p.buf with
  | none => []
  | some buf => ringc buf p.r p.l

/-- How cursors and length fit together: an empty ring has both cursors at 0, a non-empty
one holds either the span `[r, w)` or the two spans `[r, c)` and `[0, w)`. -/
def Shape (c r w l : Nat) : Prop :=
  (l = 0 ∧ r = 0 ∧ w = 0) ∨ (r < w ∧ l = w - r) ∨ (0 < l ∧ w ≤ r ∧ l + r = c + w)

/-- The ring is well formed: the storage has `c >= 1` bytes, the cursors are at most `c`
(a cursor that reached the end stays at `c` until the next copy wraps it), and cursors and
length fit together. -/
def pipe.Ring (p : pipe) : Prop :=
  0 < p.c ∧ (∃ buf, p.buf = some buf ∧ buf.length = p.c) ∧ p.r ≤ p.c ∧ p.w ≤ p.c ∧
    Shape p.c p.r p.w p.l

/-- The bookkeeping around the ring is consistent: the mutex is free between passes, `done`
is closed exactly when the closed flag is set, a closed pipe has a recorded error and an open
one has none, the reader's error is a `*readerError` and the writer's is not. -/
def pipe.Tidy (p : pipe) : Prop :=
  p.wr = false ∧ p.done = p.close ∧ (p.close = true → p.readCloseError ≠ none) ∧
    error.isReaderError p.werr = false ∧ (p.close = false → p.rerr = none ∧ p.werr = none) ∧
    (∀ e, p.rerr = some e → error.isReaderError (some e) = true)

/-- The pipe after a locked section of `write` that left the storage `buf1` and the write
cursor `w1` and counted `k` more bytes. -/
def pipe.stored (p : pipe) (buf1 : List byte) (w1 k : Nat) : pipe :=
  { p with buf := some buf1, w := w1, l := p.l + k, notifyR := p.notifyR || decide (p.l = 0) }

/-- Two pipe states agree on everything but the ring and the wake tokens. -/
def pipe.SameEnds (p q : pipe) : Prop :=
  q.rerr = p.rerr ∧ q.werr = p.werr ∧ q.close = p.close ∧ q.done = p.done ∧ q.wr = p.wr ∧
    q.c = p.c

/-- From `p` to `q` the close state only grew: a set flag stays set, a recorded error stays. -/
def pipe.Later (p q : pipe) : Prop :=
  (p.close = true → q.close = true) ∧ (∀ e, p.rerr = some e → q.rerr = some e) ∧
    (∀ e, p.werr = some e → q.werr = some e)

/-- Every finished write counted at most its data, and a short count came with the error of
a closed pipe. -/
def LogOk (p : pipe) (log : List WriteRec) : Prop :=
  ∀ x ∈ log, x.n ≤ x.data.length ∧
    (x.n < x.data.length → x.err ≠ none ∧ p.close = true ∧ (x.err = p.rerr ∨ x.err = p.werr))

/-- The invariant of the running system. -/
def Sys.Inv (s : Sys) : Prop :=
  s.p.Ring ∧ s.p.Tidy ∧ s.delivered ++ s.p.contents = s.accepted ∧
    s.writer ≠ .halted ∧ s.reader ≠ .halted ∧
    (∀ data b n, s.writer = .parked data b n → b = data.drop n ∧ n < data.length) ∧
    LogOk s.p s.wlog

/-- The calls `Read(b)` for the buffers `bs`, one after the other with nothing in between.
Each entry holds the ring length when its call was issued and how the call ended. -/
def pipe.reads (p : pipe) :
    List (List byte) → List (Nat × Res (Nat × Option error × List byte) Unit)
  | [] => []
  | b :: bs => (p.l, (p.read b).2) :: ((p.read b).1).reads bs

/-- The bytes a `Read` handed to its caller: the first `n` bytes of its buffer. -/
def got : Res (Nat × Option error × List byte) Unit → List byte
  | .ret (n, _, b) => b.take n
  | _ => []

/-- The property of the ring the data model states: `0 <= l <= c` and `l` is congruent to
`w - r` modulo `c`. -/
def pipe.RingClaim (p : pipe) : Prop :=
  p.l ≤ p.c ∧ (p.l : Int) ≡ (p.w : Int) - (p.r : Int) [ZMOD (p.c : Int)]

/-- The bytes counted so far by the `Write` that is parked, if one is. -/
def Sys.pending (s : Sys) : List byte :=
  match s.writer with
  | .parked data _ n => data.take n
  | _ => []

/-- The reader's close error once `RecycleItems` has run on a reader whose close error was
`rerr`: the earlier error if there was one, otherwise the wrapped `ErrBufRecycled`. -/
def recycledErr (rerr : Option error) : error :=
  match rerr with
  | some x => x
  | none => .readerError .ErrBufRecycled

/-- A pipe of capacity 4 whose storage the pool handed out zeroed. -/
def pipe4 : pipe :=
  { rerr := none, werr := none, buf := some [0, 0, 0, 0], r := 0, w := 0, l := 0, c := 4,
    wr := false, done := false, notifyR := false, notifyW := false, close := false }

/-- A run on `pipe4`: a write of six bytes that parks after four, a read of three, the
writer's wake-up, and a read of five. -/
def demoRun : List Event :=
  [.Write [1, 2, 3, 4, 5, 6], .Read [0, 0, 0], .wakeW, .Read [0, 0, 0, 0, 0]]

/-- A run on `pipe4` in which the reader closes while a write of six bytes is parked after
four of them. -/
def cutRun : List Event :=
  [.Write [1, 2, 3, 4, 5, 6], .CloseR none, .doneW]

/-- The state of `pipe4` and its two goroutines once a write of six bytes has parked. -/
def fullSys : Sys := (Sys.init pipe4).run [.Write [1, 2, 3, 4, 5, 6]]

/-- The pipe `pipe4` after `Write([1, 2, 3])`. -/
def pipe4abc : pipe := ((Sys.init pipe4).run [.Write [1, 2, 3]]).p

/-- The read end of `pipe4`. -/
def reader4 : PipeReader := { pipe := pipe4, bytes := [true], pooled := 0 }

/-- The read end of `pipe4` after `CloseWithError(custom 1)` and then `RecycleItems()`. -/
def recycled4 : PipeReader :=
  ((reader4.CloseWithError (some (.custom 1))).1).RecycleItems.1

/-- A sink that takes everything it is offered and counts it. -/
def countSink (s : Nat) (b : List byte) : Nat × Nat × Option error := (s + b.length, b.length, none)

/-- A pipe of capacity 8 whose storage the pool handed out zeroed. -/
def pipe8 : pipe :=
  { rerr := none, werr := none, buf := some [0, 0, 0, 0, 0, 0, 0, 0], r := 0, w := 0, l := 0,
    c := 8, wr := false, done := false, notifyR := false, notifyW := false, close := false }

/-- The pipe `pipe8` after `Write` of six bytes and a `Read` of two: `r = 2`, `w = 6`,
`l = 4`. -/
def pipe8mid : pipe := ((pipe8.write [11, 12, 13, 14, 15, 16] 0).1.read [0, 0]).1

/-- The memory behind the caller's slice in the examples: bytes of value 7. -/
def sevens : Nat → byte := fun _ => 7

/-- A sink that takes every byte it is offered and keeps them in order. -/
def keepSink (s : List byte) (b : List byte) : List byte × Nat × Option error :=
  (s ++ b, b.length, none)

/-- The pipe `pipe4` after `Write` of four bytes, `Read` of two, `Write` of two and `Read` of
two: `r = 4`, `w = 2`, `l = 2`, the unread bytes are 5, 6 at offsets 0, 1. -/
def pipe4end : pipe :=
  ((((pipe4.write [1, 2, 3, 4] 0).1.read [0, 0]).1.write [5, 6] 0).1.read [0, 0]).1

/-- The pipe `pipe4` after `Write([1, 2, 3])`, a `WriteTo` into `keepSink`, `Write([4, 5])`
and the writer's `Close()`: `r = 3`, `w = 1`, `l = 2`, the unread bytes 4, 5 wrap. -/
def pipe4wrap : pipe :=
  (((((pipe4.write [1, 2, 3] 0).1.WriteTo keepSink []).1).write [4, 5] 0).1.closeWrite none).1

/-- The read end around the pipe `pipe4end`. -/
def reader4end : PipeReader := { pipe := pipe4end, bytes := [true], pooled := 0 }

/-- The write end: it holds the `PipeReader` value the read end points to. -/
structure PipeWriter where
  r : PipeReader
  deriving DecidableEq, Repr

/-- Embeds `PipeWriter.CloseWithError`. -/
def PipeWriter.CloseWithError (w : PipeWriter) (err : Option error) :
    PipeWriter × Res (Option error) Unit :=
  let res := w.r.pipe.closeWrite err
  ({ r := { w.r with pipe := res.1 } }, res.2)

/-- A call that closes: `CloseWithError(err)` on the read end or on the write end (`Close()`
is `CloseWithError(nil)`), or `RecycleItems()` from either handle. -/
inductive CloseCall : Type
  | reader (err : Option error)
  | writer (err : Option error)
  | recycle
  deriving DecidableEq, Repr

/-- One closing call on the shared `PipeReader` value: the state it leaves and whether it
executed `close(p.done)`, which shows as `done` going from open to closed or as the panic of
closing a closed channel. -/
def PipeReader.closeCall (r : PipeReader) (c : CloseCall) : PipeReader × Bool :=
  match c with
  | .reader err =>
    let x := r.CloseWithError err
    (x.1, (!r.pipe.done && x.1.pipe.done) || decide (x.2 = .panic))
  | .writer err =>
    let x := PipeWriter.CloseWithError { r := r } err
    (x.1.r, (!r.pipe.done && x.1.r.pipe.done) || decide (x.2 = .panic))
  | .recycle =>
    let x := r.RecycleItems
    (x.1, (!r.pipe.done && x.1.pipe.done) || decide (x.2 = .panic))

/-- A sequence of closing calls: for each call the state it leaves and whether it executed
`close(p.done)`. -/
def closeRun (r : PipeReader) : List CloseCall → List (PipeReader × Bool)
  | [] => []
  | c :: cs => r.closeCall c :: closeRun (r.closeCall c).1 cs

/-- The read end of `pipe4` after `CloseWithError(custom 1)`. -/
def readerShut : PipeReader := (reader4.CloseWithError (some (.custom 1))).1

/-- The write end of `pipe4` after `CloseWithError(custom 2)`. -/
def writerShut : PipeWriter :=
  (PipeWriter.CloseWithError { r := reader4 } (some (.custom 2))).1

/-- The pipe `pipe4` after `Write([1])` and the writer's `Close()`. -/
def pipe4one : pipe := ((pipe4.write [1] 0).1.closeWrite none).1

/-- A sequence of closing calls: the writer closes, the reader closes, the buffer is
recycled, the writer closes again. -/
def closeCalls : List CloseCall :=
  [.writer none, .reader (some (.custom 1)), .recycle, .writer (some (.custom 2))]

/-- The span of the ring `WriteTo` offers to the sink first: `p.buf[p.r:p.w]` when
`p.r < p.w`, otherwise `p.buf[p.r:]`. -/
def pipe.firstSpan (p : pipe) : List byte :=
  match p.buf with
  | none => []
  | some buf => if p.r < p.w then slice buf p.r p.w else slice buf p.r buf.length

/-- A sink that takes one byte of whatever it is offered and reports no error. -/
def oneByteSink (s : List byte) (b : List byte) : List byte × Nat × Option error :=
  (s ++ b.take 1, min 1 b.length, none)

/-- The state of `pipe4` once a `Write` of two bytes has returned. -/
def pipe4ab : pipe := (pipe4.write [1, 2] 0).1

/-- The read end of the full pipe of `fullSys`. -/
def readerFull : PipeReader := { pipe := fullSys.p, bytes := [true], pooled := 0 }

/-! ## The copy helpers of `io/io.go` -/

/-- The method `Read` of an `io.Reader` over a reader state `ρ`: called with a buffer of the
given length it yields the next state, the bytes it put at the front of the buffer (their
number is the count it returns) and its error. -/
abbrev ReadFn (ρ : Type) := ρ → Nat → ρ × List byte × Option error

/-- The method `Write` of an `io.Writer` over a writer state `σ`: the next state, the count
it returns (a Go `int`, which a broken writer may make negative or too large) and its
error. -/
abbrev WriteFn (σ : Type) := σ → List byte → σ × Int × Option error

/-- The buffer source `bpool` is an external library and is taken as a parameter:
`Get(size)` hands out a `*bpool.Bytes` whose slice `B` has length `glen size` and capacity
`gcap size` and holds whatever the pool left there (`dirt`). -/
structure Pool where
  glen : Nat → Nat
  gcap : Nat → Nat
  dirt : Nat → byte

/-- A `*bpool.Bytes`: the backing array of its slice `B`, from the start of `B` to its
capacity, and the length of `B`. -/
structure Bytes where
  mem : List byte
  len : Nat
  deriving DecidableEq, Repr

/-- Embeds `bpool.Get(size)`. -/
def Pool.Get (P : Pool) (size : Nat) : Bytes :=
  { mem := (List.range (P.gcap size)).map P.dirt, len := P.glen size }

/-- The contents of the slice `pb.B`. -/
def Bytes.B (x : Bytes) : List byte := x.mem.take x.len

/-- The loop of `copyBuffer` (the same loop is the body of `CopyBufferMust`), run for at most
`fuel` rounds with a buffer of length `bufLen` and capacity `bufCap`; `written` is the
count so far. `Res.park` says the loop is still running after `fuel` rounds, `Res.panic`
that `buf[0:nr]` was out of range. -/
def copyLoop {ρ σ : Type} (Read : ReadFn ρ) (Write : WriteFn σ) (bufLen bufCap : Nat) :
    Nat → ρ → σ → Int → ρ × σ × Res (Int × Option error) Unit
  | 0, r, s, _ => (r, s, .park ())
  | fuel + 1, r, s, written =>
    let rd := Read r bufLen
    let nr : Int := rd.2.1.length
    let er := rd.2.2
    if 0 < nr then
      if bufCap < rd.2.1.length then (rd.1, s, .panic)
      else
        let wr := Write s rd.2.1
        let bad : Bool := decide (wr.2.1 < 0) || decide (nr < wr.2.1)
        let nw : Int := if bad then 0 else wr.2.1
        let ew : Option error :=
          if bad && wr.2.2 == none then some .errInvalidWrite else wr.2.2
        let written1 := written + nw
        if ew ≠ none then (rd.1, wr.1, .ret (written1, ew))
        else if nr ≠ nw then (rd.1, wr.1, .ret (written1, some .ErrShortWrite))
        else
          match er with
          | some e => (rd.1, wr.1, .ret (written1, if e = .EOF then none else some e))
          | none => copyLoop Read Write bufLen bufCap fuel rd.1 wr.1 written1
    else
      match er with
      | some e => (rd.1, s, .ret (written, if e = .EOF then none else some e))
      | none => copyLoop Read Write bufLen bufCap fuel rd.1 s written

/-- Embeds `copyBuffer(dst, src, buf)`: `wt` is the result of `src.WriteTo(dst)` when `src`
implements `io.WriterTo`, `rf` the result of `dst.ReadFrom(src)` when `dst` implements
`io.ReaderFrom`, and `loop` the result of the read/write loop. -/
def copyBuffer {α : Type} (wt rf : Option α) (loop : α) : α :=
  match wt with
  | some x => x
  | none =>
    match rf with
    | some x => x
    | none => loop

/-- Embeds `Copy(dst, src)`, which is `copyBuffer(dst, src, nil)`. -/
def Copy {α : Type} (wt rf : Option α) (loop : α) : α := copyBuffer wt rf loop

/-- Embeds `Copy(dst, pr)` for a `*PipeReader` source: the type has the method `WriteTo`, so
the copy is the one call `pr.WriteTo(dst)` and the loop is not entered. -/
def pipe.CopyTo {σ : Type} (p : pipe) (W : σ → List byte → σ × Nat × Option error) (s : σ) :
    pipe × σ × Res (Nat × Option error) Unit :=
  Copy (some (p.WriteTo W s)) none (p, s, .park ())

/-- The method `Read` of the standard library's `*io.LimitedReader`, which
`io.LimitReader(src, n)` returns; its state is the state of `src` and the remaining count
`N`. -/
def limitedRead {ρ : Type} (Read : ReadFn ρ) : ReadFn (ρ × Int) :=
  fun st len =>
    if st.2 ≤ 0 then (st, [], some .EOF)
    else
      let len1 : Nat := if (len : Int) > st.2 then st.2.toNat else len
      let rd := Read st.1 len1
      ((rd.1, st.2 - rd.2.1.length), rd.2.1, rd.2.2)

/-- The buffer size `copyBuffer` asks the pool for when `buf` is nil and `src` is a
`*io.LimitedReader` with remaining count `N`. -/
def limitedSize (N : Int) : Nat :=
  if (32 * 1024 : Int) > N then (if N < 1 then 1 else N.toNat) else 32 * 1024

/-- Embeds `CopyN(dst, src, n)` for a `src` and a `dst` given by their `Read` and `Write`
methods; `rf` is the result of `dst.ReadFrom` on the limited reader when `dst` implements
`io.ReaderFrom`. -/
def CopyN {ρ σ : Type} (P : Pool) (Read : ReadFn ρ) (Write : WriteFn σ)
    (rf : Option ((ρ × Int) × σ × Res (Int × Option error) Unit))
    (fuel : Nat) (r : ρ) (s : σ) (n : Int) :
    (ρ × Int) × σ × Res (Int × Option error) Unit :=
  let pb := P.Get (limitedSize n)
  let res := Copy none rf
    (copyLoop (limitedRead Read) Write pb.B.length pb.mem.length fuel (r, n) s 0)
  match res.2.2 with
  | .ret (written, err) =>
    if written = n then (res.1, res.2.1, .ret (n, none))
    else if written < n ∧ err = none then (res.1, res.2.1, .ret (written, some .EOF))
    else (res.1, res.2.1, .ret (written, err))
  | x => (res.1, res.2.1, x)

/-- The loop of `ReadAll(r)`, run for at most `fuel` rounds. `mem` is the backing array the
local slice `b` and `pb.B` share, `pbLen` the length of `pb.B` and `bLen` the length of `b`.
`Res.panic` is a slice out of range. -/
def ReadAll.loop {ρ : Type} (P : Pool) (Read : ReadFn ρ) :
    Nat → ρ → List byte → Nat → Nat → ρ × Res (Bytes × Option error) Unit
  | 0, r, _, _, _ => (r, .park ())
  | fuel + 1, r, mem, pbLen, bLen =>
    let rd := Read r (mem.length - bLen)
    let mem1 := mem.take bLen ++ rd.2.1 ++ mem.drop (bLen + rd.2.1.length)
    let bLen1 := bLen + rd.2.1.length
    if mem.length < bLen1 then (rd.1, .panic)
    else
      match rd.2.2 with
      | some e =>
        (rd.1, .ret ({ mem := mem1, len := pbLen }, if e = .EOF then none else some e))
      | none =>
        if bLen1 = mem.length then
          let newPb := P.Get (bLen1 + bLen1 / 2)
          let k := min newPb.len bLen1
          let mem2 := mem1.take k ++ newPb.mem.drop k
          if newPb.mem.length < bLen1 then (rd.1, .panic)
          else ReadAll.loop P Read fuel rd.1 mem2 newPb.len bLen1
        else ReadAll.loop P Read fuel rd.1 mem1 pbLen bLen1

/-- Embeds `ReadAll(r)`: `pb = bpool.Get(512)`, `b := pb.B`, then the loop. The result is the
returned `pb` and `err`. -/
def ReadAll {ρ : Type} (P : Pool) (Read : ReadFn ρ) (fuel : Nat) (r : ρ) :
    ρ × Res (Bytes × Option error) Unit :=
  if (P.Get 512).mem.length < (P.Get 512).len then (r, .panic)
  else ReadAll.loop P Read fuel r (P.Get 512).mem (P.Get 512).len (P.Get 512).len

/-- A reader over a byte sequence: every `Read` hands out as many of the remaining bytes as
the buffer takes, and `io.EOF` once none remain. -/
def listRead : ReadFn (List byte) :=
  fun rest len => if rest = [] then ([], [], some .EOF) else (rest.drop len, rest.take len, none)

/-- A writer that takes every byte and keeps them in order. -/
def keepWrite : WriteFn (List byte) := fun s b => (s ++ b, b.length, none)

/-- A pool whose `Get(size)` hands out a zeroed slice of length 0 and capacity `size`. -/
def poolEmpty : Pool := { glen := fun _ => 0, gcap := fun n => n, dirt := fun _ => 0 }

/-- A pool whose `Get(size)` hands out a zeroed slice of length and capacity `size`. -/
def poolFull : Pool := { glen := fun n => n, gcap := fun n => n, dirt := fun _ => 0 }

/-- The returned slice `pb.B` of a call that returned, and nothing otherwise. -/
def readAllB {ρ : Type} : ρ × Res (Bytes × Option error) Unit → Option (List byte × Option error)
  | (_, .ret (pb, err)) => some (pb.B, err)
  | _ => none

/-! ## Host and port strings (`net.go`)

A Go string is a sequence of bytes. -/

/-- The byte of an ASCII character. -/
def byteOf (c : Char) : byte := c.toNat.toUInt8

/-- The bytes of a string literal of ASCII characters. -/
def lit (s : String) : List byte := s.toList.map byteOf

/-- The standard library's `strings.LastIndexByte`: the index of the last `c` in `s`, or -1. -/
def LastIndexByte : List byte → byte → Int
  | [], _ => -1
  | x :: xs, c =>
    if LastIndexByte xs c ≠ -1 then LastIndexByte xs c + 1 else if x = c then 0 else -1

/-- The standard library's `strings.IndexByte`: the index of the first `c` in `s`, or -1. -/
def IndexByte : List byte → byte → Int
  | [], _ => -1
  | x :: xs, c => if x = c then 0 else if IndexByte xs c = -1 then -1 else IndexByte xs c + 1

/-- The standard library's `strings.HasPrefix`. -/
def HasPrefix (s pre : List byte) : Bool :=
  decide (pre.length ≤ s.length) && (s.take pre.length == pre)

/-- The standard library's `strings.HasSuffix`. -/
def HasSuffix (s suf : List byte) : Bool :=
  decide (suf.length ≤ s.length) && (s.drop (s.length - suf.length) == suf)

/-- Embeds `validOptionalPort`. The source ranges over the runes of `port[1:]`; a rune is
an ASCII digit exactly when it is one byte in `'0'..'9'`, and every byte of a rune that is
not ASCII is above `'9'`, so the test is the same byte by byte. -/
def validOptionalPort (port : List byte) : Bool :=
  match port with
  | [] => true
  | c :: rest =>
    if c ≠ byteOf ':' then false
    else rest.all fun b => !(decide (b < byteOf '0') || decide (b > byteOf '9'))

/-- Embeds `SplitHostAndPortStd`: the result is `(host, port)`. -/
def SplitHostAndPortStd (hostPort : List byte) : List byte × List byte :=
  let colon := LastIndexByte hostPort (byteOf ':')
  let hp : List byte × List byte :=
    if colon ≠ -1 ∧ validOptionalPort (hostPort.drop colon.toNat) = true then
      (hostPort.take colon.toNat, hostPort.drop (colon.toNat + 1))
    else (hostPort, [])
  if HasPrefix hp.1 (lit "[") && HasSuffix hp.1 (lit "]") then
    (slice hp.1 1 (hp.1.length - 1), hp.2)
  else hp

/-- Embeds `AddMissingPort`. -/
def AddMissingPort (addr : List byte) (isTLS : Bool) : List byte :=
  let addrLen := addr.length
  if addrLen = 0 then addr
  else
    let port := if isTLS then lit ":443" else lit ":80"
    if addr[0]? = some (byteOf '[') then
      if addr[addrLen - 1]? ≠ some (byteOf ']') then addr else addr ++ port
    else
      let lastColumnPos := LastIndexByte addr (byteOf ':')
      if lastColumnPos > 0 then
        let fistColumnPos := IndexByte (addr.take lastColumnPos.toNat) (byteOf ':')
        if fistColumnPos > 0 then (lit "[" ++ addr ++ lit "]") ++ port
        else addr
      else addr ++ port

/-! ## The compressor pools (`compress/pools.go`) -/

/-- The value a Go `int` (64 bits) holds after an operation whose exact result is `x`. -/
def wrap64 (x : Int) : Int := (x + 2 ^ 63) % 2 ^ 64 - 2 ^ 63

/-- The conversion `uint(x)` of an `int`. -/
def toUint (x : Int) : Nat := (x % 2 ^ 64).toNat

def levelCount : Nat := 12

/-- A `*CompressPool[T]`: the level its `New` builds writers with, and `needBuffer`. -/
structure CompressPool where
  level : Int
  needBuffer : Bool
  deriving DecidableEq, Repr

/-- A `*PoolContainer[T]`, its `pools` filled in by `init()` from `poolsInit`. -/
structure PoolContainer where
  pools : List CompressPool
  defaultLevel : Int
  offset : Int
  deriving DecidableEq, Repr

/-- Modelled from the spec: the constant `DefaultCompression` of the external packages
`gzip` and `zlib`, the default level -1. -/
def DefaultCompression : Int := -1

/-- Modelled from the spec: the encoder level `zstd.SpeedFastest` of the external package
`zstd`, level 1 (fastest). -/
def SpeedFastest : Int := 1

/-- Modelled from the spec: the encoder level `zstd.SpeedDefault`, the default level 2. -/
def SpeedDefault : Int := 2

/-- Modelled from the spec: the encoder level `zstd.SpeedBestCompression`, level 4 (best
compression). -/
def SpeedBestCompression : Int := 4

/-- Embeds `DefaultGzipCompressPools`: pool `i` builds its writers with `level := i - 2`. -/
def DefaultGzipCompressPools : PoolContainer :=
  { defaultLevel := DefaultCompression, offset := 2,
    pools := (List.range levelCount).map fun i => { level := (i : Int) - 2, needBuffer := true } }

/-- Embeds `DefaultDeflateCompressPools`. -/
def DefaultDeflateCompressPools : PoolContainer :=
  { defaultLevel := DefaultCompression, offset := 2,
    pools := (List.range levelCount).map fun i => { level := (i : Int) - 2, needBuffer := true } }

/-- The level of pool `i` of `DefaultZstdCompressPools`. -/
def zstdLevel (i : Int) : Int :=
  let level := i
  let level := if level ≥ 5 then SpeedBestCompression else level
  let level := if level ≤ 0 then SpeedFastest else level
  level

/-- Embeds `DefaultZstdCompressPools`. -/
def DefaultZstdCompressPools : PoolContainer :=
  { defaultLevel := SpeedDefault, offset := 0,
    pools := (List.range levelCount).map fun i => { level := zstdLevel i, needBuffer := false } }

/-- Embeds `DefaultCBrotliCompressPools`: pool `i` builds its writers with `Quality: i`. -/
def DefaultCBrotliCompressPools : PoolContainer :=
  { defaultLevel := 3, offset := 0,
    pools := (List.range levelCount).map fun i => { level := (i : Int), needBuffer := false } }

/-- Embeds `PoolContainer.Pool(level)` for an `int` `level`; `none` is `panic("never
happen")`. -/
def PoolContainer.Pool (cps : PoolContainer) (level : Int) : Option CompressPool :=
  let level := wrap64 (cps.offset + level)
  let level :=
    if level < 0 ∨ level ≥ levelCount then wrap64 (cps.defaultLevel + cps.offset) else level
  if toUint level < cps.pools.length then cps.pools[toUint level]? else none

/-- The values of a Go `int`. -/
def isInt64 (x : Int) : Prop := -2 ^ 63 ≤ x ∧ x < 2 ^ 63

instance (x : Int) : Decidable (isInt64 x) := by
  unfold isInt64
  infer_instance

/-- The state of `pipe4abc` once the read end has been closed with a nil error. -/
def pipe4abcShut : pipe := (pipe4abc.closeRead none).1

/-- The loop of `CopyBufferMust`, run for at most `fuel` rounds with a buffer of length
`bufLen` and capacity `bufCap`; `written` is the count so far. `Res.park` says the loop is
still running after `fuel` rounds, `Res.panic` that `buf[0:nr]` was out of range. -/
def copyMustLoop {ρ σ : Type} (Read : ReadFn ρ) (Write : WriteFn σ) (bufLen bufCap : Nat) :
    Nat → ρ → σ → Int → ρ × σ × Res (Int × Option error) Unit
  | 0, r, s, _ => (r, s, .park ())
  | fuel + 1, r, s, written =>
    let rd := Read r bufLen
    let nr : Int := rd.2.1.length
    let er := rd.2.2
    if nr > 0 then
      if bufCap < rd.2.1.length then (rd.1, s, .panic)
      else
        let wr := Write s rd.2.1
        let nw := wr.2.1
        let ew := wr.2.2
        let bad : Bool := decide (nw < 0) || decide (nr < nw)
        let nw : Int := if bad then 0 else nw
        let ew : Option error := if bad && ew == none then some .errInvalidWrite else ew
        let written := written + nw
        if ew ≠ none then (rd.1, wr.1, .ret (written, ew))
        else if nr ≠ nw then (rd.1, wr.1, .ret (written, some .ErrShortWrite))
        else if er ≠ none then (rd.1, wr.1, .ret (written, if er ≠ some .EOF then er else none))
        else copyMustLoop Read Write bufLen bufCap fuel rd.1 wr.1 written
    else if er ≠ none then (rd.1, s, .ret (written, if er ≠ some .EOF then er else none))
    else copyMustLoop Read Write bufLen bufCap fuel rd.1 s written

/-- Embeds `CopyBufferMust(dst, src, buf)`; `buf` is `none` for a nil slice. -/
def CopyBufferMust {ρ σ : Type} (Read : ReadFn ρ) (Write : WriteFn σ) (buf : Option Bytes)
    (fuel : Nat) (r : ρ) (s : σ) : ρ × σ × Res (Int × Option error) Unit :=
  match buf with
  | none => (r, s, .panic)
  | some b =>
    if b.B.length = 0 then (r, s, .panic)
    else copyMustLoop Read Write b.B.length b.mem.length fuel r s 0

/-- Embeds `CopyBuffer(dst, src, buf)`: `wt` and `rf` are as in `copyBuffer`, `lim` is the
remaining count when `src` is a `*io.LimitedReader`, and `buf` is `none` for a nil slice,
for which `copyBuffer` takes a buffer from the pool. -/
def CopyBuffer {ρ σ : Type} (P : Pool) (Read : ReadFn ρ) (Write : WriteFn σ)
    (wt rf : Option (ρ × σ × Res (Int × Option error) Unit)) (lim : Option Int)
    (buf : Option Bytes) (fuel : Nat) (r : ρ) (s : σ) :
    ρ × σ × Res (Int × Option error) Unit :=
  match buf with
  | some b =>
    if b.B.length = 0 then (r, s, .panic)
    else copyBuffer wt rf (copyLoop Read Write b.B.length b.mem.length fuel r s 0)
  | none =>
    let size : Nat :=
      match lim with
      | some N => limitedSize N
      | none => 32 * 1024
    let pb := P.Get size
    copyBuffer wt rf (copyLoop Read Write pb.B.length pb.mem.length fuel r s 0)

/-- How one round of a copy ends: it adds `count` to `written` and either stops the copy
with `err` or lets it go on. -/
inductive Verdict : Type
  | stop (count : Int) (err : Option error)
  | go (count : Int)
  deriving DecidableEq, Repr

/-- The accounting rule for a round in which `src.Read` returned `offered` bytes (at least
one) and the error `er`, and `dst.Write` reported the count `cnt` and the error `ew`. A
count that is negative or above `offered` is invalid and counts as 0. The copy stops with
the write error if the write failed, with the invalid-write error after an invalid count,
with `io.ErrShortWrite` if fewer bytes than offered were accepted, with the read error if
there is one (nil for `io.EOF`), and goes on otherwise. -/
def writeVerdict (offered : Nat) (cnt : Int) (ew er : Option error) : Verdict :=
  let invalid : Prop := cnt < 0 ∨ (offered : Int) < cnt
  let counted : Int := if invalid then 0 else cnt
  match ew with
  | some e => .stop counted (some e)
  | none =>
    if invalid then .stop 0 (some .errInvalidWrite)
    else if cnt < offered then .stop cnt (some .ErrShortWrite)
    else
      match er with
      | some .EOF => .stop cnt none
      | some e => .stop cnt (some e)
      | none => .go cnt

/-- The accounting rule for a round in which `src.Read` returned no bytes: nothing is
written, and the copy stops on a read error (nil for `io.EOF`). -/
def readVerdict (er : Option error) : Verdict :=
  match er with
  | some .EOF => .stop 0 none
  | some e => .stop 0 (some e)
  | none => .go 0

/-- The copy as the accounting rule describes it: rounds of one `src.Read` into the buffer
and, when it returned bytes, one `dst.Write` of exactly those bytes, `written` growing by
the count of each round, until a round stops the copy. -/
def copyRule {ρ σ : Type} (Read : ReadFn ρ) (Write : WriteFn σ) (bufLen bufCap : Nat) :
    Nat → ρ → σ → Int → ρ × σ × Res (Int × Option error) Unit
  | 0, r, s, _ => (r, s, .park ())
  | fuel + 1, r, s, written =>
    let rd := Read r bufLen
    if rd.2.1 = [] then
      match readVerdict rd.2.2 with
      | .stop k err => (rd.1, s, .ret (written + k, err))
      | .go k => copyRule Read Write bufLen bufCap fuel rd.1 s (written + k)
    else if bufCap < rd.2.1.length then (rd.1, s, .panic)
    else
      let wr := Write s rd.2.1
      match writeVerdict rd.2.1.length wr.2.1 wr.2.2 rd.2.2 with
      | .stop k err => (rd.1, wr.1, .ret (written + k, err))
      | .go k => copyRule Read Write bufLen bufCap fuel rd.1 wr.1 (written + k)

/-- A writer that takes one byte fewer than it is offered and reports no error. -/
def shortWrite : WriteFn (List byte) := fun s b => (s ++ b.take (b.length - 1), b.length - 1, none)

/-- A buffer of two zeroed bytes. -/
def buf2 : Bytes := { mem := [0, 0], len := 2 }

/-! ## MIME types worth compressing (`compress/foundation.go`) -/

/-- The read `*(*uint32)(unsafe.Pointer(&s[k]))`: the four bytes of memory that start at
`s[k]`, in memory order (two `uint32` values read this way are equal exactly when their
four bytes are). It is `none` when the four bytes do not all lie inside `s`: `&s[k]`
panics for `k >= len(s)`, and otherwise the read runs past the end of the slice. -/
def word32 (s : List byte) (k : Nat) : Option (List byte) :=
  if k + 4 ≤ s.length then some (slice s k (k + 4)) else none

/-- The standard library's `slices.Index`: the index of the first `v` in `s`, or -1. -/
def slicesIndex {α : Type} [DecidableEq α] : List α → α → Int
  | [], _ => -1
  | x :: xs, v => if x = v then 0 else if slicesIndex xs v = -1 then -1 else slicesIndex xs v + 1

def compressedMimes : List (List byte) :=
  [lit "application/javascript", lit "application/json", lit "application/xml",
   lit "image/svg+xml",
   lit "text/html", lit "text/css", lit "text/plain", lit "text/xml",
   lit "text/csv", lit "text/yaml", lit "text/markdown"]

def applicationPrefixL : Nat := (lit "application").length

def imagePrefixL : Nat := (lit "image").length

def texPrefixL : Nat := (lit "text").length

def applicationMinLen : Nat := (lit "application/xml").length

def textMinLen : Nat := (lit "text/csv").length

def imageMinLen : Nat := (lit "image/svg+xml").length

/-- The package variables `init` fills in. `imageMimes` is the one element of the array
`[1]uint32`, zero until it is assigned. -/
structure MimeTables where
  applicationPrefixHash : List byte
  textPrefixHash : List byte
  imagePrefixHash : List byte
  applicationMimes : List (List byte)
  textMimes : List (List byte)
  imageMimes : List byte
  deriving DecidableEq, Repr

/-- The body of the loop of `init` for the entry `m`; `none` when a word read leaves `m`. -/
def initStep (t : MimeTables) (m : List byte) : Option MimeTables :=
  let t1 : Option MimeTables :=
    if HasPrefix m (lit "application/") then
      (word32 m applicationPrefixL).map fun w =>
        { t with applicationMimes := t.applicationMimes ++ [w] }
    else some t
  let t2 : Option MimeTables :=
    t1.bind fun t =>
      if HasPrefix m (lit "text/") then
        (word32 m texPrefixL).map fun w => { t with textMimes := t.textMimes ++ [w] }
      else some t
  t2.bind fun t =>
    if HasPrefix m (lit "image/") then
      (word32 m imagePrefixL).map fun w => { t with imageMimes := w }
    else some t

/-- The loop `for _, m := range ms` of `init`. -/
def initLoop : List (List byte) → MimeTables → Option MimeTables
  | [], t => some t
  | m :: ms, t => (initStep t m).bind (initLoop ms)

/-- Embeds the package's `init()`; `none` when a word read leaves the array or entry it
reads from. -/
def init : Option MimeTables :=
  match word32 (lit "appl") 0, word32 (lit "text") 0, word32 (lit "imag") 0 with
  | some a, some t, some i =>
    initLoop compressedMimes
      { applicationPrefixHash := a, textPrefixHash := t, imagePrefixHash := i,
        applicationMimes := [], textMimes := [], imageMimes := [0, 0, 0, 0] }
  | _, _, _ => none

/-- Embeds `CheckMimeOk(mime)` with the package variables as `t`; `none` when a word read
leaves `mime`. -/
def CheckMimeOkWith (t : MimeTables) (mime : List byte) : Option Bool :=
  let l := mime.length
  if l < 4 then some false
  else
    match word32 mime 0 with
    | none => none
    | some m =>
      if m = t.applicationPrefixHash then
        if l < applicationMinLen then some false
        else
          match word32 mime applicationPrefixL with
          | none => none
          | some m1 => some (decide (slicesIndex t.applicationMimes m1 ≠ -1))
      else if m = t.textPrefixHash then
        if l < textMinLen then some false
        else
          match word32 mime texPrefixL with
          | none => none
          | some m1 => some (decide (slicesIndex t.textMimes m1 ≠ -1))
      else if m = t.imagePrefixHash then
        if l < imageMinLen then some false
        else
          match word32 mime imagePrefixL with
          | none => none
          | some m1 => some (decide (t.imageMimes = m1))
      else some false

/-- Embeds `CheckMimeOk(mime)` as the program runs it, after `init()`. -/
def CheckMimeOk (mime : List byte) : Option Bool :=
  match init with
  | none => none
  | some t => CheckMimeOkWith t mime

/-! ## More of `net.go` -/

/-- The standard library's `strings.Count(s, sep)` for a separator of one byte. -/
def Count (s : List byte) (c : byte) : Nat := s.count c

/-- The errors of `SplitHostAndPort`: its own `fmt.Errorf("invalid hostport: %q", h)` and
whatever `net.SplitHostPort` reports. -/
inductive addrError : Type
  | invalidHostport (h : List byte)
  | std (tag : Nat)
  deriving DecidableEq, Repr

/-- Embeds `SplitHostAndPort(h)`; the result is `(host, port, err)`, and `none` is a panic
(index or slice out of range). `strings.LastIndex(h, ":")` is `LastIndexByte` for the
one-byte separator. The standard library's `net.SplitHostPort`, which the last line hands
over to, is the parameter `netSplit`. -/
def SplitHostAndPort (netSplit : List byte → List byte × List byte × Option addrError)
    (h : List byte) : Option (List byte × List byte × Option addrError) :=
  if h.length < 3 then some ([], [], some (.invalidHostport h))
  else
    let c := Count h (byteOf ':')
    if c = 0 then some (h, [], none)
    else
      let lastSemiIdx := LastIndexByte h (byteOf ':')
      if c = 1 then
        if lastSemiIdx < 0 then none
        else some (h.take lastSemiIdx.toNat, h.drop (lastSemiIdx.toNat + 1), none)
      else if lastSemiIdx > 0 ∧ h[(lastSemiIdx - 1).toNat]? = some (byteOf ']') then
        if 1 ≤ lastSemiIdx - 1 then
          some (slice h 1 (lastSemiIdx - 1).toNat, h.drop (lastSemiIdx.toNat + 1), none)
        else none
      else if h[0]? = some (byteOf '[') ∧ h[h.length - 1]? = some (byteOf ']') then
        if 1 ≤ h.length - 1 then some (slice h 1 (h.length - 1), [], none) else none
      else some (netSplit h)

/-- Embeds `ExtractHostname(addr)`; `none` is a panic (index or slice out of range). -/
def ExtractHostname (addr : List byte) : Option (List byte) :=
  let c := Count addr (byteOf ':')
  if c = 0 then some []
  else
    let lastSemiIdx := LastIndexByte addr (byteOf ':')
    if c = 1 then
      if lastSemiIdx < 0 then none else some (addr.take lastSemiIdx.toNat)
    else
      let hostname : List byte :=
        if lastSemiIdx > 0 ∧ addr[(lastSemiIdx - 1).toNat]? = some (byteOf ']') then
          addr.take lastSemiIdx.toNat
        else []
      if addr.length = 0 then some hostname
      else if addr[0]? = some (byteOf '[') ∧ addr[addr.length - 1]? = some (byteOf ']') then
        if 1 ≤ addr.length - 1 then some (slice addr 1 (addr.length - 1)) else none
      else some hostname

/-- A stand-in for `net.SplitHostPort` that reports an error on every input. -/
def noSplit : List byte → List byte × List byte × Option addrError :=
  fun _ => ([], [], some (.std 0))

/-! ## The ring: what one pass of `write` and of `read` does -/

theorem copyTo_length (s : List byte) (lo hi : Nat) (src : List byte) (h1 : lo ≤ hi) (h2 : hi ≤ s.length) :
    (copyTo s lo hi src).1.length = s.length := by
  simp only [copyTo, copy, slice, List.length_append, List.length_take, List.length_drop]
  omega

theorem copyTo_snd (s : List byte) (lo hi : Nat) (src : List byte) (h2 : hi ≤ s.length) :
    (copyTo s lo hi src).2 = min (hi - lo) src.length := by
  simp only [copyTo, copy, slice, List.length_take, List.length_drop]
  omega

theorem copyTo_get (s : List byte) (lo hi : Nat) (src : List byte) (h1 : lo ≤ hi) (h2 : hi ≤ s.length) (i : Nat) :
    (copyTo s lo hi src).1[i]? = if lo ≤ i ∧ i < lo + min (hi - lo) src.length then src[i - lo]? else s[i]? := by
  simp only [copyTo, copy, slice, List.getElem?_append, List.getElem?_take, List.getElem?_drop,
    List.length_append, List.length_take, List.length_drop]
  split_ifs <;> first | rfl | (exfalso; omega) | (congr 1; omega)

theorem ringc_get (buf : List byte) (r l i : Nat) :
    (ringc buf r l)[i]? = if i < l then (if r + i < buf.length then buf[r + i]? else buf[r + i - buf.length]?) else none := by
  simp only [ringc, List.getElem?_append, List.getElem?_take, List.getElem?_drop]

theorem ringc_length (buf : List byte) (r l : Nat) (h : l + r ≤ 2 * buf.length) :
    (ringc buf r l).length = l := by
  simp only [ringc, List.length_take, List.length_drop, List.length_append]
  omega

theorem writeCopy_spec (buf : List byte) (c r w l : Nat) (b : List byte)
    (hlen : buf.length = c) (hr : r ≤ c) (hw : w ≤ c) (hs : Shape c r w l) (hl : l < c) :
    ∃ buf1 w1, writeCopy buf r w b = some (buf1, w1) ∧ buf1.length = c ∧ w1 ≤ c ∧
      Shape c r w1 (l + min (c - l) b.length) ∧
      ringc buf1 r (l + min (c - l) b.length) = ringc buf r l ++ b.take (min (c - l) b.length) := by
  subst hlen
  unfold writeCopy
  by_cases hwr : w < r
  · have hl' : 0 < l ∧ l + r = buf.length + w := by rcases hs with h | h | h <;> omega
    simp only [hwr, if_true, hr]
    have hk := copyTo_snd buf w r b hr
    refine ⟨_, _, rfl, copyTo_length buf w r b (by omega) hr, by omega, ?_, ?_⟩
    · right; right; omega
    · apply List.ext_getElem?
      intro i
      rw [ringc_get, copyTo_length buf w r b (by omega) hr]
      simp only [List.getElem?_append, ringc_get, copyTo_get buf w r b (by omega) hr,
        List.getElem?_take, List.length_take, ringc_length buf r l (by omega)]
      split_ifs <;> first | rfl | (exfalso; omega) | (congr 1; omega)
  · have hl' : l + r = w ∧ r ≤ w ∧ (l = 0 → r = 0) := by rcases hs with h | h | h <;> omega
    have hw' : w ≤ buf.length := hw
    simp only [hwr, if_false, hw', if_true]
    have hk1 := copyTo_snd buf w buf.length b (le_refl _)
    have hlen1 := copyTo_length buf w buf.length b hw (le_refl _)
    by_cases hn : (copyTo buf w buf.length b).2 = b.length
    · simp only [hn, ne_eq, not_true_eq_false, if_false]
      refine ⟨_, _, rfl, hlen1, by omega, ?_, ?_⟩
      · unfold Shape; omega
      · apply List.ext_getElem?
        intro i
        rw [ringc_get, hlen1]
        simp only [List.getElem?_append, ringc_get, copyTo_get buf w buf.length b hw (le_refl _),
          List.getElem?_take, List.length_take, ringc_length buf r l (by omega)]
        split_ifs <;> first | rfl | (exfalso; omega) | (congr 1; omega)
    · simp only [hn, ne_eq, not_false_eq_true, if_true]
      have hr1 : r ≤ (copyTo buf w buf.length b).1.length := by omega
      have hk2 := copyTo_snd (copyTo buf w buf.length b).1 0 r (b.drop (copyTo buf w buf.length b).2) hr1
      have hlen2 := copyTo_length (copyTo buf w buf.length b).1 0 r (b.drop (copyTo buf w buf.length b).2) (by omega) hr1
      rw [List.length_drop] at hk2
      refine ⟨_, _, rfl, by omega, by omega, ?_, ?_⟩
      · unfold Shape; omega
      · apply List.ext_getElem?
        intro i
        rw [ringc_get, hlen2, hlen1]
        simp only [List.getElem?_append, ringc_get, copyTo_get buf w buf.length b hw (le_refl _),
          copyTo_get _ 0 r _ (Nat.zero_le _) hr1, List.getElem?_drop, List.length_drop,
          List.getElem?_take, List.length_take, ringc_length buf r l (by omega)]
        split_ifs <;> first | rfl | (exfalso; omega) | (congr 1; omega)

theorem slice_get (s : List byte) (lo hi i : Nat) :
    (slice s lo hi)[i]? = if lo + i < hi then s[lo + i]? else none := by
  simp only [slice, List.getElem?_take, List.getElem?_drop]

theorem slice_length (s : List byte) (lo hi : Nat) (h : hi ≤ s.length) :
    (slice s lo hi).length = hi - lo := by
  simp only [slice, List.length_take, List.length_drop]
  omega

theorem copy_get (dst src : List byte) (i : Nat) :
    (copy dst src).1[i]? = if i < min dst.length src.length then src[i]? else dst[i]? := by
  simp only [copy, List.getElem?_append, List.getElem?_take, List.getElem?_drop,
    List.length_take]
  split_ifs <;> first | rfl | (exfalso; omega) | (congr 1; omega)

theorem copy_length (dst src : List byte) : (copy dst src).1.length = dst.length := by
  simp only [copy, List.length_append, List.length_take, List.length_drop]
  omega

theorem copy_snd (dst src : List byte) : (copy dst src).2 = min dst.length src.length := rfl

theorem readCopy_spec (buf : List byte) (c r w l : Nat) (b : List byte)
    (hlen : buf.length = c) (hr : r ≤ c) (hw : w ≤ c) (hs : Shape c r w l) (hl : 0 < l) :
    ∃ b1 r1, readCopy buf r w b = some (b1, r1) ∧
      b1 = (ringc buf r l).take b.length ++ b.drop (min l b.length) ∧
      (b.length < l → r1 ≤ c ∧ Shape c r1 w (l - b.length) ∧
        ringc buf r1 (l - b.length) = (ringc buf r l).drop b.length) := by
  subst hlen
  unfold readCopy
  by_cases hrw : r < w
  · have hl' : l + r = w := by rcases hs with h | h | h <;> omega
    have hw' : w ≤ buf.length := hw
    simp only [hrw, if_true, hw']
    have hsl := slice_length buf r w hw
    refine ⟨_, _, rfl, ?_, ?_⟩
    · apply List.ext_getElem?
      intro i
      simp only [copy_get, slice_get, hsl, List.getElem?_append, List.getElem?_take,
        List.getElem?_drop, List.length_take, ringc_get, ringc_length buf r l (by omega)]
      split_ifs <;> first | rfl | (exfalso; omega) | (congr 1; omega)
    · intro hb
      rw [copy_snd, hsl]
      refine ⟨by omega, by unfold Shape; omega, ?_⟩
      apply List.ext_getElem?
      intro i
      simp only [List.getElem?_drop, ringc_get]
      split_ifs <;> first | rfl | (exfalso; omega) | (congr 1; omega)
  · have hl' : w ≤ r ∧ l + r = buf.length + w := by rcases hs with h | h | h <;> omega
    have hr' : r ≤ buf.length := hr
    simp only [hrw, if_false, hr', if_true]
    have hsl := slice_length buf r buf.length (le_refl _)
    have hsl0 := slice_length buf 0 w hw
    have hc1 := copy_length b (slice buf r buf.length)
    by_cases hn : (copy b (slice buf r buf.length)).2 = b.length
    · simp only [hn, ne_eq, not_true_eq_false, if_false]
      rw [copy_snd, hsl] at hn
      refine ⟨_, _, rfl, ?_, ?_⟩
      · apply List.ext_getElem?
        intro i
        simp only [copy_get, slice_get, hsl, List.getElem?_append, List.getElem?_take,
          List.getElem?_drop, List.length_take, ringc_get, ringc_length buf r l (by omega)]
        split_ifs <;> first | rfl | (exfalso; omega) | (congr 1; omega)
      · intro hb
        refine ⟨by omega, by unfold Shape; omega, ?_⟩
        apply List.ext_getElem?
        intro i
        simp only [List.getElem?_drop, ringc_get]
        split_ifs <;> first | rfl | (exfalso; omega) | (congr 1; omega)
    · simp only [hn, ne_eq, not_false_eq_true, if_true]
      rw [copy_snd, hsl] at hn
      have hb1 : b.length ≤ (copy b (slice buf r buf.length)).1.length := by omega
      have hk2 := copyTo_snd (copy b (slice buf r buf.length)).1
        (copy b (slice buf r buf.length)).2 b.length (slice buf 0 w) hb1
      rw [copy_snd, hsl, hsl0] at hk2
      refine ⟨_, _, rfl, ?_, ?_⟩
      · apply List.ext_getElem?
        intro i
        rw [copyTo_get _ _ _ _ (by rw [copy_snd, hsl]; omega) hb1]
        simp only [copy_get, copy_snd, slice_get, hsl, hsl0, List.getElem?_append,
          List.getElem?_take, List.getElem?_drop, List.length_take, ringc_get,
          ringc_length buf r l (by omega)]
        split_ifs <;> first | rfl | (exfalso; omega) | (congr 1; omega)
      · intro hb
        simp only [copy_snd, hsl]
        rw [hk2]
        refine ⟨by omega, by unfold Shape; omega, ?_⟩
        apply List.ext_getElem?
        intro i
        simp only [List.getElem?_drop, ringc_get]
        split_ifs <;> first | rfl | (exfalso; omega) | (congr 1; omega)

theorem write_pass (p : pipe) (b : List byte) (n : Nat) (hR : p.Ring)
    (hopen : p.close = false) (hwr : p.wr = false) (hb : b ≠ []) :
    ∃ buf1 w1,
      p.write b n =
        (p.stored buf1 w1 (min (p.c - p.l) b.length),
          if b.length ≤ p.c - p.l then .ret (n + b.length, none)
          else .park (b.drop (p.c - p.l), n + (p.c - p.l))) ∧
      (p.stored buf1 w1 (min (p.c - p.l) b.length)).Ring ∧
      (p.stored buf1 w1 (min (p.c - p.l) b.length)).contents =
        p.contents ++ b.take (min (p.c - p.l) b.length) := by
  obtain ⟨hc, ⟨buf, hbuf, hlen⟩, hr, hw, hs⟩ := hR
  have hbl : b.length ≠ 0 := by
    intro h; exact hb (List.length_eq_zero.mp h)
  have hlc : p.l ≤ p.c := by rcases hs with h | h | h <;> omega
  unfold pipe.write pipe.stored
  simp only [hopen, hwr, hbl, hbuf, if_false, Bool.false_eq_true]
  by_cases hsp : 0 < p.c - p.l
  · obtain ⟨buf1, w1, hcopy, hlen1, hw1, hs1, hcont⟩ :=
      writeCopy_spec buf p.c p.r p.w p.l b hlen hr hw hs (by omega)
    simp only [hsp, if_true, hcopy]
    refine ⟨buf1, w1, ?_, ?_, ?_⟩
    · by_cases hfit : b.length ≤ p.c - p.l
      · simp only [hfit, if_true, Goutils.notifyR, Nat.min_eq_right hfit]
        by_cases h0 : p.l = 0 <;> simp [h0]
      · simp only [hfit, if_false, Goutils.notifyR, Nat.min_eq_left (Nat.le_of_lt (Nat.lt_of_not_le hfit))]
        by_cases h0 : p.l = 0 <;> simp [h0]
    · exact ⟨hc, ⟨buf1, rfl, hlen1⟩, hr, hw1, hs1⟩
    · simpa [pipe.contents, hbuf] using hcont
  · have hfull : p.l = p.c := by omega
    have hk : min (p.c - p.l) b.length = 0 := by omega
    have hnf : ¬ b.length ≤ p.c - p.l := by omega
    have h0 : p.l ≠ 0 := by omega
    simp only [hsp, if_false, hk, hnf, h0, Nat.add_zero, decide_False, Bool.or_false,
      List.take_zero, List.append_nil]
    have hsub : p.c - p.l = 0 := by omega
    refine ⟨buf, p.w, ?_, ?_, ?_⟩
    · cases p; simp_all
    · exact ⟨hc, ⟨buf, rfl, hlen⟩, hr, hw, hs⟩
    · simp [pipe.contents, hbuf]

theorem ringc_length_le (buf : List byte) (r l : Nat) : (ringc buf r l).length ≤ l := by
  simp only [ringc, List.length_take]
  omega

theorem read_pass_data (p : pipe) (b : List byte) (hR : p.Ring) (hwr : p.wr = false)
    (hre : (p.close && error.isReaderError p.readCloseError) = false) (hl : 0 < p.l)
    (hb : b ≠ []) :
    ∃ q, p.read b = (q, .ret (min p.l b.length, none,
        p.contents.take b.length ++ b.drop (min p.l b.length))) ∧
      q.Ring ∧ q.contents = p.contents.drop b.length ∧ p.SameEnds q ∧
      q.l = p.l - min p.l b.length ∧ q.notifyR = p.notifyR ∧
      q.notifyW = (p.notifyW || decide (p.l = p.c)) := by
  obtain ⟨hc, ⟨buf, hbuf, hlen⟩, hr, hw, hs⟩ := hR
  have hbl : b.length ≠ 0 := by
    intro h; exact hb (List.length_eq_zero.mp h)
  have hlc : p.l ≤ p.c := by rcases hs with h | h | h <;> omega
  have hl0 : p.l ≠ 0 := by omega
  obtain ⟨b1, r1, hcopy, hb1, hrest⟩ := readCopy_spec buf p.c p.r p.w p.l b hlen hr hw hs hl
  have hnr : (p.close && error.isReaderError (if p.close = true then p.readCloseError else none))
      = false := by
    cases hcl : p.close
    · simp
    · simpa [hcl] using hre
  have herr : ∀ e : Option error, (if ¬ e = none then none else e) = none := by
    intro e; cases e <;> simp
  have hcontents : p.contents = ringc buf p.r p.l := by simp [pipe.contents, hbuf]
  unfold pipe.read
  simp only [hnr, hbuf, hl0, hbl, hl, hcopy, if_false, if_true, Bool.false_eq_true,
    and_false, ne_eq, ite_self, normEOF, herr, hwr]
  by_cases hlt : b.length < p.l
  · obtain ⟨hr1, hs1, hcont⟩ := hrest hlt
    have hmin : min p.l b.length = b.length := by omega
    simp only [hlt, if_true, hmin, hcontents, reduceCtorEq]
    rw [hmin] at hb1
    rw [← hb1]
    refine ⟨_, rfl, ?_⟩
    by_cases hfull : p.c - p.l = 0
    · have : p.l = p.c := by omega
      simp only [hfull, if_true, Goutils.notifyW, pipe.Ring, pipe.contents, pipe.SameEnds]
      refine ⟨⟨hc, ⟨buf, rfl, hlen⟩, hr1, hw, hs1⟩, hcont, ?_⟩
      simp [this, hwr]
    · have : p.l ≠ p.c := by omega
      simp only [hfull, if_false, pipe.Ring, pipe.contents, pipe.SameEnds]
      refine ⟨⟨hc, ⟨buf, rfl, hlen⟩, hr1, hw, hs1⟩, hcont, ?_⟩
      simp [this, hwr]
  · have hmin : min p.l b.length = p.l := by omega
    have hdrop : List.drop b.length (ringc buf p.r p.l) = [] := by
      apply List.drop_eq_nil_of_le
      have := ringc_length_le buf p.r p.l
      omega
    simp only [hlt, if_false, hmin, hcontents, reduceCtorEq, hdrop]
    rw [hmin] at hb1
    rw [← hb1]
    refine ⟨_, rfl, ?_⟩
    have hsh : Shape p.c 0 0 0 := Or.inl ⟨rfl, rfl, rfl⟩
    by_cases hfull : p.c - p.l = 0
    · have : p.l = p.c := by omega
      simp only [hfull, if_true, Goutils.notifyW, pipe.Ring, pipe.contents, pipe.SameEnds]
      refine ⟨⟨hc, ⟨buf, rfl, hlen⟩, Nat.zero_le _, Nat.zero_le _, hsh⟩, ?_, ?_⟩
      · simp [ringc]
      · simp [this, hwr]
    · have : p.l ≠ p.c := by omega
      simp only [hfull, if_false, pipe.Ring, pipe.contents, pipe.SameEnds]
      refine ⟨⟨hc, ⟨buf, rfl, hlen⟩, Nat.zero_le _, Nat.zero_le _, hsh⟩, ?_, ?_⟩
      · simp [ringc]
      · simp [this, hwr]

theorem Tidy_of_SameEnds {p q : pipe} (h : p.SameEnds q) (hT : p.Tidy) : q.Tidy := by
  obtain ⟨h1, h2, h3, h4, h5, _⟩ := h
  obtain ⟨t1, t2, t3, t4, t5, t6⟩ := hT
  refine ⟨by rw [h5, t1], by rw [h4, h3, t2], ?_, by rw [h2, t4], ?_, ?_⟩
  · intro hc
    have := t3 (by rw [← h3, hc])
    simpa [pipe.readCloseError, h1, h2] using this
  · intro hc
    rw [h1, h2]
    exact t5 (by rw [← h3, hc])
  · intro e he
    exact t6 e (by rw [← h1, he])

theorem contents_length (p : pipe) (hR : p.Ring) : p.contents.length = p.l := by
  obtain ⟨hc, ⟨buf, hbuf, hlen⟩, hr, hw, hs⟩ := hR
  simp only [pipe.contents, hbuf]
  apply ringc_length
  rcases hs with h | h | h <;> omega

theorem read_pass_idle (p : pipe) (b : List byte) (buf : List byte) (hbuf : p.buf = some buf)
    (hwr : p.wr = false)
    (hre : (p.close && error.isReaderError p.readCloseError) = false)
    (hdata : ¬ (0 < p.l ∧ b ≠ [])) :
    ∃ out, p.read b = (p, out) ∧ (out = .park () ∨ ∃ err, out = .ret (0, err, b)) := by
  have hnr : (p.close && error.isReaderError (if p.close = true then p.readCloseError else none))
      = false := by
    cases hcl : p.close
    · simp
    · simpa [hcl] using hre
  unfold pipe.read
  simp only [hnr, hwr, hbuf, Bool.false_eq_true, if_false]
  split_ifs <;> first
    | exact ⟨_, rfl, Or.inr ⟨_, rfl⟩⟩
    | exact ⟨_, rfl, Or.inl rfl⟩
    | (exfalso; simp_all)

theorem read_pass_sum (p : pipe) (b : List byte) (hR : p.Ring) (hT : p.Tidy) :
    ∃ q, (p.read b).1 = q ∧ q.Ring ∧ p.SameEnds q ∧ q.notifyR = p.notifyR ∧
      ((∃ k err b1, (p.read b).2 = .ret (k, err, b1) ∧ b1.take k ++ q.contents = p.contents) ∨
        ((p.read b).2 = .park () ∧ q = p)) := by
  obtain ⟨t1, t2, t3, t4, t5, t6⟩ := hT
  have hSE : p.SameEnds p := ⟨rfl, rfl, rfl, rfl, rfl, rfl⟩
  by_cases hrc : (p.close && error.isReaderError p.readCloseError) = true
  · refine ⟨p, ?_, hR, hSE, rfl, Or.inl ⟨0, p.readCloseError, b, ?_, by simp⟩⟩
    · unfold pipe.read
      have hc : p.close = true := by simp at hrc; exact hrc.1
      simp only [hc, if_true]; simp only [hc] at hrc; simp [hrc]
    · unfold pipe.read
      have hc : p.close = true := by simp at hrc; exact hrc.1
      simp only [hc, if_true]; simp only [hc] at hrc; simp [hrc]
  · have hre : (p.close && error.isReaderError p.readCloseError) = false := by
      simpa using hrc
    by_cases hdata : 0 < p.l ∧ b ≠ []
    · obtain ⟨q, hq, hqR, hqc, hqS, hql, hqn, _⟩ := read_pass_data p b hR t1 hre hdata.1 hdata.2
      refine ⟨q, by rw [hq], hqR, hqS, hqn, Or.inl ⟨_, _, _, by rw [hq], ?_⟩⟩
      rw [hqc]
      have hlen := contents_length p hR
      rw [List.take_append_eq_append_take, List.take_take, List.length_take, hlen]
      have e1 : min (min p.l b.length) b.length = b.length ⊓ p.l := by omega
      have e2 : min p.l b.length - min b.length p.l = 0 := by omega
      rw [e1, e2]
      simp only [List.take_zero, List.append_nil]
      rw [List.take_eq_take.mpr (by omega : min (b.length ⊓ p.l) p.contents.length = min b.length p.contents.length)]
      exact List.take_append_drop _ _
    · obtain ⟨hc, ⟨buf, hbuf, hlen⟩, hr, hw, hs⟩ := hR
      obtain ⟨out, hout, hcase⟩ := read_pass_idle p b buf hbuf t1 hre hdata
      refine ⟨p, by rw [hout], ⟨hc, ⟨buf, hbuf, hlen⟩, hr, hw, hs⟩, hSE, rfl, ?_⟩
      rw [hout]
      rcases hcase with h | ⟨err, h⟩
      · right; exact ⟨h, rfl⟩
      · left; exact ⟨0, err, b, h, by simp⟩

theorem write_pass_sum (p : pipe) (b : List byte) (n : Nat) (hR : p.Ring) (hT : p.Tidy) :
    ∃ q k, (p.write b n).1 = q ∧ q.Ring ∧ p.SameEnds q ∧
      q.contents = p.contents ++ b.take k ∧ q.l = p.l + k ∧ q.notifyW = p.notifyW ∧
      (((p.write b n).2 = .ret (n + k, none) ∧ k = b.length ∧ p.close = false) ∨
       ((p.write b n).2 = .ret (n, p.writeCloseError) ∧ k = 0 ∧ p.close = true) ∨
       ((p.write b n).2 = .park (b.drop k, n + k) ∧ k < b.length ∧ p.close = false ∧
          k = p.c - p.l)) := by
  obtain ⟨t1, t2, t3, t4, t5, t6⟩ := hT
  have hSE : p.SameEnds p := ⟨rfl, rfl, rfl, rfl, rfl, rfl⟩
  cases hcl : p.close
  · by_cases hb : b = []
    · subst hb
      refine ⟨p, 0, ?_, hR, hSE, by simp, rfl, rfl, Or.inl ⟨?_, rfl, rfl⟩⟩ <;>
        simp [pipe.write, hcl]
    · obtain ⟨buf1, w1, hw, hqR, hqc⟩ := write_pass p b n hR hcl t1 hb
      refine ⟨_, min (p.c - p.l) b.length, by rw [hw], hqR, ?_, hqc, rfl, rfl, ?_⟩
      · exact ⟨rfl, rfl, rfl, rfl, rfl, rfl⟩
      · rw [hw]
        by_cases hfit : b.length ≤ p.c - p.l
        · left
          simp [hfit, Nat.min_eq_right hfit]
        · right; right
          have hlt : p.c - p.l < b.length := Nat.lt_of_not_le hfit
          simp [hfit, Nat.min_eq_left (Nat.le_of_lt hlt), hlt]
  · refine ⟨p, 0, ?_, hR, hSE, by simp, rfl, rfl, Or.inr (Or.inl ⟨?_, rfl, rfl⟩)⟩ <;>
      simp [pipe.write, hcl]

theorem Later_of_SameEnds {p q : pipe} (h : p.SameEnds q) : p.Later q := by
  obtain ⟨h1, h2, h3, _, _, _⟩ := h
  refine ⟨fun hc => by rw [h3, hc], fun e he => by rw [h1, he], fun e he => by rw [h2, he]⟩

theorem LogOk_of_Later {p q : pipe} {log : List WriteRec} (h : p.Later q) (hl : LogOk p log) :
    LogOk q log := by
  intro x hx
  obtain ⟨h1, h2⟩ := hl x hx
  refine ⟨h1, fun hlt => ?_⟩
  obtain ⟨e1, e2, e3⟩ := h2 hlt
  refine ⟨e1, h.1 e2, ?_⟩
  cases hxe : x.err with
  | none => exact absurd hxe e1
  | some e =>
    rcases e3 with e3 | e3
    · left; rw [hxe] at e3; exact (h.2.1 e e3.symm).symm
    · right; rw [hxe] at e3; exact (h.2.2 e e3.symm).symm

theorem writeCloseError_ne_none (p : pipe) (hT : p.Tidy) (hc : p.close = true) :
    p.writeCloseError ≠ none ∧ (p.writeCloseError = p.rerr ∨ p.writeCloseError = p.werr) := by
  have := hT.2.2.1 hc
  unfold pipe.readCloseError at this
  unfold pipe.writeCloseError
  cases h : p.rerr with
  | none => simp [h] at this ⊢; exact this
  | some e => simp

theorem credited_append (log : List WriteRec) (x : WriteRec) :
    credited (log ++ [x]) = credited log ++ x.data.take x.n := by
  simp [credited]

theorem passW_inv (s : Sys) (data b : List byte) (n : Nat) (hR : s.p.Ring) (hT : s.p.Tidy)
    (hb : b = data.drop n) (hn : n ≤ data.length)
    (hacc : s.delivered ++ s.p.contents = credited s.wlog ++ data.take n)
    (hrd : s.reader ≠ .halted) (hlog : LogOk s.p s.wlog) : (s.passW data b n).Inv := by
  obtain ⟨q, k, hq, hqR, hqS, hqc, hql, hqn, hcase⟩ := write_pass_sum s.p b n hR hT
  have hqT := Tidy_of_SameEnds hqS hT
  have hlog' := LogOk_of_Later (Later_of_SameEnds hqS) hlog
  have htake : data.take (n + k) = data.take n ++ b.take k := by
    rw [hb, List.take_add]
  unfold Sys.passW
  rcases hcase with ⟨hres, hk, hcl⟩ | ⟨hres, hk, hcl⟩ | ⟨hres, hk, hcl, _⟩
  · have hpair : s.p.write b n = (q, .ret (n + k, none)) := Prod.ext hq hres
    simp only [hpair]
    refine ⟨hqR, hqT, ?_, by simp, hrd, by simp, ?_⟩
    · simp only [Sys.delivered, Sys.accepted] at hacc ⊢
      simp only [credited_append, List.append_nil] at hacc ⊢
      rw [hqc, ← List.append_assoc, hacc, htake, List.append_assoc]
    · intro x hx
      rcases List.mem_append.mp hx with hx | hx
      · exact hlog' x hx
      · simp only [List.mem_singleton] at hx
        subst hx
        have : (b.length : Nat) = data.length - n := by rw [hb, List.length_drop]
        simp only
        constructor
        · omega
        · intro h; omega
  · have hpair : s.p.write b n = (q, .ret (n, s.p.writeCloseError)) := Prod.ext hq hres
    simp only [hpair]
    subst hk
    simp only [List.take_zero, List.append_nil] at hqc
    obtain ⟨w1, w2⟩ := writeCloseError_ne_none s.p hT hcl
    refine ⟨hqR, hqT, ?_, by simp, hrd, by simp, ?_⟩
    · simp only [Sys.delivered, Sys.accepted] at hacc ⊢
      simp only [credited_append, List.append_nil] at hacc ⊢
      rw [hqc, hacc]
    · intro x hx
      rcases List.mem_append.mp hx with hx | hx
      · exact hlog' x hx
      · simp only [List.mem_singleton] at hx
        subst hx
        refine ⟨hn, fun _ => ⟨w1, ?_, ?_⟩⟩
        · rw [hqS.2.2.1]; exact hcl
        · rw [hqS.1, hqS.2.1]; exact w2
  · have hpair : s.p.write b n = (q, .park (b.drop k, n + k)) := Prod.ext hq hres
    simp only [hpair]
    have hbl : (b.length : Nat) = data.length - n := by rw [hb, List.length_drop]
    refine ⟨hqR, hqT, ?_, by simp, hrd, ?_, hlog'⟩
    · simp only [Sys.delivered, Sys.accepted] at hacc ⊢
      rw [hqc, ← List.append_assoc, hacc, htake, List.append_assoc]
    · intro d b' n' h
      simp only [WStatus.parked.injEq] at h
      obtain ⟨h1, h2, h3⟩ := h
      subst h1 h2 h3
      refine ⟨?_, by omega⟩
      rw [hb, List.drop_drop]

theorem passR_inv (s : Sys) (b : List byte) (h : s.Inv) : (s.passR b).Inv := by
  obtain ⟨hR, hT, hacc, hw, hrd, hpark, hlog⟩ := h
  obtain ⟨q, hq, hqR, hqS, _, hcase⟩ := read_pass_sum s.p b hR hT
  have hqT := Tidy_of_SameEnds hqS hT
  have hlog' := LogOk_of_Later (Later_of_SameEnds hqS) hlog
  unfold Sys.passR
  rcases hcase with ⟨k, err, b1, hres, hcont⟩ | ⟨hres, hqp⟩
  · have hpair : s.p.read b = (q, .ret (k, err, b1)) := Prod.ext hq hres
    simp only [hpair]
    refine ⟨hqR, hqT, ?_, hw, by simp, hpark, hlog'⟩
    simp only [Sys.delivered, Sys.accepted, List.map_append, List.flatten_append, List.map_cons,
      List.map_nil, List.flatten_cons, List.flatten_nil, List.append_nil] at hacc ⊢
    rw [List.append_assoc, hcont, hacc]
  · have hpair : s.p.read b = (q, .park ()) := Prod.ext hq hres
    simp only [hpair]
    refine ⟨hqR, hqT, ?_, hw, by simp, hpark, hlog'⟩
    simp only [Sys.delivered, Sys.accepted] at hacc ⊢
    rw [hqp, hacc]

theorem closeRead_keeps (p : pipe) (err : Option error) (hR : p.Ring) (hT : p.Tidy) :
    (p.closeRead err).1.Ring ∧ (p.closeRead err).1.Tidy ∧
      (p.closeRead err).1.contents = p.contents ∧ p.Later (p.closeRead err).1 := by
  rcases p with ⟨rerr, werr, buf, r, w, l, c, wr, done, nR, nW, close⟩
  simp only [pipe.Tidy, pipe.Ring, pipe.contents, pipe.Later, pipe.closeRead,
    pipe.readCloseError] at *
  cases close <;> cases rerr <;> simp_all [error.isReaderError]

theorem closeWrite_keeps (p : pipe) (err : Option error) (hR : p.Ring) (hT : p.Tidy) :
    (p.closeWrite err).1.Ring ∧ (p.closeWrite err).1.Tidy ∧
      (p.closeWrite err).1.contents = p.contents ∧ p.Later (p.closeWrite err).1 := by
  rcases p with ⟨rerr, werr, buf, r, w, l, c, wr, done, nR, nW, close⟩
  simp only [pipe.Tidy, pipe.Ring, pipe.contents, pipe.Later, pipe.closeWrite,
    pipe.readCloseError] at *
  cases close <;> cases werr <;> cases rerr <;> cases err <;> simp_all [error.isReaderError]

theorem init_inv (size : Nat) (dirt : Nat → byte) (p : pipe)
    (h : PipeWithSize size dirt = some p) : (Sys.init p).Inv := by
  unfold PipeWithSize at h
  split at h
  · exact absurd h (by simp)
  · rename_i hs
    simp only [Option.some.injEq] at h
    subst h
    unfold Sys.Inv Sys.init
    refine ⟨⟨Nat.pos_of_ne_zero hs, ⟨_, rfl, by simp [bpoolGet]⟩, Nat.zero_le _, Nat.zero_le _,
      Or.inl ⟨rfl, rfl, rfl⟩⟩, ⟨rfl, rfl, by simp, rfl, by simp, by simp⟩, ?_, by simp,
      by simp, by simp, by simp [LogOk]⟩
    simp [Sys.delivered, Sys.accepted, pipe.contents, ringc, credited]

theorem step_inv (s : Sys) (e : Event) (h : s.Inv) : (s.step e).Inv := by
  have h0 := h
  obtain ⟨hR, hT, hacc, hw, hrd, hpark, hlog⟩ := h
  cases e with
  | Write data =>
    simp only [Sys.step]
    split
    · rename_i hws
      refine passW_inv s data data 0 hR hT rfl (Nat.zero_le _) ?_ hrd hlog
      simpa [Sys.accepted, hws, credited] using hacc
    · exact h0
  | wakeW =>
    simp only [Sys.step]
    split
    · rename_i d b n hws
      split
      · obtain ⟨hb, hn⟩ := hpark d b n hws
        refine passW_inv _ d b n ?_ ?_ hb (Nat.le_of_lt hn) ?_ ?_ ?_
        · exact hR
        · exact hT
        · have : s.delivered ++ s.p.contents = credited s.wlog ++ d.take n := by
            simpa [Sys.accepted, hws, credited] using hacc
          exact this
        · exact hrd
        · exact hlog
      · exact h0
    · exact h0
  | doneW =>
    simp only [Sys.step]
    split
    · rename_i d b n hws
      split
      · rename_i hdone
        obtain ⟨hb, hn⟩ := hpark d b n hws
        have hcl : s.p.close = true := by rw [← hT.2.1]; exact hdone
        obtain ⟨w1, w2⟩ := writeCloseError_ne_none s.p hT hcl
        refine ⟨hR, hT, ?_, by simp, hrd, by simp, ?_⟩
        · simp only [Sys.delivered, Sys.accepted] at hacc ⊢
          simp only [credited_append, List.append_nil] at hacc ⊢
          rw [hacc, hws]
        · intro x hx
          rcases List.mem_append.mp hx with hx | hx
          · exact hlog x hx
          · simp only [List.mem_singleton] at hx
            subst hx
            exact ⟨Nat.le_of_lt hn, fun _ => ⟨w1, hcl, w2⟩⟩
      · exact h0
    · exact h0
  | Read b =>
    simp only [Sys.step]
    split
    · exact passR_inv s b h0
    · exact h0
  | wakeR =>
    simp only [Sys.step]
    split
    · split
      · exact passR_inv _ _ h0
      · exact h0
    · exact h0
  | doneR =>
    simp only [Sys.step]
    split
    · split
      · exact passR_inv _ _ h0
      · exact h0
    · exact h0
  | CloseR err =>
    obtain ⟨c1, c2, c3, c4⟩ := closeRead_keeps s.p err hR hT
    refine ⟨c1, c2, ?_, hw, hrd, hpark, LogOk_of_Later c4 hlog⟩
    simp only [Sys.step, Sys.delivered, Sys.accepted] at hacc ⊢
    rw [c3, hacc]
  | CloseW err =>
    obtain ⟨c1, c2, c3, c4⟩ := closeWrite_keeps s.p err hR hT
    refine ⟨c1, c2, ?_, hw, hrd, hpark, LogOk_of_Later c4 hlog⟩
    simp only [Sys.step, Sys.delivered, Sys.accepted] at hacc ⊢
    rw [c3, hacc]

theorem run_inv (es : List Event) (s : Sys) (h : s.Inv) : (s.run es).Inv := by
  induction es generalizing s with
  | nil => exact h
  | cons e es ih => exact ih _ (step_inv s e h)

/-! ## The claims -/

/-- C1 (round trip). On a pipe made by `PipeWithSize(C)`, after any interleaving of `Write`
and `Read` calls (chunks and buffers of any size, passes of the two goroutines in any order,
closes included), the bytes the reads returned are a prefix of the bytes the writes were
credited with, the two are equal whenever the ring length is 0, and in between they differ by
exactly the unread contents of the ring: every byte comes out once, in the order written. -/
theorem C1_round_trip (C : Nat) (dirt : Nat → byte) (p : pipe) (es : List Event)
    (hp : PipeWithSize C dirt = some p) :
    ((Sys.init p).run es).delivered <+: ((Sys.init p).run es).accepted ∧
      (((Sys.init p).run es).p.l = 0 →
        ((Sys.init p).run es).delivered = ((Sys.init p).run es).accepted) ∧
      ((Sys.init p).run es).delivered ++ ((Sys.init p).run es).p.contents =
        ((Sys.init p).run es).accepted := by
  have h := run_inv es _ (init_inv C dirt p hp)
  obtain ⟨hR, _, hacc, _⟩ := h
  refine ⟨⟨_, hacc⟩, ?_, hacc⟩
  intro hl
  have hlen := contents_length _ hR
  rw [hl] at hlen
  have : ((Sys.init p).run es).p.contents = [] := List.length_eq_zero.mp hlen
  rw [this, List.append_nil] at hacc
  exact hacc

theorem C1_round_trip_witness :
    PipeWithSize 4 (fun _ => 0) = some pipe4 ∧
      ((Sys.init pipe4).run demoRun).delivered <+: ((Sys.init pipe4).run demoRun).accepted ∧
      ((Sys.init pipe4).run demoRun).delivered = ((Sys.init pipe4).run demoRun).accepted ∧
      ((Sys.init pipe4).run demoRun).delivered ++ ((Sys.init pipe4).run demoRun).p.contents =
        ((Sys.init pipe4).run demoRun).accepted :=
  ⟨rfl, (C1_round_trip 4 (fun _ => 0) pipe4 demoRun rfl).1,
    (C1_round_trip 4 (fun _ => 0) pipe4 demoRun rfl).2.1 (by decide),
    (C1_round_trip 4 (fun _ => 0) pipe4 demoRun rfl).2.2⟩

/-- C4 (write success). On an open, well-formed pipe a `Write(data)` with
`len(data) <= c - l` returns `(len(data), nil)` on its first pass, so without any reader, and
the ring length grows by exactly `len(data)`. And in every run on a pipe made by
`PipeWithSize`, a `Write` that returned a nil error returned `n = len(data)`. -/
theorem C4_write_success (p : pipe) (data : List byte) (C : Nat) (dirt : Nat → byte)
    (p0 : pipe) (es : List Event) (x : WriteRec)
    (hR : p.Ring) (hT : p.Tidy) (hopen : p.close = false) (hfit : data.length ≤ p.c - p.l)
    (hp0 : PipeWithSize C dirt = some p0) (hx : x ∈ ((Sys.init p0).run es).wlog)
    (hnil : x.err = none) :
    (p.write data 0).2 = .ret (data.length, none) ∧
      (p.write data 0).1.l = p.l + data.length ∧ x.n = x.data.length := by
  refine ⟨?_, ?_, ?_⟩
  · obtain ⟨q, k, hq, _, _, _, hql, _, hcase⟩ := write_pass_sum p data 0 hR hT
    rcases hcase with ⟨h1, h2, _⟩ | ⟨_, _, h3⟩ | ⟨_, h2, _, h4⟩
    · rw [h1, h2, Nat.zero_add]
    · rw [hopen] at h3; exact absurd h3 (by simp)
    · omega
  · obtain ⟨q, k, hq, _, _, _, hql, _, hcase⟩ := write_pass_sum p data 0 hR hT
    rcases hcase with ⟨h1, h2, _⟩ | ⟨_, _, h3⟩ | ⟨_, h2, _, h4⟩
    · rw [hq, hql, h2]
    · rw [hopen] at h3; exact absurd h3 (by simp)
    · omega
  · obtain ⟨_, _, _, _, _, _, hlog⟩ := run_inv es _ (init_inv C dirt p0 hp0)
    obtain ⟨h1, h2⟩ := hlog x hx
    rcases Nat.lt_or_ge x.n x.data.length with hlt | hge
    · exact absurd hnil (h2 hlt).1
    · omega

theorem pipe4_Ring : pipe4.Ring :=
  ⟨by decide, ⟨_, rfl, rfl⟩, by decide, by decide, Or.inl ⟨rfl, rfl, rfl⟩⟩

theorem pipe4_Tidy : pipe4.Tidy :=
  ⟨rfl, rfl, by decide, rfl, by decide, by decide⟩

theorem C4_write_success_witness :
    (pipe4.write [1, 2, 3] 0).2 = .ret (3, none) ∧ (pipe4.write [1, 2, 3] 0).1.l = 0 + 3 ∧
      (6 : Nat) = 6 :=
  C4_write_success pipe4 [1, 2, 3] 4 (fun _ => 0) pipe4 demoRun
    { data := [1, 2, 3, 4, 5, 6], n := 6, err := none }
    pipe4_Ring pipe4_Tidy rfl (by decide) rfl (by decide) rfl

/-- C5 (partial write). In every run on a pipe made by `PipeWithSize`, a `Write` that
returned `n < len(data)` returned a non-nil error, the pipe is closed, and the error is one of
the recorded close errors. Its `n` counts exactly the leading bytes of `data` that went into
the ring: the stream of bytes read so far followed by the bytes still buffered consists of
what the earlier writes were credited with, then the first `n` bytes of `data`, in order. -/
theorem C5_short_write (C : Nat) (dirt : Nat → byte) (p0 : pipe) (es : List Event)
    (x : WriteRec) (hp0 : PipeWithSize C dirt = some p0)
    (hx : x ∈ ((Sys.init p0).run es).wlog) (hshort : x.n < x.data.length) :
    x.err ≠ none ∧ ((Sys.init p0).run es).p.close = true ∧
      (x.err = ((Sys.init p0).run es).p.rerr ∨ x.err = ((Sys.init p0).run es).p.werr) ∧
      ∃ pre post, ((Sys.init p0).run es).wlog = pre ++ x :: post ∧
        ((Sys.init p0).run es).delivered ++ ((Sys.init p0).run es).p.contents =
          credited pre ++ x.data.take x.n ++ (credited post ++ ((Sys.init p0).run es).pending) := by
  obtain ⟨_, _, hacc, _, _, _, hlog⟩ := run_inv es _ (init_inv C dirt p0 hp0)
  obtain ⟨e1, e2, e3⟩ := (hlog x hx).2 hshort
  refine ⟨e1, e2, e3, ?_⟩
  obtain ⟨pre, post, hsplit⟩ := List.append_of_mem hx
  refine ⟨pre, post, hsplit, ?_⟩
  rw [hacc, Sys.accepted, hsplit]
  simp only [credited, List.map_append, List.map_cons, List.flatten_append, List.flatten_cons,
    List.append_assoc]
  rfl

theorem C5_short_write_witness :
    PipeWithSize 4 (fun _ => 0) = some pipe4 ∧
      ({ data := [1, 2, 3, 4, 5, 6], n := 4, err := some (.readerError .ErrClosedPipe) } :
        WriteRec) ∈ ((Sys.init pipe4).run cutRun).wlog ∧ (4 : Nat) < 6 ∧
      (some (error.readerError .ErrClosedPipe) ≠ none ∧
        ((Sys.init pipe4).run cutRun).p.close = true ∧
        (some (error.readerError .ErrClosedPipe) = ((Sys.init pipe4).run cutRun).p.rerr ∨
          some (error.readerError .ErrClosedPipe) = ((Sys.init pipe4).run cutRun).p.werr) ∧
        ∃ pre post, ((Sys.init pipe4).run cutRun).wlog =
            pre ++ { data := [1, 2, 3, 4, 5, 6], n := 4,
                     err := some (.readerError .ErrClosedPipe) } :: post ∧
          ((Sys.init pipe4).run cutRun).delivered ++ ((Sys.init pipe4).run cutRun).p.contents =
            credited pre ++ [1, 2, 3, 4] ++
              (credited post ++ ((Sys.init pipe4).run cutRun).pending)) :=
  ⟨rfl, by decide, by decide,
    C5_short_write 4 (fun _ => 0) pipe4 cutRun
      { data := [1, 2, 3, 4, 5, 6], n := 4, err := some (.readerError .ErrClosedPipe) }
      rfl (by decide) (by decide)⟩

theorem ringClaim_of_Ring (p : pipe) (hR : p.Ring) : p.RingClaim := by
  obtain ⟨hc, _, hr, hw, hs⟩ := hR
  refine ⟨by rcases hs with h | h | h <;> omega, ?_⟩
  rw [Int.modEq_iff_dvd]
  rcases hs with ⟨h1, h2, h3⟩ | ⟨h1, h2⟩ | ⟨h1, h2, h3⟩
  · rw [h1, h2, h3]; simp
  · have : ((p.w : Int) - p.r - p.l) = 0 := by omega
    rw [this]; exact dvd_zero _
  · have : ((p.w : Int) - p.r - p.l) = -(p.c : Int) := by omega
    rw [this]; exact (dvd_neg).mpr (dvd_refl _)

theorem closeRead_c (p : pipe) (err : Option error) : (p.closeRead err).1.c = p.c := by
  unfold pipe.closeRead
  repeat' split
  all_goals rfl

theorem closeWrite_c (p : pipe) (err : Option error) : (p.closeWrite err).1.c = p.c := by
  unfold pipe.closeWrite
  repeat' split
  all_goals rfl

theorem passW_c (s : Sys) (data b : List byte) (n : Nat) (hR : s.p.Ring) (hT : s.p.Tidy) :
    (s.passW data b n).p.c = s.p.c := by
  obtain ⟨q, k, hq, _, hqS, _, _, _, hcase⟩ := write_pass_sum s.p b n hR hT
  unfold Sys.passW
  rcases hcase with ⟨hres, _⟩ | ⟨hres, _⟩ | ⟨hres, _⟩
  · rw [show s.p.write b n = (q, _) from Prod.ext hq hres]; exact hqS.2.2.2.2.2
  · rw [show s.p.write b n = (q, _) from Prod.ext hq hres]; exact hqS.2.2.2.2.2
  · rw [show s.p.write b n = (q, _) from Prod.ext hq hres]; exact hqS.2.2.2.2.2

theorem passR_c (s : Sys) (b : List byte) (hR : s.p.Ring) (hT : s.p.Tidy) :
    (s.passR b).p.c = s.p.c := by
  obtain ⟨q, hq, _, hqS, _, hcase⟩ := read_pass_sum s.p b hR hT
  unfold Sys.passR
  rcases hcase with ⟨k, err, b1, hres, _⟩ | ⟨hres, _⟩
  · rw [show s.p.read b = (q, _) from Prod.ext hq hres]; exact hqS.2.2.2.2.2
  · rw [show s.p.read b = (q, _) from Prod.ext hq hres]; exact hqS.2.2.2.2.2

theorem step_c (s : Sys) (e : Event) (h : s.Inv) : (s.step e).p.c = s.p.c := by
  obtain ⟨hR, hT, _⟩ := h
  cases e <;> simp only [Sys.step]
  · split
    · exact passW_c _ _ _ _ hR hT
    · rfl
  · split
    · split
      · exact passW_c _ _ _ _ hR hT
      · rfl
    · rfl
  · split
    · split <;> rfl
    · rfl
  · split
    · exact passR_c _ _ hR hT
    · rfl
  · split
    · split
      · exact passR_c _ _ hR hT
      · rfl
    · rfl
  · split
    · split
      · exact passR_c _ _ hR hT
      · rfl
    · rfl
  · exact closeRead_c _ _
  · exact closeWrite_c _ _

theorem run_c (es : List Event) (s : Sys) (h : s.Inv) : (s.run es).p.c = s.p.c := by
  induction es generalizing s with
  | nil => rfl
  | cons e es ih => exact (ih _ (step_inv s e h)).trans (step_c s e h)

theorem PipeWithSize_c (C : Nat) (dirt : Nat → byte) (p : pipe)
    (h : PipeWithSize C dirt = some p) : p.c = C := by
  unfold PipeWithSize at h
  split at h
  · exact absurd h (by simp)
  · simp only [Option.some.injEq] at h
    rw [← h]

/-- C7 (ring invariant). In every state a pipe made by `PipeWithSize(C)` reaches through
`Write` and `Read` calls (and closes), the capacity is `C`, `0 <= l <= C` and `l` is congruent
to `w - r` modulo `C`; and whatever happens next, a write pass or a read pass included, the
state after it satisfies the same. -/
theorem C7_ring_invariant (C : Nat) (dirt : Nat → byte) (p0 : pipe) (es : List Event)
    (e : Event) (hp0 : PipeWithSize C dirt = some p0) :
    ((Sys.init p0).run es).p.c = C ∧ ((Sys.init p0).run es).p.RingClaim ∧
      (((Sys.init p0).run es).step e).p.c = C ∧ (((Sys.init p0).run es).step e).p.RingClaim := by
  have h := run_inv es _ (init_inv C dirt p0 hp0)
  have h2 := step_inv _ e h
  have hc : ((Sys.init p0).run es).p.c = C := by
    rw [run_c es _ (init_inv C dirt p0 hp0)]; exact PipeWithSize_c C dirt p0 hp0
  exact ⟨hc, ringClaim_of_Ring _ h.1, by rw [step_c _ e h, hc], ringClaim_of_Ring _ h2.1⟩

theorem C7_ring_invariant_witness :
    PipeWithSize 4 (fun _ => 0) = some pipe4 ∧
      ((Sys.init pipe4).run demoRun).p.c = 4 ∧ ((Sys.init pipe4).run demoRun).p.RingClaim ∧
      (((Sys.init pipe4).run demoRun).step (.Write [7, 8, 9, 10, 11])).p.c = 4 ∧
      (((Sys.init pipe4).run demoRun).step (.Write [7, 8, 9, 10, 11])).p.RingClaim :=
  ⟨rfl, C7_ring_invariant 4 (fun _ => 0) pipe4 demoRun (.Write [7, 8, 9, 10, 11]) rfl⟩

theorem Ring_l_le (p : pipe) (hR : p.Ring) : p.l ≤ p.c := by
  obtain ⟨_, _, hr, hw, hs⟩ := hR
  rcases hs with h | h | h <;> omega

/-- C6 (backpressure). On an open, well-formed pipe a write pass on more bytes than the free
space `c - l` stores exactly the first `c - l` of them behind the unread bytes, leaves
`l = c`, and parks instead of returning; a retry that finds the ring still full and the pipe
still open stores nothing and parks again, and a parked writer of a full, open pipe stays
parked whether it is woken or looks at `done`. No write pass, in any state, stores more
than the free space, and the unread bytes are still there, in order, in front of what it
stored. -/
theorem C6_backpressure (p : pipe) (b : List byte) (n : Nat) (b2 : List byte) (n2 : Nat)
    (p3 : pipe) (b3 : List byte) (n3 : Nat) (s : Sys) (d bb : List byte) (nn : Nat)
    (hR : p.Ring) (hT : p.Tidy) (hopen : p.close = false) (hbig : p.c - p.l < b.length)
    (hb2 : b2 ≠ []) (hR3 : p3.Ring) (hT3 : p3.Tidy)
    (hs : s.Inv) (hpk : s.writer = .parked d bb nn) (hso : s.p.close = false)
    (hfull : s.p.l = s.p.c) :
    (p.write b n).2 = .park (b.drop (p.c - p.l), n + (p.c - p.l)) ∧
      (p.write b n).1.l = p.c ∧ (p.write b n).1.c = p.c ∧
      (p.write b n).1.contents = p.contents ++ b.take (p.c - p.l) ∧
      (p.write b n).1.write b2 n2 = ((p.write b n).1, .park (b2, n2)) ∧
      (∃ k, k ≤ p3.c - p3.l ∧ (p3.write b3 n3).1.contents = p3.contents ++ b3.take k ∧
        (p3.write b3 n3).1.l = p3.l + k) ∧
      (s.step .wakeW).writer = .parked d bb nn ∧ (s.step .doneW).writer = .parked d bb nn ∧
      (s.step .wakeW).wlog = s.wlog ∧ (s.step .doneW).wlog = s.wlog := by
  have retry : ∀ (q : pipe) (c2 : List byte) (m : Nat), q.Ring → q.Tidy → q.close = false →
      q.l = q.c → c2 ≠ [] → q.write c2 m = (q, .park (c2, m)) := by
    intro q c2 m hqR hqT hqo hqf hc2
    obtain ⟨hc, ⟨buf, hbuf, hlen⟩, _⟩ := hqR
    have hbl : c2.length ≠ 0 := fun h => hc2 (List.length_eq_zero.mp h)
    have hl0 : q.l ≠ 0 := by omega
    have hc0 : q.c ≠ 0 := by omega
    unfold pipe.write
    simp [hqo, hqT.1, hbl, hbuf, hqf, hl0, hc2, hc0]
  have hlc := Ring_l_le p hR
  obtain ⟨q, k, hq, hqR, hqS, hqc, hql, _, hcase⟩ := write_pass_sum p b n hR hT
  have hqT := Tidy_of_SameEnds hqS hT
  have hk : k = p.c - p.l ∧ (p.write b n).2 = .park (b.drop (p.c - p.l), n + (p.c - p.l)) := by
    rcases hcase with ⟨_, h2, _⟩ | ⟨_, _, h3⟩ | ⟨h1, _, _, h4⟩
    · have := Ring_l_le q hqR
      have := hqS.2.2.2.2.2
      omega
    · rw [hopen] at h3; exact absurd h3 (by simp)
    · exact ⟨h4, by rw [h1, h4]⟩
  obtain ⟨hk1, hk2⟩ := hk
  subst hk1
  refine ⟨hk2, by rw [hq, hql]; omega, by rw [hq]; exact hqS.2.2.2.2.2, by rw [hq, hqc], ?_,
    ?_, ?_⟩
  · rw [hq]
    exact retry q b2 n2 hqR hqT (by rw [hqS.2.2.1, hopen])
      (by rw [hql, hqS.2.2.2.2.2]; omega) hb2
  · obtain ⟨q3, k3, hq3, hq3R, hq3S, hq3c, hq3l, _, _⟩ := write_pass_sum p3 b3 n3 hR3 hT3
    refine ⟨k3, ?_, by rw [hq3, hq3c], by rw [hq3, hq3l]⟩
    have := Ring_l_le q3 hq3R
    have := hq3S.2.2.2.2.2
    omega
  · obtain ⟨hsR, hsT, _, _, _, hpark, _⟩ := hs
    obtain ⟨_, hnn⟩ := hpark d bb nn hpk
    have hbb : bb ≠ [] := by
      intro h
      have := (hpark d bb nn hpk).1
      rw [h] at this
      have := congrArg List.length this
      simp at this
      omega
    have hdone : s.p.done = false := by rw [hsT.2.1, hso]
    have hw : (s.step .wakeW).writer = .parked d bb nn ∧ (s.step .wakeW).wlog = s.wlog := by
      simp only [Sys.step, hpk]
      split
      · have := retry { s.p with notifyW := false } bb nn hsR hsT hso hfull hbb
        simp [Sys.passW, this]
      · exact ⟨hpk, rfl⟩
    have hd : (s.step .doneW).writer = .parked d bb nn ∧ (s.step .doneW).wlog = s.wlog := by
      simp only [Sys.step, hpk, hdone]
      exact ⟨hpk, rfl⟩
    exact ⟨hw.1, hd.1, hw.2, hd.2⟩

theorem C6_backpressure_witness :
    (pipe4.c - pipe4.l < [1, 2, 3, 4, 5, 6].length ∧ fullSys.p.l = fullSys.p.c) ∧
      ((pipe4.write [1, 2, 3, 4, 5, 6] 0).2 =
          .park (([1, 2, 3, 4, 5, 6] : List byte).drop (pipe4.c - pipe4.l),
            0 + (pipe4.c - pipe4.l)) ∧
        (pipe4.write [1, 2, 3, 4, 5, 6] 0).1.l = pipe4.c ∧
        (pipe4.write [1, 2, 3, 4, 5, 6] 0).1.c = pipe4.c ∧
        (pipe4.write [1, 2, 3, 4, 5, 6] 0).1.contents =
          pipe4.contents ++ ([1, 2, 3, 4, 5, 6] : List byte).take (pipe4.c - pipe4.l) ∧
        (pipe4.write [1, 2, 3, 4, 5, 6] 0).1.write [5, 6] 4 =
          ((pipe4.write [1, 2, 3, 4, 5, 6] 0).1, .park ([5, 6], 4)) ∧
        (∃ k, k ≤ pipe4.c - pipe4.l ∧
          (pipe4.write [1] 0).1.contents = pipe4.contents ++ ([1] : List byte).take k ∧
          (pipe4.write [1] 0).1.l = pipe4.l + k) ∧
        (fullSys.step .wakeW).writer = .parked [1, 2, 3, 4, 5, 6] [5, 6] 4 ∧
        (fullSys.step .doneW).writer = .parked [1, 2, 3, 4, 5, 6] [5, 6] 4 ∧
        (fullSys.step .wakeW).wlog = fullSys.wlog ∧
        (fullSys.step .doneW).wlog = fullSys.wlog) :=
  ⟨⟨by decide, by decide⟩,
    C6_backpressure pipe4 [1, 2, 3, 4, 5, 6] 0 [5, 6] 4 pipe4 [1] 0 fullSys
      [1, 2, 3, 4, 5, 6] [5, 6] 4 pipe4_Ring pipe4_Tidy rfl (by decide) (by decide)
      pipe4_Ring pipe4_Tidy (run_inv _ _ (init_inv 4 (fun _ => 0) pipe4 rfl)) (by decide)
      (by decide) (by decide)⟩

theorem read_closed_empty (q : pipe) (b : List byte) (e : error) (hR : q.Ring) (hT : q.Tidy)
    (hc : q.close = true) (hre : q.rerr = none) (hwe : q.werr = some e) (hl : q.l = 0) :
    q.read b = (q, .ret (0, normEOF (some e), b)) := by
  obtain ⟨_, ⟨buf, hbuf, _⟩, _⟩ := hR
  have hrc : q.readCloseError = some e := by simp [pipe.readCloseError, hre, hwe]
  have hnr : error.isReaderError (some e) = false := by rw [← hwe]; exact hT.2.2.2.1
  unfold pipe.read
  simp [hc, hrc, hnr, hT.1, hbuf, hl]

theorem read_closed_nil (q : pipe) (e : error) (hR : q.Ring) (hT : q.Tidy)
    (hc : q.close = true) (hre : q.rerr = none) (hwe : q.werr = some e) (hl : 0 < q.l) :
    q.read [] = (q, .ret (0, none, [])) := by
  obtain ⟨_, ⟨buf, hbuf, _⟩, _⟩ := hR
  have hrc : q.readCloseError = some e := by simp [pipe.readCloseError, hre, hwe]
  have hnr : error.isReaderError (some e) = false := by rw [← hwe]; exact hT.2.2.2.1
  have hl0 : q.l ≠ 0 := by omega
  unfold pipe.read
  simp [hc, hrc, hnr, hT.1, hbuf, hl0]

theorem got_ret (n : Nat) (err : Option error) (b : List byte) :
    got (.ret (n, err, b)) = b.take n := rfl

theorem reads_closed (e : error) (bs : List (List byte)) :
    ∀ q : pipe, q.Ring → q.Tidy → q.close = true → q.rerr = none → q.werr = some e →
      (∀ x ∈ q.reads bs,
        (x.1 = 0 ∧ ∃ b, x.2 = .ret (0, normEOF (some e), b)) ∨
          (0 < x.1 ∧ ∃ n b1, x.2 = .ret (n, none, b1))) ∧
        ((q.reads bs).map fun x => got x.2).flatten =
          q.contents.take (bs.map List.length).sum := by
  induction bs with
  | nil => intro q _ _ _ _ _; simp [pipe.reads]
  | cons b bs ih =>
    intro q hR hT hc hre hwe
    have hlen := contents_length q hR
    rcases Nat.eq_zero_or_pos q.l with hl | hl
    · have hrd := read_closed_empty q b e hR hT hc hre hwe hl
      obtain ⟨ih1, ih2⟩ := ih q hR hT hc hre hwe
      have hnil : q.contents = [] := List.length_eq_zero.mp (hlen.trans hl)
      simp only [pipe.reads, hrd, List.mem_cons, List.map_cons, List.flatten_cons, got_ret,
        List.take_zero, List.nil_append]
      refine ⟨?_, ?_⟩
      · intro x hx
        rcases hx with hx | hx
        · left; rw [hx]; exact ⟨hl, b, rfl⟩
        · exact ih1 x hx
      · rw [ih2, hnil]; simp
    · by_cases hb : b = []
      · subst hb
        have hrd := read_closed_nil q e hR hT hc hre hwe hl
        obtain ⟨ih1, ih2⟩ := ih q hR hT hc hre hwe
        simp only [pipe.reads, hrd, List.mem_cons, List.map_cons, List.flatten_cons, got_ret,
          List.take_zero, List.nil_append, List.length_nil, List.sum_cons, Nat.zero_add]
        refine ⟨?_, ih2⟩
        intro x hx
        rcases hx with hx | hx
        · right; rw [hx]; exact ⟨hl, 0, [], rfl⟩
        · exact ih1 x hx
      · have hnr : (q.close && error.isReaderError q.readCloseError) = false := by
          have : q.readCloseError = q.werr := by simp [pipe.readCloseError, hre]
          rw [this, hT.2.2.2.1]; simp
        obtain ⟨q1, hq, hqR, hqc, hqS, _⟩ := read_pass_data q b hR hT.1 hnr hl hb
        have hqT := Tidy_of_SameEnds hqS hT
        obtain ⟨ih1, ih2⟩ := ih q1 hqR hqT (by rw [hqS.2.2.1, hc]) (by rw [hqS.1, hre])
          (by rw [hqS.2.1, hwe])
        simp only [pipe.reads, hq, List.mem_cons, List.map_cons, List.flatten_cons, got_ret,
          List.sum_cons]
        refine ⟨?_, ?_⟩
        · intro x hx
          rcases hx with hx | hx
          · right; rw [hx]; exact ⟨hl, _, _, rfl⟩
          · exact ih1 x hx
        · rw [ih2, hqc, List.take_add]
          congr 1
          rw [List.take_append_eq_append_take, List.take_take, List.length_take, hlen]
          have e1 : min (min q.l b.length) b.length = min b.length q.l := by omega
          have e2 : min q.l b.length - min b.length q.l = 0 := by omega
          rw [e1, e2, List.take_zero, List.append_nil]
          exact List.take_eq_take.mpr (by omega)

theorem closeWrite_state (p : pipe) (err : Option error) (e : error) (hT : p.Tidy)
    (hre : p.rerr = none)
    (he : e = (match err with | none => error.WriterIoEOF | some x => error.writerError x))
    (hwe : p.werr = none ∨ p.werr = some e) :
    (p.closeWrite err).1.close = true ∧ (p.closeWrite err).1.rerr = none ∧
      (p.closeWrite err).1.werr = some e := by
  rcases p with ⟨rerr, werr, buf, r, w, l, c, wr, done, nR, nW, close⟩
  simp only [pipe.Tidy, pipe.closeWrite, pipe.readCloseError] at *
  subst hre
  cases close <;> cases werr <;> cases err <;> simp_all

/-- C2 (clean close). The writer closes with a nil error a well-formed pipe whose read end
is not closed and on which no writer error other than the clean-finish sentinel is recorded.
Of the reads that follow, each one issued while the ring length is 0 returns `(0, io.EOF)`
and each one issued while bytes remain returns a nil error; together they return the bytes
that were buffered at the close, in order. -/
theorem C2_clean_close (p : pipe) (bs : List (List byte))
    (x : Nat × Res (Nat × Option error × List byte) Unit)
    (hR : p.Ring) (hT : p.Tidy) (hre : p.rerr = none)
    (hwe : p.werr = none ∨ p.werr = some .WriterIoEOF)
    (hx : x ∈ (p.closeWrite none).1.reads bs) :
    ((x.1 = 0 ∧ ∃ b, x.2 = .ret (0, some .EOF, b)) ∨
        (0 < x.1 ∧ ∃ n b1, x.2 = .ret (n, none, b1))) ∧
      (((p.closeWrite none).1.reads bs).map fun y => got y.2).flatten =
        p.contents.take (bs.map List.length).sum := by
  obtain ⟨c1, c2, c3, _⟩ := closeWrite_keeps p none hR hT
  obtain ⟨s1, s2, s3⟩ := closeWrite_state p none .WriterIoEOF hT hre rfl hwe
  obtain ⟨r1, r2⟩ := reads_closed .WriterIoEOF bs _ c1 c2 s1 s2 s3
  rw [c3] at r2
  exact ⟨r1 x hx, r2⟩

/-- C3 (error close after drain). The writer calls `CloseWithError(E)` on an open,
well-formed pipe that holds `l` unread bytes. Of the reads that follow, each one issued while
bytes remain returns a nil error, and each one issued once the ring length is 0 returns
`(0, err)` with `err` a `*writerError` whose `Unwrap` is `E`; together the reads return
the `l` buffered bytes, in order. -/
theorem C3_error_close_after_drain (p : pipe) (E : error) (bs : List (List byte))
    (x : Nat × Res (Nat × Option error × List byte) Unit)
    (hR : p.Ring) (hT : p.Tidy) (hopen : p.close = false)
    (hx : x ∈ (p.closeWrite (some E)).1.reads bs) :
    ((x.1 = 0 ∧ ∃ b, x.2 = .ret (0, some (.writerError E), b)) ∨
        (0 < x.1 ∧ ∃ n b1, x.2 = .ret (n, none, b1))) ∧
      (((p.closeWrite (some E)).1.reads bs).map fun y => got y.2).flatten =
        p.contents.take (bs.map List.length).sum ∧
      p.contents.length = p.l ∧ error.Unwrap (.writerError E) = some E := by
  obtain ⟨hre, hwe⟩ := hT.2.2.2.2.1 hopen
  obtain ⟨c1, c2, c3, _⟩ := closeWrite_keeps p (some E) hR hT
  obtain ⟨s1, s2, s3⟩ := closeWrite_state p (some E) (.writerError E) hT hre rfl (Or.inl hwe)
  obtain ⟨r1, r2⟩ := reads_closed (.writerError E) bs _ c1 c2 s1 s2 s3
  rw [c3] at r2
  have hn : normEOF (some (error.writerError E)) = some (error.writerError E) := by
    simp [normEOF]
  rw [hn] at r1
  exact ⟨r1 x hx, r2, contents_length p hR, rfl⟩

theorem pipe4abc_Inv : ((Sys.init pipe4).run [.Write [1, 2, 3]]).Inv :=
  run_inv _ _ (init_inv 4 (fun _ => 0) pipe4 rfl)

theorem C2_clean_close_witness :
    (pipe4abc.rerr = none ∧ pipe4abc.werr = none ∧
        ((0 : Nat), (Res.ret (0, some error.EOF, [9]) :
          Res (Nat × Option error × List byte) Unit)) ∈
          (pipe4abc.closeWrite none).1.reads [[0, 0], [0, 0], [9]]) ∧
      ((((0 : Nat) = 0 ∧ ∃ b, (Res.ret (0, some error.EOF, [9]) :
            Res (Nat × Option error × List byte) Unit) = .ret (0, some .EOF, b)) ∨
          (0 < (0 : Nat) ∧ ∃ n b1, (Res.ret (0, some error.EOF, [9]) :
            Res (Nat × Option error × List byte) Unit) = .ret (n, none, b1))) ∧
        (((pipe4abc.closeWrite none).1.reads [[0, 0], [0, 0], [9]]).map
            fun y => got y.2).flatten =
          pipe4abc.contents.take (([[0, 0], [0, 0], [9]] : List (List byte)).map
            List.length).sum) :=
  ⟨⟨rfl, rfl, by decide⟩,
    C2_clean_close pipe4abc [[0, 0], [0, 0], [9]] (0, .ret (0, some .EOF, [9]))
      pipe4abc_Inv.1 pipe4abc_Inv.2.1 rfl (Or.inl rfl) (by decide)⟩

theorem C3_error_close_after_drain_witness :
    (pipe4abc.close = false ∧
        ((0 : Nat), (Res.ret (0, some (error.writerError (.custom 7)), [9]) :
          Res (Nat × Option error × List byte) Unit)) ∈
          (pipe4abc.closeWrite (some (.custom 7))).1.reads [[0, 0], [0, 0], [9]]) ∧
      ((((0 : Nat) = 0 ∧ ∃ b, (Res.ret (0, some (error.writerError (.custom 7)), [9]) :
            Res (Nat × Option error × List byte) Unit) =
              .ret (0, some (.writerError (.custom 7)), b)) ∨
          (0 < (0 : Nat) ∧ ∃ n b1, (Res.ret (0, some (error.writerError (.custom 7)), [9]) :
            Res (Nat × Option error × List byte) Unit) = .ret (n, none, b1))) ∧
        (((pipe4abc.closeWrite (some (.custom 7))).1.reads [[0, 0], [0, 0], [9]]).map
            fun y => got y.2).flatten =
          pipe4abc.contents.take (([[0, 0], [0, 0], [9]] : List (List byte)).map
            List.length).sum ∧
        pipe4abc.contents.length = pipe4abc.l ∧
        error.Unwrap (.writerError (.custom 7)) = some (.custom 7)) :=
  ⟨⟨rfl, by decide⟩,
    C3_error_close_after_drain pipe4abc (.custom 7) [[0, 0], [0, 0], [9]]
      (0, .ret (0, some (.writerError (.custom 7)), [9]))
      pipe4abc_Inv.1 pipe4abc_Inv.2.1 rfl (by decide)⟩

theorem recycle_state (r : PipeReader) (hT : r.pipe.Tidy) :
    r.RecycleItems.1.pipe.buf = none ∧ r.RecycleItems.1.pipe.close = true ∧
      r.RecycleItems.1.pipe.rerr = some (recycledErr r.pipe.rerr) ∧
      error.isReaderError (some (recycledErr r.pipe.rerr)) = true := by
  rcases r with ⟨⟨rerr, werr, buf, r, w, l, c, wr, done, nR, nW, close⟩, bytes, pooled⟩
  simp only [pipe.Tidy, pipe.readCloseError] at hT
  obtain ⟨t1, t2, t3, t4, t5, t6⟩ := hT
  subst t1 t2
  cases done <;> cases rerr <;> cases buf <;>
    simp_all [PipeReader.RecycleItems, PipeReader.CloseWithError, pipe.closeRead, Lock, Unlock,
      recycledErr, error.isReaderError]

theorem reader_closed_ops (q : pipe) (e : error) (hc : q.close = true)
    (hr : q.rerr = some e) (hi : error.isReaderError (some e) = true)
    (b : List byte) (n : Nat) (past : Nat → byte) (st : UnsafeW) {σ : Type}
    (W : σ → List byte → σ × Nat × Option error) (s : σ) :
    q.read b = (q, .ret (0, some e, b)) ∧
      q.readUnsafe b past = (q, .ret (0, some e, b), []) ∧
      q.write b n = (q, .ret (n, some e)) ∧
      q.writeUnsafe b past st = (q, .ret (st.n, some e), []) ∧
      q.flush = (q, .ret (some e)) ∧
      q.WriteTo W s = (q, s, .ret (0, some e)) := by
  have hrc : q.readCloseError = some e := by simp [pipe.readCloseError, hr]
  have hwc : q.writeCloseError = some e := by simp [pipe.writeCloseError, hr]
  refine ⟨?_, ?_, ?_, ?_, ?_, ?_⟩
  · unfold pipe.read; simp [hc, hrc, hi]
  · unfold pipe.readUnsafe; simp [hc, hrc, hi]
  · unfold pipe.write; simp [hc, hwc]
  · unfold pipe.writeUnsafe; simp [hc, hwc]
  · unfold pipe.flush; simp [hc, hwc]
  · unfold pipe.WriteTo; simp [hc, hrc, hi]

/-- C8 (release safety, as the code has it). Once `RecycleItems` has run on a reader whose
pipe was well formed (open, closed by the writer, or closed by the reader), the buffer is
released, the pipe is closed, and the reader's close error is a `*readerError`: the one the
reader recorded earlier if it had closed before, and otherwise the wrapper of
`ErrBufRecycled`. Every later `Read`, `ReadUnsafe`, `Write`, `WriteUnsafe`, `Flush` and
`WriteTo` returns that error at once with a count of 0 (for a write: the count it came with),
leaves the pipe and the sink as they are and performs no `memmove`. -/
theorem C8_release_safety (r : PipeReader) (b : List byte) (n : Nat) (past : Nat → byte)
    (st : UnsafeW) (σ : Type) (W : σ → List byte → σ × Nat × Option error) (s : σ)
    (hT : r.pipe.Tidy) :
    r.RecycleItems.1.pipe.buf = none ∧ r.RecycleItems.1.pipe.close = true ∧
      r.RecycleItems.1.pipe.rerr = some (recycledErr r.pipe.rerr) ∧
      error.isReaderError (some (recycledErr r.pipe.rerr)) = true ∧
      r.RecycleItems.1.pipe.read b =
        (r.RecycleItems.1.pipe, .ret (0, some (recycledErr r.pipe.rerr), b)) ∧
      r.RecycleItems.1.pipe.readUnsafe b past =
        (r.RecycleItems.1.pipe, .ret (0, some (recycledErr r.pipe.rerr), b), []) ∧
      r.RecycleItems.1.pipe.write b n =
        (r.RecycleItems.1.pipe, .ret (n, some (recycledErr r.pipe.rerr))) ∧
      r.RecycleItems.1.pipe.writeUnsafe b past st =
        (r.RecycleItems.1.pipe, .ret (st.n, some (recycledErr r.pipe.rerr)), []) ∧
      r.RecycleItems.1.pipe.flush =
        (r.RecycleItems.1.pipe, .ret (some (recycledErr r.pipe.rerr))) ∧
      r.RecycleItems.1.pipe.WriteTo W s =
        (r.RecycleItems.1.pipe, s, .ret (0, some (recycledErr r.pipe.rerr))) := by
  obtain ⟨h1, h2, h3, h4⟩ := recycle_state r hT
  exact ⟨h1, h2, h3, h4, reader_closed_ops _ _ h2 h3 h4 b n past st W s⟩

/-- C8, as stated, fails: the reader closes with its own error, then `RecycleItems()` runs;
the buffer is released, and the next `Read` and `Write` return the reader's earlier error,
which neither is nor wraps `ErrBufRecycled`. -/
theorem C8_counterexample :
    recycled4.pipe.buf = none ∧
      (recycled4.pipe.read [0]).2 = .ret (0, some (.readerError (.custom 1)), [0]) ∧
      (recycled4.pipe.write [1] 0).2 = .ret (0, some (.readerError (.custom 1))) ∧
      (recycled4.pipe.read [0]).2 ≠ .ret (0, some .ErrBufRecycled, [0]) ∧
      (recycled4.pipe.write [1] 0).2 ≠ .ret (0, some .ErrBufRecycled) ∧
      error.Unwrap (.readerError (.custom 1)) ≠ some .ErrBufRecycled := by
  decide


theorem C8_release_safety_witness :
    reader4.RecycleItems.1.pipe.buf = none ∧ reader4.RecycleItems.1.pipe.close = true ∧
      reader4.RecycleItems.1.pipe.rerr = some (recycledErr reader4.pipe.rerr) ∧
      error.isReaderError (some (recycledErr reader4.pipe.rerr)) = true ∧
      reader4.RecycleItems.1.pipe.read [0] =
        (reader4.RecycleItems.1.pipe, .ret (0, some (recycledErr reader4.pipe.rerr), [0])) ∧
      reader4.RecycleItems.1.pipe.readUnsafe [0] (fun _ => 0) =
        (reader4.RecycleItems.1.pipe, .ret (0, some (recycledErr reader4.pipe.rerr), [0]), []) ∧
      reader4.RecycleItems.1.pipe.write [1] 0 =
        (reader4.RecycleItems.1.pipe, .ret (0, some (recycledErr reader4.pipe.rerr))) ∧
      reader4.RecycleItems.1.pipe.writeUnsafe [1] (fun _ => 0) (UnsafeW.init [1]) =
        (reader4.RecycleItems.1.pipe,
          .ret ((UnsafeW.init [1]).n, some (recycledErr reader4.pipe.rerr)), []) ∧
      reader4.RecycleItems.1.pipe.flush =
        (reader4.RecycleItems.1.pipe, .ret (some (recycledErr reader4.pipe.rerr))) ∧
      reader4.RecycleItems.1.pipe.WriteTo countSink 0 =
        (reader4.RecycleItems.1.pipe, 0, .ret (0, some (recycledErr reader4.pipe.rerr))) :=
  C8_release_safety reader4 [0] 0 (fun _ => 0) (UnsafeW.init [1]) Nat countSink 0 pipe4_Tidy


/-- C9, evaluated: `RecycleItems()` on the fresh pipe `pipe4` closes the pipe and releases
the buffer, and then blocks in its second `r.wr.Lock()`: it does not return, and it leaves the
mutex held. `ReadByte()` and a second `RecycleItems()` on that state block in their first
`Lock`. -/
theorem C9_recycle_blocks :
    reader4.RecycleItems.2 = .deadlock ∧ reader4.RecycleItems.1.pipe.wr = true ∧
      reader4.RecycleItems.1.pipe.buf = none ∧ reader4.RecycleItems.1.pipe.close = true ∧
      reader4.RecycleItems.1.ReadByte.2 = .deadlock ∧
      reader4.RecycleItems.1.RecycleItems.2 = .deadlock := by
  decide

/-- C10, evaluated. On the fresh pipe `pipe8`, `write([1, 2])` stores 1, 2 at ring offsets
0, 1, while `writeUnsafe([1, 2])` moves the two bytes at offsets 2 and 3 of the caller's
memory, which lie behind the end of the data, to the same place. On `pipe8mid` (`r = 2`,
`w = 6`, `l = 4`), `write` of three bytes returns `(3, nil)` and leaves `l = 7`, while
`writeUnsafe` moves bytes from behind the data again, sets `l = 8`, counts `n = 4` for three
bytes of data and parks. -/
theorem C10_writeUnsafe_differs :
    pipe8.write [1, 2] 0 =
        ({ pipe8 with buf := some [1, 2, 0, 0, 0, 0, 0, 0], w := 2, l := 2, notifyR := true },
          .ret (2, none)) ∧
      pipe8.writeUnsafe [1, 2] sevens (UnsafeW.init [1, 2]) =
        ({ pipe8 with buf := some [7, 7, 0, 0, 0, 0, 0, 0], w := 2, l := 2, notifyR := true },
          .ret (2, none), [{ dst := 0, src := 2, n := 2 }]) ∧
      Move.inBounds { dst := 0, src := 2, n := 2 } 8 2 = false ∧
      (pipe8mid.write [1, 2, 3] 0).2 = .ret (3, none) ∧
      (pipe8mid.write [1, 2, 3] 0).1.l = 7 ∧
      (pipe8mid.write [1, 2, 3] 0).1.buf = some [3, 12, 13, 14, 15, 16, 1, 2] ∧
      (pipe8mid.writeUnsafe [1, 2, 3] sevens (UnsafeW.init [1, 2, 3])).2.1 =
        .park { bl := 2, bPtr := some 3, n := 4 } ∧
      (pipe8mid.writeUnsafe [1, 2, 3] sevens (UnsafeW.init [1, 2, 3])).1.l = 8 ∧
      (pipe8mid.writeUnsafe [1, 2, 3] sevens (UnsafeW.init [1, 2, 3])).1.buf =
        some [3, 12, 13, 14, 15, 16, 3, 7] := by
  decide

/-- C11, evaluated. On `pipe8` after `Write([1, 2])` an empty destination makes `read` return
`(0, nil)` and makes `readUnsafe` panic at `&b[0]`. On `pipe8mid` (`r = 2`, `w = 6`, unread
bytes 13, 14, 15, 16) `read` into three bytes returns 13, 14, 15, while `readUnsafe` advances
`p.r` to 5 before its `memmove` and returns the bytes at ring offsets 5, 6, 7, the last two
of them not written yet; both calls return `(3, nil)` and leave the same cursors. -/
theorem C11_readUnsafe_differs :
    ((pipe8.write [1, 2] 0).1.read []).2 = .ret (0, none, []) ∧
      ((pipe8.write [1, 2] 0).1.readUnsafe [] sevens).2.1 = .panic ∧
      (pipe8mid.read [0, 0, 0]).2 = .ret (3, none, [13, 14, 15]) ∧
      (pipe8mid.readUnsafe [0, 0, 0] sevens).2 =
        (.ret (3, none, [16, 0, 0]), [{ dst := 0, src := 5, n := 3 }]) ∧
      (pipe8mid.readUnsafe [0, 0, 0] sevens).1 = (pipe8mid.read [0, 0, 0]).1 := by
  refine ⟨?_, ?_, ?_, ?_, ?_⟩ <;> decide

/-- C12, evaluated. The state `pipe4end` is reached from `pipe4` by `Write` and `Read` calls
and has `l = 2 > 0` with the read cursor at `r = 4 = c`. A `Read` into one byte returns the
oldest unread byte 5 with a nil error. `ReadByte()` indexes `buf[4]` of a 4-byte buffer and
panics, with the mutex still held. -/
theorem C12_ReadByte_out_of_range :
    pipe4end.r = 4 ∧ pipe4end.w = 2 ∧ pipe4end.l = 2 ∧ pipe4end.c = 4 ∧
      pipe4end.contents = [5, 6] ∧
      (pipe4end.read [0]).2 = .ret (1, none, [5]) ∧
      reader4end.ReadByte.2 = .panic ∧ reader4end.ReadByte.1.pipe.wr = true := by
  refine ⟨?_, ?_, ?_, ?_, ?_, ?_, ?_, ?_⟩ <;> decide

/-- C13, evaluated. On `pipe4wrap` the writer has written 1, 2, 3, 4, 5 and closed cleanly,
the sink holds 1, 2, 3, and the unread bytes 4, 5 wrap past the end of the ring. The next
`WriteTo` hands the sink the first span only and returns `(1, nil)`; the one after returns
`(0, nil)` and leaves a state on which `WriteTo` returns `(0, nil)` again without changing
anything: the loop never sees `io.EOF` and the sink never gets the byte 5. -/
theorem C13_WriteTo_loses_wrapped_bytes :
    pipe4wrap.contents = [4, 5] ∧ pipe4wrap.close = true ∧
      pipe4wrap.werr = some .WriterIoEOF ∧
      (pipe4wrap.WriteTo keepSink [1, 2, 3]).2 = ([1, 2, 3, 4], .ret (1, none)) ∧
      ((pipe4wrap.WriteTo keepSink [1, 2, 3]).1.WriteTo keepSink [1, 2, 3, 4]).2 =
        ([1, 2, 3, 4], .ret (0, none)) ∧
      (((pipe4wrap.WriteTo keepSink [1, 2, 3]).1.WriteTo keepSink [1, 2, 3, 4]).1.WriteTo
          keepSink [1, 2, 3, 4]) =
        (((pipe4wrap.WriteTo keepSink [1, 2, 3]).1.WriteTo keepSink [1, 2, 3, 4]).1,
          [1, 2, 3, 4], .ret (0, none)) ∧
      ((pipe4wrap.WriteTo keepSink [1, 2, 3]).1.WriteTo keepSink [1, 2, 3, 4]).1.l = 1 := by
  refine ⟨?_, ?_, ?_, ?_, ?_, ?_, ?_⟩ <;> decide

/-- C14, evaluated. On the fresh, open pipe `pipe4` (`l = 0`, buffer not released) `Read`
parks in its `select`, while `WriteTo` returns `(0, nil)` at once. -/
theorem C14_WriteTo_returns_on_empty :
    pipe4.close = false ∧ pipe4.l = 0 ∧ pipe4.buf ≠ none ∧
      (pipe4.read [0]).2 = .park () ∧
      pipe4.WriteTo keepSink [] = (pipe4, [], .ret (0, none)) := by
  refine ⟨?_, ?_, ?_, ?_, ?_⟩ <;> decide

/-- C16, evaluated. The reader closes `pipe4` first. The writer's `CloseWithError(custom 3)`
then returns nil and leaves the writer's error slot nil, and a second one does the same: it
returns nil, not the error of a repeated close. -/
theorem C16_late_writer_close_not_recorded :
    ((pipe4.closeRead none).1.closeWrite (some (.custom 3))).2 = .ret none ∧
      ((pipe4.closeRead none).1.closeWrite (some (.custom 3))).1.werr = none ∧
      (((pipe4.closeRead none).1.closeWrite (some (.custom 3))).1.closeWrite
          (some (.custom 3))).2 = .ret none ∧
      (((pipe4.closeRead none).1.closeWrite (some (.custom 3))).1.closeWrite
          (some (.custom 3))).1.werr = none := by
  refine ⟨?_, ?_, ?_, ?_⟩ <;> decide

/-- C17, evaluated. After the writer's own `Close()` on `pipe4`, `Write` returns
`(0, WriterIoEOF)`, whose `Unwrap` is `io.EOF`: the error neither is nor wraps
`ErrClosedPipe`. After the reader's `Close()`, `Write` returns the wrapper of
`ErrClosedPipe`. -/
theorem C17_write_after_own_close :
    ((pipe4.closeWrite none).1.write [1] 0).2 = .ret (0, some .WriterIoEOF) ∧
      error.Unwrap .WriterIoEOF = some .EOF ∧
      error.WriterIoEOF ≠ .ErrClosedPipe ∧ error.Unwrap .WriterIoEOF ≠ some .ErrClosedPipe ∧
      ((pipe4.closeRead none).1.write [1] 0).2 =
        .ret (0, some (.readerError .ErrClosedPipe)) := by
  refine ⟨?_, ?_, ?_, ?_, ?_⟩ <;> decide

/-- C15 (double close). On a pipe state in which an open pipe has no recorded error, once
the reader's error slot holds a value a further `CloseWithError` on the read end, with any
argument, returns the error of a repeated close and changes nothing; and once the writer's
error slot holds a value the same is true of a further `CloseWithError` on the write end. -/
theorem C15_double_close (r : PipeReader) (w : PipeWriter) (err : Option error)
    (hr : r.pipe.close = false → r.pipe.rerr = none ∧ r.pipe.werr = none)
    (hw : w.r.pipe.close = false → w.r.pipe.rerr = none ∧ w.r.pipe.werr = none)
    (hrs : r.pipe.rerr ≠ none) (hws : w.r.pipe.werr ≠ none) :
    r.CloseWithError err = (r, .ret (some .errReClosingClosedPipe)) ∧
      w.CloseWithError err = (w, .ret (some .errReClosingClosedPipe)) := by
  constructor
  · have hc : r.pipe.close = true := by
      cases h : r.pipe.close
      · exact absurd (hr h).1 hrs
      · rfl
    simp [PipeReader.CloseWithError, pipe.closeRead, hc, hrs]
  · have hc : w.r.pipe.close = true := by
      cases h : w.r.pipe.close
      · exact absurd (hw h).2 hws
      · rfl
    simp [PipeWriter.CloseWithError, pipe.closeWrite, hc, hws]

theorem C15_double_close_witness :
    (readerShut.pipe.rerr ≠ none ∧ writerShut.r.pipe.werr ≠ none) ∧
      readerShut.CloseWithError none = (readerShut, .ret (some .errReClosingClosedPipe)) ∧
      writerShut.CloseWithError none = (writerShut, .ret (some .errReClosingClosedPipe)) :=
  ⟨⟨by decide, by decide⟩,
    C15_double_close readerShut writerShut none (by decide) (by decide) (by decide)
      (by decide)⟩

/-- C18 (closing a busy reader, as the code has it). The first `CloseWithError` on the read
end of a well-formed pipe completes the close: afterwards the pipe is closed and the reader's
error slot holds the wrapper of the error (of `ErrClosedPipe` for nil). If the pipe was still
open, the call returns the error of closing a busy buffer exactly when `l > 0`, and nil when
`l = 0`; if the writer had already closed the pipe, it returns nil whatever `l` is. -/
theorem C18_busy_reader_close (p : pipe) (err : Option error) (hT : p.Tidy)
    (hfirst : p.rerr = none) :
    (p.closeRead err).1.close = true ∧
      (p.closeRead err).1.rerr = some (.readerError (err.getD .ErrClosedPipe)) ∧
      (p.closeRead err).2 =
        .ret (if p.close = false ∧ 0 < p.l then some .errorClosingNotEmptyPipe else none) := by
  rcases p with ⟨rerr, werr, buf, r, w, l, c, wr, done, nR, nW, close⟩
  simp only [pipe.Tidy, pipe.readCloseError] at hT
  obtain ⟨t1, t2, _⟩ := hT
  simp only at hfirst
  subst t1 t2 hfirst
  cases done <;> simp [pipe.closeRead]

/-- C18, as stated, fails: on `pipe4one` one unread byte remains and the read end has not
been closed, yet its first `CloseWithError` returns nil, because the writer closed first. -/
theorem C18_counterexample :
    pipe4one.l = 1 ∧ pipe4one.rerr = none ∧ (pipe4one.closeRead none).2 = .ret none ∧
      (pipe4one.closeRead none).2 ≠ .ret (some .errorClosingNotEmptyPipe) := by
  refine ⟨?_, ?_, ?_, ?_⟩ <;> decide

theorem C18_busy_reader_close_witness :
    pipe4abc.rerr = none ∧
      ((pipe4abc.closeRead none).1.close = true ∧
        (pipe4abc.closeRead none).1.rerr =
          some (.readerError ((none : Option error).getD .ErrClosedPipe)) ∧
        (pipe4abc.closeRead none).2 =
          .ret (if pipe4abc.close = false ∧ 0 < pipe4abc.l then
            some .errorClosingNotEmptyPipe else none)) :=
  ⟨rfl, C18_busy_reader_close pipe4abc none pipe4abc_Inv.2.1 rfl⟩

theorem closeCall_open (r : PipeReader) (c : CloseCall) (hc : r.pipe.close = false)
    (hd : r.pipe.done = false) :
    (r.closeCall c).1.pipe.close = true ∧ (r.closeCall c).1.pipe.done = true ∧
      (r.closeCall c).2 = true := by
  rcases r with ⟨⟨rerr, werr, buf, r, w, l, c0, wr, done, nR, nW, close⟩, bytes, pooled⟩
  simp only at hc hd
  subst hc hd
  cases c with
  | reader err =>
    cases wr <;> simp [PipeReader.closeCall, PipeReader.CloseWithError, pipe.closeRead]
  | writer err =>
    simp [PipeReader.closeCall, PipeWriter.CloseWithError, pipe.closeWrite]
  | recycle =>
    cases wr <;> cases buf <;>
      simp [PipeReader.closeCall, PipeReader.RecycleItems, PipeReader.CloseWithError,
        pipe.closeRead, Lock, Unlock]

theorem closeCall_closed (r : PipeReader) (c : CloseCall) (hc : r.pipe.close = true)
    (hd : r.pipe.done = true) :
    (r.closeCall c).1.pipe.close = true ∧ (r.closeCall c).1.pipe.done = true ∧
      (r.closeCall c).2 = false := by
  rcases r with ⟨⟨rerr, werr, buf, r, w, l, c0, wr, done, nR, nW, close⟩, bytes, pooled⟩
  simp only at hc hd
  subst hc hd
  cases c with
  | reader err =>
    cases rerr <;> simp [PipeReader.closeCall, PipeReader.CloseWithError, pipe.closeRead]
  | writer err =>
    cases werr <;> simp [PipeReader.closeCall, PipeWriter.CloseWithError, pipe.closeWrite]
  | recycle =>
    cases rerr <;> cases wr <;> cases buf <;>
      simp [PipeReader.closeCall, PipeReader.RecycleItems, PipeReader.CloseWithError,
        pipe.closeRead, Lock, Unlock]

theorem closeRun_closed (cs : List CloseCall) :
    ∀ r : PipeReader, r.pipe.close = true → r.pipe.done = true →
      (∀ x ∈ closeRun r cs, x.1.pipe.close = true ∧ x.1.pipe.done = true) ∧
        (closeRun r cs).map Prod.snd = cs.map (fun _ => false) := by
  induction cs with
  | nil => intro r _ _; simp [closeRun]
  | cons c cs ih =>
    intro r hc hd
    obtain ⟨h1, h2, h3⟩ := closeCall_closed r c hc hd
    obtain ⟨i1, i2⟩ := ih _ h1 h2
    refine ⟨?_, ?_⟩
    · intro x hx
      simp only [closeRun, List.mem_cons] at hx
      rcases hx with hx | hx
      · rw [hx]; exact ⟨h1, h2⟩
      · exact i1 x hx
    · simp only [closeRun, List.map_cons, h3, i2]

/-- C19 (closed exactly once). On a pipe made by `PipeWithSize`, before any closing call the
closed flag is unset and `done` is open. In every sequence of `Close`, `CloseWithError` and
`RecycleItems` calls on either end, every call leaves the flag set and `done` closed, the
first call executes `close(p.done)` and no later call does (none flips `done` again, none
panics closing it a second time). -/
theorem C19_closed_once (C : Nat) (dirt : Nat → byte) (r0 : PipeReader)
    (cs : List CloseCall) (x : PipeReader × Bool)
    (h : PipeReader.make C dirt = some r0) (hx : x ∈ closeRun r0 cs) :
    r0.pipe.close = false ∧ r0.pipe.done = false ∧
      x.1.pipe.close = true ∧ x.1.pipe.done = true ∧
      (closeRun r0 cs).map Prod.snd =
        (cs.take 1).map (fun _ => true) ++ (cs.drop 1).map (fun _ => false) := by
  have h0 : r0.pipe.close = false ∧ r0.pipe.done = false := by
    unfold PipeReader.make PipeWithSize at h
    split at h
    · exact absurd h (by simp)
    · simp only [Option.map_some', Option.some.injEq] at h
      rw [← h]
      exact ⟨rfl, rfl⟩
  cases cs with
  | nil => simp [closeRun] at hx
  | cons c cs =>
    obtain ⟨h1, h2, h3⟩ := closeCall_open r0 c h0.1 h0.2
    obtain ⟨i1, i2⟩ := closeRun_closed cs _ h1 h2
    refine ⟨h0.1, h0.2, ?_, ?_, ?_⟩
    · simp only [closeRun, List.mem_cons] at hx
      rcases hx with hx | hx
      · rw [hx]; exact h1
      · exact (i1 x hx).1
    · simp only [closeRun, List.mem_cons] at hx
      rcases hx with hx | hx
      · rw [hx]; exact h2
      · exact (i1 x hx).2
    · simp [closeRun, h3, i2]

theorem C19_closed_once_witness :
    (PipeReader.make 4 (fun _ => 0) = some reader4 ∧
        (reader4.closeCall (.writer none)) ∈ closeRun reader4 closeCalls) ∧
      (reader4.pipe.close = false ∧ reader4.pipe.done = false ∧
        (reader4.closeCall (.writer none)).1.pipe.close = true ∧
        (reader4.closeCall (.writer none)).1.pipe.done = true ∧
        (closeRun reader4 closeCalls).map Prod.snd =
          (closeCalls.take 1).map (fun _ => true) ++
            (closeCalls.drop 1).map (fun _ => false)) :=
  ⟨⟨rfl, by decide⟩,
    C19_closed_once 4 (fun _ => 0) reader4 closeCalls (reader4.closeCall (.writer none))
      rfl (by decide)⟩

/-- C20 (cursor range, as the code has it). In every state a pipe made by `PipeWithSize(C)`
reaches through `Write` and `Read` calls, the cursors satisfy `0 <= r <= C` and
`0 <= w <= C`: a cursor that reached the end of the storage rests at `C` until the next copy
wraps it. -/
theorem C20_cursor_range (C : Nat) (dirt : Nat → byte) (p0 : pipe) (es : List Event)
    (hp0 : PipeWithSize C dirt = some p0) :
    ((Sys.init p0).run es).p.r ≤ C ∧ ((Sys.init p0).run es).p.w ≤ C := by
  have h := run_inv es _ (init_inv C dirt p0 hp0)
  have hc : ((Sys.init p0).run es).p.c = C := by
    rw [run_c es _ (init_inv C dirt p0 hp0)]; exact PipeWithSize_c C dirt p0 hp0
  obtain ⟨⟨_, _, hr, hw, _⟩, _⟩ := h
  rw [hc] at hr hw
  exact ⟨hr, hw⟩

/-- C20, as stated, fails: after `Write` of four bytes on the fresh `pipe4` the write cursor
is 4, the capacity, and not below it. -/
theorem C20_counterexample :
    PipeWithSize 4 (fun _ => 0) = some pipe4 ∧
      ((Sys.init pipe4).run [.Write [1, 2, 3, 4]]).p.w = 4 ∧
      ((Sys.init pipe4).run [.Write [1, 2, 3, 4]]).p.c = 4 ∧
      ¬ ((Sys.init pipe4).run [.Write [1, 2, 3, 4]]).p.w <
          ((Sys.init pipe4).run [.Write [1, 2, 3, 4]]).p.c := by
  refine ⟨rfl, ?_, ?_, ?_⟩ <;> decide

theorem C20_cursor_range_witness :
    PipeWithSize 4 (fun _ => 0) = some pipe4 ∧
      ((Sys.init pipe4).run demoRun).p.r ≤ 4 ∧ ((Sys.init pipe4).run demoRun).p.w ≤ 4 :=
  ⟨rfl, C20_cursor_range 4 (fun _ => 0) pipe4 demoRun rfl⟩

theorem ringc_drop (buf : List byte) (r l k : Nat) :
    ringc buf (r + k) (l - k) = (ringc buf r l).drop k := by
  apply List.ext_getElem?
  intro i
  simp only [List.getElem?_drop, ringc_get]
  split_ifs <;> first | rfl | (exfalso; omega) | (congr 1; omega)

/-- C21 (short write in WriteTo, as the code has it). On a well-formed pipe with unread bytes
whose read end is not closed, if the sink takes `n1` bytes, fewer than the span it was
offered, and reports no error, `WriteTo` returns `(n1, nil)`: it reports no error either,
advances the read cursor and the length by `n1`, and keeps the bytes the sink did not take
in the ring, in order, for a later call. -/
theorem C21_short_write_keeps_rest (p : pipe) (σ : Type)
    (W : σ → List byte → σ × Nat × Option error) (s s1 : σ) (n1 : Nat)
    (hR : p.Ring) (hT : p.Tidy) (hl : 0 < p.l) (hre : p.rerr = none)
    (hW : W s p.firstSpan = (s1, n1, none)) (hshort : n1 < p.firstSpan.length) :
    ∃ q, p.WriteTo W s = (q, s1, .ret (n1, none)) ∧ q.Ring ∧ q.l = p.l - n1 ∧
      q.contents = p.contents.drop n1 := by
  obtain ⟨hc, ⟨buf, hbuf, hlen⟩, hr, hw, hs⟩ := hR
  obtain ⟨t1, t2, t3, t4, t5, t6⟩ := hT
  have hrc : p.readCloseError = p.werr := by simp [pipe.readCloseError, hre]
  have hnr : (p.close && error.isReaderError (if p.close = true then p.readCloseError else none))
      = false := by
    cases hcl : p.close
    · simp
    · simp [hrc, t4]
  have hl0 : p.l ≠ 0 := by omega
  simp only [pipe.firstSpan, hbuf] at hW hshort
  unfold pipe.WriteTo
  simp only [hnr, t1, hbuf, hl0, Bool.false_eq_true, if_false]
  by_cases hrw : p.r < p.w
  · have hl' : p.l + p.r = p.w := by rcases hs with h | h | h <;> omega
    have hw' : p.w ≤ buf.length := by omega
    simp only [hrw, if_true] at hW hshort
    rw [slice_length buf p.r p.w hw'] at hshort
    have hne : p.l - n1 ≠ 0 := by omega
    simp only [hrw, if_true, hw', hW, hne, if_false]
    refine ⟨_, rfl, ⟨hc, ⟨buf, rfl, hlen⟩, by simp [Goutils.notifyW]; omega,
      by simpa [Goutils.notifyW] using hw, ?_⟩, by simp [Goutils.notifyW], ?_⟩
    · simp only [Goutils.notifyW]; unfold Shape; omega
    · simp only [Goutils.notifyW, pipe.contents, hbuf]
      exact ringc_drop buf p.r p.l n1
  · have hl' : p.w ≤ p.r ∧ p.l + p.r = buf.length + p.w := by
      rcases hs with h | h | h <;> omega
    have hr' : p.r ≤ buf.length := by omega
    simp only [hrw, if_false] at hW hshort
    rw [slice_length buf p.r buf.length (le_refl _)] at hshort
    have hne : p.l - n1 ≠ 0 := by omega
    simp only [hrw, if_false, hr', if_true, hW, hne, ne_eq, not_true_eq_false]
    refine ⟨_, rfl, ⟨hc, ⟨buf, rfl, hlen⟩, by simp [Goutils.notifyW]; omega,
      by simpa [Goutils.notifyW] using hw, ?_⟩, by simp [Goutils.notifyW], ?_⟩
    · simp only [Goutils.notifyW]; unfold Shape; omega
    · simp only [Goutils.notifyW, pipe.contents, hbuf]
      exact ringc_drop buf p.r p.l n1

/-- C21, as stated, fails: on `pipe4abc` (unread bytes 1, 2, 3) a sink that takes one of the
three bytes it is offered and reports no error makes `WriteTo` return `(1, nil)`, not a
short-write error. -/
theorem C21_counterexample :
    pipe4abc.firstSpan = [1, 2, 3] ∧ oneByteSink [] [1, 2, 3] = ([1], 1, none) ∧
      (pipe4abc.WriteTo oneByteSink []).2 = ([1], .ret (1, none)) ∧
      (pipe4abc.WriteTo oneByteSink []).2.2 ≠ .ret (1, some .ErrShortWrite) := by
  refine ⟨?_, ?_, ?_, ?_⟩ <;> decide

theorem C21_short_write_keeps_rest_witness :
    (0 < pipe4abc.l ∧ pipe4abc.rerr = none ∧
        oneByteSink [] pipe4abc.firstSpan = ([1], 1, none) ∧ 1 < pipe4abc.firstSpan.length) ∧
      ∃ q, pipe4abc.WriteTo oneByteSink [] = (q, [1], .ret (1, none)) ∧ q.Ring ∧
        q.l = pipe4abc.l - 1 ∧ q.contents = pipe4abc.contents.drop 1 :=
  ⟨⟨by decide, rfl, by decide, by decide⟩,
    C21_short_write_keeps_rest pipe4abc (List byte) oneByteSink [] [1] 1
      pipe4abc_Inv.1 pipe4abc_Inv.2.1 (by decide) rfl (by decide) (by decide)⟩

theorem slice_eq_ringc (buf : List byte) (r w l : Nat) (hw : w ≤ buf.length) (hl : l + r = w) :
    slice buf r w = ringc buf r l := by
  apply List.ext_getElem?
  intro i
  simp only [slice_get, ringc_get]
  split_ifs <;> first | rfl | (exfalso; omega)

/-- What `WriteTo` does on a pipe whose unread bytes lie in one span, with a sink that takes
everything: the sink receives the unread bytes and the call returns their number and a
nil error. -/
theorem WriteTo_all (p : pipe) (s0 : List byte) (hR : p.Ring) (hT : p.Tidy) (hl : 0 < p.l)
    (hre : p.rerr = none) (hspan : p.r < p.w ∨ p.w = 0) :
    (p.WriteTo keepSink s0).2 = (s0 ++ p.contents, .ret (p.l, none)) := by
  obtain ⟨hc, ⟨buf, hbuf, hlen⟩, hr, hw, hs⟩ := hR
  obtain ⟨t1, t2, t3, t4, t5, t6⟩ := hT
  have hrc : p.readCloseError = p.werr := by simp [pipe.readCloseError, hre]
  have hnr : (p.close && error.isReaderError (if p.close = true then p.readCloseError else none))
      = false := by
    cases hcl : p.close
    · simp
    · simp [hrc, t4]
  have hl0 : p.l ≠ 0 := by omega
  unfold pipe.WriteTo
  simp only [hnr, t1, hbuf, hl0, Bool.false_eq_true, if_false, pipe.contents]
  by_cases hrw : p.r < p.w
  · have hl' : p.l + p.r = p.w := by rcases hs with h | h | h <;> omega
    have hw' : p.w ≤ buf.length := by omega
    have hsl := slice_length buf p.r p.w hw'
    have hcont := slice_eq_ringc buf p.r p.w p.l hw' hl'
    have hn : p.w - p.r = p.l := by omega
    have hrl := ringc_length buf p.r p.l (by omega)
    simp only [hrw, if_true, hw', keepSink, hsl, hn, Nat.sub_self, hcont, normEOF]
    simp [hrl]
  · have hw0 : p.w = 0 := by rcases hspan with h | h <;> [exact absurd h hrw; exact h]
    have hl' : p.l + p.r = buf.length := by rcases hs with h | h | h <;> omega
    have hr' : p.r ≤ buf.length := by omega
    have hsl := slice_length buf p.r buf.length (le_refl _)
    have hcont := slice_eq_ringc buf p.r buf.length p.l (le_refl _) hl'
    have hn : buf.length - p.r = p.l := by omega
    have hrl := ringc_length buf p.r p.l (by omega)
    simp only [hrw, if_false, hr', if_true, keepSink, hsl, hn, Nat.sub_self, hcont, normEOF]
    simp [hrl]

theorem PipeWithSize_fresh (C : Nat) (dirt : Nat → byte) (p0 : pipe)
    (hp0 : PipeWithSize C dirt = some p0) :
    p0.close = false ∧ p0.done = false ∧ p0.wr = false ∧ p0.l = 0 ∧ p0.r = 0 ∧ p0.c = C ∧
      p0.rerr = none ∧ p0.werr = none ∧ p0.contents = [] := by
  unfold PipeWithSize at hp0
  split at hp0
  · exact absurd hp0 (by simp)
  · simp only [Option.some.injEq] at hp0
    subst hp0
    simp [pipe.contents, ringc]

theorem closeWrite_open (q : pipe) (hc : q.close = false) (hd : q.done = false) :
    q.closeWrite none =
      ({ q with werr := some .WriterIoEOF, close := true, done := true }, .ret none) := by
  simp [pipe.closeWrite, hc, hd]

/-- C22 (Copy from a pipe reader, as the code has it). `Copy(dst, pr)` is the one call
`pr.WriteTo(dst)`. On a pipe made by `PipeWithSize(C)`, after the writer has written `N`
bytes with `N <= C` and closed cleanly, both calls returning nil, `Copy` into a sink that
takes everything returns `(N, nil)` with the sink holding the `N` bytes when `1 <= N`, and
`(0, io.EOF)` when `N = 0`. -/
theorem C22_copy_is_one_WriteTo (C : Nat) (dirt : Nat → byte) (p0 : pipe)
    (data s0 : List byte) (hp0 : PipeWithSize C dirt = some p0) (hfit : data.length ≤ C) :
    (p0.write data 0).2 = .ret (data.length, none) ∧
      ((p0.write data 0).1.closeWrite none).2 = .ret none ∧
      (((p0.write data 0).1.closeWrite none).1.CopyTo keepSink s0) =
        (((p0.write data 0).1.closeWrite none).1.WriteTo keepSink s0) ∧
      (((p0.write data 0).1.closeWrite none).1.CopyTo keepSink s0).2 =
        (s0 ++ data, .ret (data.length, if data = [] then some .EOF else none)) := by
  obtain ⟨hcl, hdn, hwr, hl, hr, hc, hre, hwe, hcont⟩ := PipeWithSize_fresh C dirt p0 hp0
  obtain ⟨hR, hT, _⟩ := init_inv C dirt p0 hp0
  change p0.Ring at hR
  change p0.Tidy at hT
  by_cases hd : data = []
  · subst hd
    have hw : p0.write [] 0 = (p0, .ret (0, none)) := by simp [pipe.write, hcl]
    rw [hw]
    simp only [closeWrite_open p0 hcl hdn, pipe.CopyTo, Copy, copyBuffer]
    refine ⟨rfl, by first | rfl | trivial, by first | rfl | trivial, ?_⟩
    obtain ⟨_, ⟨buf, hbuf, _⟩, _⟩ := hR
    simp [pipe.WriteTo, pipe.readCloseError, hre, error.isReaderError, hwr, hbuf, hl, normEOF]
  · obtain ⟨buf1, w1, hw, hRq, hcq⟩ := write_pass p0 data 0 hR hcl hwr hd
    have hk : min (p0.c - p0.l) data.length = data.length := by omega
    have hfit2 : data.length ≤ p0.c - p0.l := by omega
    rw [hk] at hw hRq hcq
    rw [if_pos hfit2, Nat.zero_add] at hw
    rw [hcont, List.nil_append, List.take_length] at hcq
    rw [hw]
    simp only [closeWrite_open (p0.stored buf1 w1 data.length) hcl hdn, pipe.CopyTo, Copy,
      copyBuffer]
    refine ⟨by first | rfl | trivial, by first | rfl | trivial, by first | rfl | trivial, ?_⟩
    have hTq : (p0.stored buf1 w1 data.length).Tidy :=
      Tidy_of_SameEnds ⟨rfl, rfl, rfl, rfl, rfl, rfl⟩ hT
    obtain ⟨hR2, hT2, hc2, _⟩ := closeWrite_keeps (p0.stored buf1 w1 data.length) none hRq hTq
    rw [closeWrite_open (p0.stored buf1 w1 data.length) hcl hdn] at hR2 hT2 hc2
    have hdl : 0 < data.length := List.length_pos.mpr hd
    have hsh := hR2.2.2.2.2
    have hall := WriteTo_all _ s0 hR2 hT2 (by show 0 < p0.l + data.length; omega) hre
      (by
        change Shape p0.c p0.r w1 (p0.l + data.length) at hsh
        show p0.r < w1 ∨ w1 = 0
        rcases hsh with h | h | h <;> omega)
    rw [hall, hc2, hcq, if_neg hd]
    show (s0 ++ data, Res.ret (p0.l + data.length, none)) = _
    rw [hl, Nat.zero_add]

theorem C22_copy_is_one_WriteTo_witness :
    (PipeWithSize 4 (fun _ => 0) = some pipe4 ∧ [1, 2, 3].length ≤ 4) ∧
      ((pipe4.write [1, 2, 3] 0).2 = .ret ([1, 2, 3].length, none) ∧
      ((pipe4.write [1, 2, 3] 0).1.closeWrite none).2 = .ret none ∧
      (((pipe4.write [1, 2, 3] 0).1.closeWrite none).1.CopyTo keepSink []) =
        (((pipe4.write [1, 2, 3] 0).1.closeWrite none).1.WriteTo keepSink []) ∧
      (((pipe4.write [1, 2, 3] 0).1.closeWrite none).1.CopyTo keepSink []).2 =
        ([] ++ [1, 2, 3],
          .ret ([1, 2, 3].length, if ([1, 2, 3] : List byte) = [] then some .EOF else none))) :=
  ⟨⟨rfl, by decide⟩, C22_copy_is_one_WriteTo 4 (fun _ => 0) pipe4 [1, 2, 3] [] rfl (by decide)⟩

/-- C22, as stated, fails: on `pipe4` the writer writes 0 bytes and closes cleanly, both
calls returning nil, and `Copy(dst, pr)` then returns `(0, io.EOF)`, not `(0, nil)`. -/
theorem C22_counterexample :
    (pipe4.write [] 0).2 = .ret (0, none) ∧ (pipe4.closeWrite none).2 = .ret none ∧
      ((pipe4.closeWrite none).1.CopyTo keepSink []).2 = ([], .ret (0, some .EOF)) := by
  refine ⟨?_, ?_, ?_⟩ <;> decide

/-- C23 (code defect). `CopyN(dst, src, -1)` returns `(0, nil)`: `written` is 0, not `n`,
and `err` is nil, against "written == n if and only if err == nil". The limited reader
answers its first `Read` with `io.EOF` for every `n <= 0`, `Copy` returns `(0, nil)`, and
neither `written == n` nor `written < n` holds. For `n = 2` and `n = 5` on a source of three
bytes the results are `(2, nil)` and `(3, io.EOF)`. -/
theorem C23_CopyN_negative_count :
    (CopyN poolFull listRead keepWrite none 2 [1, 2, 3] [] (-1)).2.2 = .ret (0, none) ∧
      (CopyN poolEmpty listRead keepWrite none 2 [] [] (-1)).2.2 = .ret (0, none) ∧
      (CopyN poolFull listRead keepWrite none 3 [1, 2, 3] [] 2).2 = ([1, 2], .ret (2, none)) ∧
      (CopyN poolFull listRead keepWrite none 3 [1, 2, 3] [] 5).2 =
        ([1, 2, 3], .ret (3, some .EOF)) := by
  refine ⟨?_, ?_, ?_, ?_⟩ <;> decide

set_option maxRecDepth 1000000 in
/-- C24 (code defect). `ReadAll` reads into the local slice `b` and never stores `b` back
into `pb.B`, so the returned `pb.B` keeps the length the pool gave it. For a reader that
yields the bytes 1, 2, 3 and then `io.EOF`: with a pool that hands out length 0 and
capacity `size` the call returns `err == nil` and an empty `pb.B`; with a pool that hands
out length `size` the first buffer counts as full, the buffer grows to 768 bytes, and
`pb.B` is those 768 bytes, the three bytes read standing at offset 512 behind the 512 bytes
the pool left in the first buffer. -/
theorem C24_ReadAll_returns_pool_length :
    readAllB (ReadAll poolEmpty listRead 3 [1, 2, 3]) = some ([], none) ∧
      (readAllB (ReadAll poolFull listRead 4 [1, 2, 3])).map
          (fun x => (x.1.length, x.1.take 3, (x.1.drop 512).take 3, x.2)) =
        some (768, [0, 0, 0], [1, 2, 3], none) := by
  refine ⟨?_, ?_⟩ <;> decide

theorem LastIndexByte_ge (s : List byte) (c : byte) : -1 ≤ LastIndexByte s c := by
  induction s with
  | nil => simp [LastIndexByte]
  | cons x xs ih =>
    unfold LastIndexByte
    split_ifs <;> omega

theorem LastIndexByte_none (s : List byte) (c : byte) (h : c ∉ s) : LastIndexByte s c = -1 := by
  induction s with
  | nil => rfl
  | cons x xs ih =>
    have hx : ¬ x = c := fun e => h (e ▸ List.mem_cons_self _ _)
    have hxs : c ∉ xs := fun e => h (List.mem_cons_of_mem _ e)
    unfold LastIndexByte
    simp [ih hxs, hx]

theorem LastIndexByte_last (pre post : List byte) (c : byte) (h : c ∉ post) :
    LastIndexByte (pre ++ c :: post) c = pre.length := by
  induction pre with
  | nil =>
    simp only [List.nil_append, List.length_nil]
    unfold LastIndexByte
    simp [LastIndexByte_none post c h]
  | cons x xs ih =>
    simp only [List.cons_append, List.length_cons]
    unfold LastIndexByte
    rw [ih]
    have : ¬ ((xs.length : Int) = -1) := by omega
    simp [this]

theorem validOptionalPort_bad (post : List byte) (b : byte) (hb : b ∈ post)
    (hbad : b < byteOf '0' ∨ byteOf '9' < b) :
    validOptionalPort (byteOf ':' :: post) = false := by
  unfold validOptionalPort
  simp only [ne_eq, not_true_eq_false, if_false]
  rw [Bool.eq_false_iff]
  intro hall
  have := List.all_eq_true.mp hall b hb
  rcases hbad with h | h <;> simp [h] at this

theorem brackets_iff (h : List byte) (x y : byte) (hxy : x ≠ y) :
    (HasPrefix h [x] && HasSuffix h [y]) = true ↔ ∃ m, h = x :: m ++ [y] := by
  constructor
  · intro hb
    simp only [HasPrefix, HasSuffix, List.length_singleton, Bool.and_eq_true, decide_eq_true_eq,
      beq_iff_eq] at hb
    obtain ⟨⟨_, h1⟩, hl, h2⟩ := hb
    cases h with
    | nil => simp at hl
    | cons a t =>
      simp only [List.take_succ_cons, List.take_zero, List.cons.injEq, and_true] at h1
      subst h1
      simp only [List.length_cons, Nat.add_sub_cancel] at h2
      have h3 : a :: t = (a :: t).take t.length ++ (a :: t).drop t.length :=
        (List.take_append_drop _ _).symm
      rw [h2] at h3
      cases t with
      | nil =>
        simp at h2
        exact absurd h2 hxy
      | cons b t2 =>
        refine ⟨(b :: t2).take t2.length, ?_⟩
        rw [h3]
        simp
  · rintro ⟨m, rfl⟩
    simp only [HasPrefix, HasSuffix, List.length_singleton, Bool.and_eq_true, decide_eq_true_eq,
      beq_iff_eq]
    refine ⟨⟨by simp, by simp⟩, by simp, ?_⟩
    have : (x :: m ++ [y]).length - 1 = (x :: m).length := by simp
    rw [this]
    exact List.drop_left' rfl

theorem slice_inner (x y : byte) (m : List byte) :
    slice (x :: m ++ [y]) 1 ((x :: m ++ [y]).length - 1) = m := by
  have : (x :: m ++ [y]).length - 1 = (x :: m).length := by simp
  rw [this]
  unfold slice
  rw [List.take_left' rfl]
  rfl

/-- C25 (code defect). `AddMissingPort` tests the positions of the last and of the first
`':'` with `> 0`, so a `':'` at index 0 counts as not found. The unbracketed IPv6 literal
`"::1"` comes back unchanged, with no brackets and no port, where `"1::1"` becomes
`"[1::1]:80"`; and `":8080"`, which has exactly one `':'`, becomes `":8080:80"`. -/
theorem C25_AddMissingPort_leading_colon :
    AddMissingPort (lit "::1") false = lit "::1" ∧
      AddMissingPort (lit "::1") true = lit "::1" ∧
      AddMissingPort (lit "1::1") false = lit "[1::1]:80" ∧
      AddMissingPort (lit ":8080") false = lit ":8080:80" ∧
      AddMissingPort (lit "a:8080") false = lit "a:8080" ∧
      AddMissingPort (lit "a") true = lit "a:443" := by
  refine ⟨?_, ?_, ?_, ?_, ?_, ?_⟩ <;> decide

/-- What `SplitHostAndPortStd` does with an invalid port. For every input that has no `':'`
or whose text after the last `':'` holds a byte that is not an ASCII digit, it returns the
empty string as port, and as host the input without its first and last byte when the input
starts with `'['` and ends with `']'`, the entire input otherwise. -/
theorem SplitHostAndPortStd_invalid_port (h : List byte)
    (hbad : byteOf ':' ∉ h ∨
      ∃ pre post b, h = pre ++ byteOf ':' :: post ∧ byteOf ':' ∉ post ∧ b ∈ post ∧
        (b < byteOf '0' ∨ byteOf '9' < b)) :
    (SplitHostAndPortStd h).2 = [] ∧
      (∀ m, h = byteOf '[' :: m ++ [byteOf ']'] → (SplitHostAndPortStd h).1 = m) ∧
      ((¬ ∃ m, h = byteOf '[' :: m ++ [byteOf ']']) → (SplitHostAndPortStd h).1 = h) := by
  have hp : (if LastIndexByte h (byteOf ':') ≠ -1 ∧
        validOptionalPort (h.drop (LastIndexByte h (byteOf ':')).toNat) = true then
        (h.take (LastIndexByte h (byteOf ':')).toNat,
          h.drop ((LastIndexByte h (byteOf ':')).toNat + 1))
      else (h, [])) = (h, []) := by
    rcases hbad with hno | ⟨pre, post, b, rfl, hpost, hb, hd⟩
    · simp [LastIndexByte_none h _ hno]
    · rw [LastIndexByte_last pre post _ hpost]
      simp [validOptionalPort_bad post b hb hd]
  have hlb : lit "[" = [byteOf '['] := by decide
  have hrb : lit "]" = [byteOf ']'] := by decide
  have hne : byteOf '[' ≠ byteOf ']' := by decide
  unfold SplitHostAndPortStd
  simp only [hp, hlb, hrb]
  by_cases hbr : ∃ m, h = byteOf '[' :: m ++ [byteOf ']']
  · rw [if_pos ((brackets_iff h _ _ hne).mpr hbr)]
    refine ⟨rfl, ?_, fun hn => absurd hbr hn⟩
    intro m hm
    subst hm
    exact slice_inner _ _ m
  · rw [if_neg (fun hb => hbr ((brackets_iff h _ _ hne).mp hb))]
    refine ⟨rfl, ?_, fun _ => rfl⟩
    intro m hm
    exact absurd ⟨m, hm⟩ hbr

theorem SplitHostAndPortStd_invalid_port_bracketed :
    (byteOf ':' ∉ lit "[::1]" ∨
      ∃ pre post b, lit "[::1]" = pre ++ byteOf ':' :: post ∧ byteOf ':' ∉ post ∧ b ∈ post ∧
        (b < byteOf '0' ∨ byteOf '9' < b)) ∧
    ((SplitHostAndPortStd (lit "[::1]")).2 = [] ∧
      (∀ m, lit "[::1]" = byteOf '[' :: m ++ [byteOf ']'] →
        (SplitHostAndPortStd (lit "[::1]")).1 = m) ∧
      ((¬ ∃ m, lit "[::1]" = byteOf '[' :: m ++ [byteOf ']']) →
        (SplitHostAndPortStd (lit "[::1]")).1 = lit "[::1]")) :=
  ⟨Or.inr ⟨lit "[:", lit "1]", byteOf ']', by decide, by decide, by decide, by decide⟩,
    SplitHostAndPortStd_invalid_port (lit "[::1]")
      (Or.inr ⟨lit "[:", lit "1]", byteOf ']', by decide, by decide, by decide, by decide⟩)⟩

/-- C26 (code defect). The doc comment of `SplitHostAndPortStd` says that with an invalid
port it returns the entire input as host. In `"[::1]"` the text after the last `':'` is
`"1]"`, which is not a run of digits, so the port is invalid; the code then strips the
enclosing brackets and returns the host `"::1"`, not the entire input. On `"a:b"`, whose
port is invalid too, it returns the entire input. -/
theorem C26_brackets_stripped :
    LastIndexByte (lit "[::1]") (byteOf ':') = 2 ∧
      validOptionalPort (lit ":1]") = false ∧
      SplitHostAndPortStd (lit "[::1]") = (lit "::1", []) ∧
      (SplitHostAndPortStd (lit "[::1]")).1 ≠ lit "[::1]" ∧
      SplitHostAndPortStd (lit "a:b") = (lit "a:b", []) := by
  refine ⟨?_, ?_, ?_, ?_, ?_⟩ <;> decide

theorem wrap64_out (off level : Int) (h : isInt64 level) (h0 : 0 ≤ off) (h1 : off ≤ 2)
    (hout : level < -off ∨ 11 - off < level) :
    wrap64 (off + level) < 0 ∨ wrap64 (off + level) ≥ (levelCount : Int) := by
  unfold isInt64 at h
  unfold wrap64 levelCount
  norm_num at h ⊢
  omega

theorem wrap64_in (off level : Int) (h0 : -off ≤ level) (h1 : level ≤ 11 - off) :
    wrap64 (off + level) = off + level := by
  unfold wrap64
  omega

theorem Pool_default (cps : PoolContainer) (level : Int) (h : isInt64 level)
    (h0 : 0 ≤ cps.offset) (h1 : cps.offset ≤ 2)
    (hout : level < -cps.offset ∨ 11 - cps.offset < level) :
    cps.Pool level = cps.pools[toUint (wrap64 (cps.defaultLevel + cps.offset))]? := by
  have hw := wrap64_out cps.offset level h h0 h1 hout
  unfold PoolContainer.Pool
  simp only [hw, if_true]
  split
  · rfl
  · rename_i hlt
    exact (List.getElem?_eq_none (Nat.le_of_not_lt hlt)).symm

theorem Pool_level (cps : PoolContainer) (level : Int)
    (h0 : -cps.offset ≤ level) (h1 : level ≤ 11 - cps.offset) :
    cps.Pool level = cps.pools[(cps.offset + level).toNat]? := by
  have hw := wrap64_in cps.offset level h0 h1
  have hn : ¬ (cps.offset + level < 0 ∨ cps.offset + level ≥ (levelCount : Int)) := by
    unfold levelCount; push_cast; omega
  have hu : toUint (cps.offset + level) = (cps.offset + level).toNat := by
    unfold toUint
    congr 1
    omega
  unfold PoolContainer.Pool
  simp only [hw, hn, if_false, hu]
  split
  · rfl
  · rename_i hlt
    exact (List.getElem?_eq_none (Nat.le_of_not_lt hlt)).symm

/-- C27 (level selection for gzip, deflate and cbrotli). For every `int` `level`,
`DefaultGzipCompressPools.Pool(level)` and `DefaultDeflateCompressPools.Pool(level)` return
the pool whose writers are built with exactly `level` when `-2 <= level <= 9` and the pool of
level -1 otherwise, and `DefaultCBrotliCompressPools.Pool(level)` returns the pool of quality
`level` when `0 <= level <= 11` and the pool of quality 3 otherwise; `Pool` returns a pool
and does not reach its panic. -/
theorem C27_level_selection (level : Int) (h : isInt64 level) :
    DefaultGzipCompressPools.Pool level =
        some { level := if -2 ≤ level ∧ level ≤ 9 then level else -1, needBuffer := true } ∧
      DefaultDeflateCompressPools.Pool level =
        some { level := if -2 ≤ level ∧ level ≤ 9 then level else -1, needBuffer := true } ∧
      DefaultCBrotliCompressPools.Pool level =
        some { level := if 0 ≤ level ∧ level ≤ 11 then level else 3, needBuffer := false } := by
  refine ⟨?_, ?_, ?_⟩
  · by_cases hin : -2 ≤ level ∧ level ≤ 9
    · obtain ⟨ha, hb⟩ := hin
      rw [Pool_level _ _ (by simpa [DefaultGzipCompressPools] using ha)
        (by simp [DefaultGzipCompressPools]; omega)]
      interval_cases level <;> decide
    · rw [Pool_default _ _ h (by decide) (by decide)
        (by simp only [DefaultGzipCompressPools]; omega), if_neg hin]
      decide
  · by_cases hin : -2 ≤ level ∧ level ≤ 9
    · obtain ⟨ha, hb⟩ := hin
      rw [Pool_level _ _ (by simpa [DefaultDeflateCompressPools] using ha)
        (by simp [DefaultDeflateCompressPools]; omega)]
      interval_cases level <;> decide
    · rw [Pool_default _ _ h (by decide) (by decide)
        (by simp only [DefaultDeflateCompressPools]; omega), if_neg hin]
      decide
  · by_cases hin : 0 ≤ level ∧ level ≤ 11
    · obtain ⟨ha, hb⟩ := hin
      rw [Pool_level _ _ (by simpa [DefaultCBrotliCompressPools] using ha)
        (by simp [DefaultCBrotliCompressPools]; omega)]
      interval_cases level <;> decide
    · rw [Pool_default _ _ h (by decide) (by decide)
        (by simp only [DefaultCBrotliCompressPools]; omega), if_neg hin]
      decide

theorem C27_level_selection_witness :
    isInt64 100 ∧
      (DefaultGzipCompressPools.Pool 100 =
          some { level := if -2 ≤ (100 : Int) ∧ (100 : Int) ≤ 9 then 100 else -1,
                 needBuffer := true } ∧
        DefaultDeflateCompressPools.Pool 100 =
          some { level := if -2 ≤ (100 : Int) ∧ (100 : Int) ≤ 9 then 100 else -1,
                 needBuffer := true } ∧
        DefaultCBrotliCompressPools.Pool 100 =
          some { level := if 0 ≤ (100 : Int) ∧ (100 : Int) ≤ 11 then 100 else 3,
                 needBuffer := false }) :=
  ⟨by decide, C27_level_selection 100 (by decide)⟩

/-- C28 (level selection for zstd). For every `int` `level`,
`DefaultZstdCompressPools.Pool(level)` returns a pool, and its encoders use level `level`
when `1 <= level <= 4`, level 4 (best compression) when `5 <= level <= 11`, level 1
(fastest) when `level = 0`, and the default level 2 when `level < 0` or `level >= 12`. -/
theorem C28_zstd_level_selection (level : Int) (h : isInt64 level) :
    DefaultZstdCompressPools.Pool level =
      some { level := if 1 ≤ level ∧ level ≤ 4 then level
                      else if 5 ≤ level ∧ level ≤ 11 then 4
                      else if level = 0 then 1 else 2,
             needBuffer := false } := by
  by_cases hin : 0 ≤ level ∧ level ≤ 11
  · obtain ⟨ha, hb⟩ := hin
    rw [Pool_level _ _ (by simpa [DefaultZstdCompressPools] using ha)
      (by simp [DefaultZstdCompressPools]; omega)]
    interval_cases level <;> decide
  · rw [Pool_default _ _ h (by decide) (by decide)
      (by simp only [DefaultZstdCompressPools]; omega)]
    have h1 : ¬ (1 ≤ level ∧ level ≤ 4) := by omega
    have h2 : ¬ (5 ≤ level ∧ level ≤ 11) := by omega
    have h3 : ¬ level = 0 := by omega
    rw [if_neg h1, if_neg h2, if_neg h3]
    decide

theorem C28_zstd_level_selection_witness :
    isInt64 7 ∧
      DefaultZstdCompressPools.Pool 7 =
        some { level := if 1 ≤ (7 : Int) ∧ (7 : Int) ≤ 4 then 7
                        else if 5 ≤ (7 : Int) ∧ (7 : Int) ≤ 11 then 4
                        else if (7 : Int) = 0 then 1 else 2,
               needBuffer := false } :=
  ⟨by decide, C28_zstd_level_selection 7 (by decide)⟩

/-- C30 (code defect). A lost wake-up. On `pipe4` (capacity 4, open) a `Write` of two bytes
returns and a `Flush` parks, the ring holding two bytes. A `Read` of two bytes then drains
the ring, but `read` sends the wake signal only when the ring was full before the copy
(`space == 0`): the length is 0, the wake token is not set and `done` is not closed, so the
parked `Flush` stays parked. And `ReadByte` on the full ring of `fullSys`, where a `Write`
is parked, takes a byte on its fast path and sends no wake signal at all. -/
theorem C30_flush_not_woken :
    pipe4ab.close = false ∧ pipe4ab.flush = (pipe4ab, .park ()) ∧
      (pipe4ab.read [0, 0]).2 = .ret (2, none, [1, 2]) ∧
      (pipe4ab.read [0, 0]).1.l = 0 ∧ (pipe4ab.read [0, 0]).1.notifyW = false ∧
      (pipe4ab.read [0, 0]).1.done = false ∧
      readerFull.pipe.l = readerFull.pipe.c ∧ fullSys.writer = .parked [1, 2, 3, 4, 5, 6] [5, 6] 4 ∧
      readerFull.ReadByte.2 = .ret (1, none) ∧ readerFull.ReadByte.1.pipe.l = 3 ∧
      readerFull.ReadByte.1.pipe.notifyW = false ∧ readerFull.ReadByte.1.pipe.done = false := by
  refine ⟨?_, ?_, ?_, ?_, ?_, ?_, ?_, ?_, ?_, ?_, ?_, ?_⟩ <;> decide

/-- C31 (drain before the close is reported, as the code has it). On a well-formed pipe
with `l > 0` unread bytes, `Read` with a non-empty buffer returns `min(l, len(b))` buffered
bytes with a nil error whenever the read end has not closed the pipe, whether or not the
write end has closed it and with whatever error. When the read end has closed the pipe,
`Read` returns `(0, err)` with the reader's close error and leaves the ring as it is. -/
theorem C31_drain_unless_reader_closed (p : pipe) (b : List byte)
    (hR : p.Ring) (hT : p.Tidy) (hl : 0 < p.l) (hb : b ≠ []) :
    (p.rerr = none →
        ∃ q, p.read b = (q, .ret (min p.l b.length, none,
            p.contents.take b.length ++ b.drop (min p.l b.length))) ∧
          q.contents = p.contents.drop b.length ∧ q.l = p.l - min p.l b.length) ∧
      (∀ e, p.close = true → p.rerr = some e → p.read b = (p, .ret (0, some e, b))) := by
  obtain ⟨t1, t2, t3, t4, t5, t6⟩ := hT
  constructor
  · intro hre
    have hrc : p.readCloseError = p.werr := by simp [pipe.readCloseError, hre]
    obtain ⟨q, hq, _, hqc, _, hql, _, _⟩ :=
      read_pass_data p b hR t1 (by rw [hrc, t4]; simp) hl hb
    exact ⟨q, hq, hqc, hql⟩
  · intro e hc he
    have hrc : p.readCloseError = some e := by simp [pipe.readCloseError, he]
    have hir := t6 e he
    unfold pipe.read
    simp [hc, hrc, hir]

theorem pipe4one_Ring : pipe4one.Ring :=
  ⟨by decide, ⟨_, rfl, rfl⟩, by decide, by decide, Or.inr (Or.inl ⟨by decide, by decide⟩)⟩

theorem pipe4one_Tidy : pipe4one.Tidy :=
  ⟨rfl, rfl, by decide, rfl, by decide, by decide⟩

theorem pipe4ab_Ring : pipe4ab.Ring :=
  ⟨by decide, ⟨_, rfl, rfl⟩, by decide, by decide, Or.inr (Or.inl ⟨by decide, by decide⟩)⟩

theorem pipe4ab_Tidy : pipe4ab.Tidy :=
  ⟨rfl, rfl, by decide, rfl, by decide, by decide⟩

/-- C31, as stated, fails: on `pipe4abcShut` three bytes are unread and the buffer is not
released, but the read end has closed the pipe, and `Read` into a two-byte buffer returns
`(0, err)` with the reader's close error instead of two bytes. -/
theorem C31_counterexample :
    pipe4abcShut.l = 3 ∧ pipe4abcShut.buf = some [1, 2, 3, 0] ∧ pipe4abcShut.close = true ∧
      (pipe4abcShut.read [0, 0]).2 =
        .ret (0, some (.readerError .ErrClosedPipe), [0, 0]) := by
  refine ⟨?_, ?_, ?_, ?_⟩ <;> decide

theorem C31_drain_unless_reader_closed_witness :
    (0 < pipe4one.l ∧ ([0, 0] : List byte) ≠ [] ∧ pipe4one.close = true ∧
        pipe4one.rerr = none) ∧
      ∃ q, pipe4one.read [0, 0] = (q, .ret (min pipe4one.l [0, 0].length, none,
          pipe4one.contents.take [0, 0].length ++ [0, 0].drop (min pipe4one.l [0, 0].length))) ∧
        q.contents = pipe4one.contents.drop [0, 0].length ∧
        q.l = pipe4one.l - min pipe4one.l [0, 0].length :=
  ⟨⟨by decide, by decide, rfl, rfl⟩,
    (C31_drain_unless_reader_closed pipe4one [0, 0] pipe4one_Ring pipe4one_Tidy
      (by decide) (by decide)).1 rfl⟩

/-- C32 (wake signals). On a well-formed pipe, a pass of `write` on an open pipe with free
space stores at least one byte and leaves the reader's wake token set exactly if it was set
before or the ring was empty (`l = 0`) before the pass: it signals the reader if and only
if the ring was empty. A pass of `read` that finds unread bytes, the read end not having
closed the pipe, removes at least one byte and leaves the writer's wake token set exactly
if it was set before or the ring was full (`l = c`) before the pass. Neither pass touches
the other token. -/
theorem C32_wake_signals (p : pipe) (b : List byte) (n : Nat) (hR : p.Ring) (hT : p.Tidy)
    (hb : b ≠ []) :
    (p.close = false → 0 < p.c - p.l →
        p.l < (p.write b n).1.l ∧
          (p.write b n).1.notifyR = (p.notifyR || decide (p.l = 0)) ∧
          (p.write b n).1.notifyW = p.notifyW) ∧
      (p.rerr = none → 0 < p.l →
        (p.read b).1.l < p.l ∧
          (p.read b).1.notifyW = (p.notifyW || decide (p.l = p.c)) ∧
          (p.read b).1.notifyR = p.notifyR) := by
  obtain ⟨t1, t2, t3, t4, t5, t6⟩ := hT
  have hbl : 0 < b.length := List.length_pos.mpr hb
  constructor
  · intro hopen hsp
    obtain ⟨buf1, w1, hw, _, _⟩ := write_pass p b n hR hopen t1 hb
    rw [hw]
    refine ⟨?_, rfl, rfl⟩
    show p.l < p.l + min (p.c - p.l) b.length
    omega
  · intro hre hl
    have hrc : p.readCloseError = p.werr := by simp [pipe.readCloseError, hre]
    obtain ⟨q, hq, _, _, _, hql, hqR, hqW⟩ :=
      read_pass_data p b hR t1 (by rw [hrc, t4]; simp) hl hb
    rw [hq]
    refine ⟨?_, hqW, hqR⟩
    show q.l < p.l
    omega

theorem C32_wake_signals_witness :
    ([3, 4, 5] : List byte) ≠ [] ∧
      (pipe4ab.l < (pipe4ab.write [3, 4, 5] 0).1.l ∧
        (pipe4ab.write [3, 4, 5] 0).1.notifyR = (pipe4ab.notifyR || decide (pipe4ab.l = 0)) ∧
        (pipe4ab.write [3, 4, 5] 0).1.notifyW = pipe4ab.notifyW) ∧
      ((pipe4ab.read [3, 4, 5]).1.l < pipe4ab.l ∧
        (pipe4ab.read [3, 4, 5]).1.notifyW =
          (pipe4ab.notifyW || decide (pipe4ab.l = pipe4ab.c)) ∧
        (pipe4ab.read [3, 4, 5]).1.notifyR = pipe4ab.notifyR) :=
  ⟨by decide,
    (C32_wake_signals pipe4ab [3, 4, 5] 0 pipe4ab_Ring pipe4ab_Tidy (by decide)).1 rfl
      (by decide),
    (C32_wake_signals pipe4ab [3, 4, 5] 0 pipe4ab_Ring pipe4ab_Tidy (by decide)).2 rfl
      (by decide)⟩

theorem normEOF_ne (e : Option error) : normEOF e ≠ some .WriterIoEOF := by
  unfold normEOF
  split_ifs with h
  · simp
  · exact h

theorem reader_err_ne (c : Bool) (e : Option error)
    (h : (c && error.isReaderError e) = true) : e ≠ some .WriterIoEOF := by
  intro he
  subst he
  simp [error.isReaderError] at h

theorem read_no_sentinel (p : pipe) (b : List byte) (n : Nat) (e : Option error)
    (b1 : List byte) (h : (p.read b).2 = .ret (n, e, b1)) : e ≠ some .WriterIoEOF := by
  have hreset : ∀ x : Option error, (if x ≠ none then none else x) = none := by
    intro x; cases x <;> rfl
  unfold pipe.read at h
  simp only [hreset] at h
  generalize (if p.close = true then p.readCloseError else none) = err0 at h
  cases hbuf : p.buf with
  | none =>
    simp only [hbuf] at h
    split_ifs at h with h1 <;>
      first
      | (simp only [Res.ret.injEq, Prod.mk.injEq, reduceCtorEq] at h; done)
      | (simp only [Res.ret.injEq, Prod.mk.injEq, reduceCtorEq] at h
         obtain ⟨_, rfl, _⟩ := h
         first | exact reader_err_ne _ _ h1 | simp)
  | some buf =>
    simp only [hbuf] at h
    cases hrc : readCopy buf p.r p.w b with
    | none =>
      simp only [hrc] at h
      split_ifs at h with h1 <;>
        first
        | (simp only [Res.ret.injEq, Prod.mk.injEq, reduceCtorEq] at h; done)
        | (simp only [Res.ret.injEq, Prod.mk.injEq, reduceCtorEq] at h
           obtain ⟨_, rfl, _⟩ := h
           first | exact reader_err_ne _ _ h1 | exact normEOF_ne _ | simp)
    | some x =>
      obtain ⟨b2, r1⟩ := x
      simp only [hrc] at h
      split_ifs at h with h1 <;>
        first
        | (simp only [Res.ret.injEq, Prod.mk.injEq, reduceCtorEq] at h; done)
        | (simp only [Res.ret.injEq, Prod.mk.injEq, reduceCtorEq] at h
           obtain ⟨_, rfl, _⟩ := h
           first | exact reader_err_ne _ _ h1 | exact normEOF_ne _ | simp)

theorem readUnsafe_no_sentinel (p : pipe) (b : List byte) (past : Nat → byte) (n : Nat)
    (e : Option error) (b1 : List byte) (h : (p.readUnsafe b past).2.1 = .ret (n, e, b1)) :
    e ≠ some .WriterIoEOF := by
  have hreset : ∀ x : Option error, (if x ≠ none then none else x) = none := by
    intro x; cases x <;> rfl
  unfold pipe.readUnsafe at h
  generalize (if p.close = true then p.readCloseError else none) = err0 at h
  by_cases h1 : (p.close && error.isReaderError err0) = true
  · simp only [h1, if_true, Res.ret.injEq, Prod.mk.injEq] at h
    obtain ⟨_, rfl, _⟩ := h
    exact reader_err_ne _ _ h1
  by_cases h2 : b.length = 0
  · simp only [h1, h2, if_true, if_false, reduceCtorEq] at h
  by_cases h3 : p.wr = true
  · simp only [h1, h2, h3, if_true, if_false, reduceCtorEq] at h
  cases hbuf : p.buf with
  | none =>
    simp only [h1, h2, h3, hbuf, if_false, Res.ret.injEq, Prod.mk.injEq] at h
    obtain ⟨_, rfl, _⟩ := h
    simp
  | some buf =>
    by_cases h4 : err0 ≠ none ∧ p.l = 0
    · simp only [h1, h2, h3, hbuf, if_false, if_pos h4, Res.ret.injEq, Prod.mk.injEq] at h
      obtain ⟨_, rfl, _⟩ := h
      exact normEOF_ne _
    by_cases h5 : 0 < p.l
    · by_cases h6 : b.length < p.l
      · simp only [h1, h2, h3, hbuf, if_neg h4, if_pos h5, if_pos h6, if_false, Res.ret.injEq,
          Prod.mk.injEq, hreset] at h
        obtain ⟨_, rfl, _⟩ := h
        simp
      · simp only [h1, h2, h3, hbuf, if_neg h4, if_pos h5, if_neg h6, if_false, Res.ret.injEq,
          Prod.mk.injEq, hreset] at h
        obtain ⟨_, rfl, _⟩ := h
        exact normEOF_ne _
    · simp only [h1, h2, h3, hbuf, if_neg h4, if_neg h5, if_false, reduceCtorEq] at h

theorem ReadByte_no_sentinel (r : PipeReader) (x : byte) (e : Option error)
    (h : r.ReadByte.2 = .ret (x, e)) : e ≠ some .WriterIoEOF := by
  unfold PipeReader.ReadByte at h
  split at h
  · exact absurd h (by simp)
  · split at h
    · simp only [Res.ret.injEq, Prod.mk.injEq] at h
      obtain ⟨_, rfl⟩ := h
      simp
    · split_ifs at h
      · split at h
        · exact absurd h (by simp)
        · simp only [Res.ret.injEq, Prod.mk.injEq] at h
          obtain ⟨_, rfl⟩ := h
          simp
      · split at h
        · rename_i p2 n err b1 heq
          simp only [Res.ret.injEq, Prod.mk.injEq] at h
          obtain ⟨_, rfl⟩ := h
          exact read_no_sentinel _ _ n err b1 (by rw [heq])
        · exact absurd h (by simp)
        · exact absurd h (by simp)
        · exact absurd h (by simp)

theorem Unlock_Lock (p p1 : pipe) (h : Lock p = some p1) : Unlock p1 = p := by
  unfold Lock at h
  split_ifs at h with hw
  simp only [Option.some.injEq] at h
  subst h
  rcases p with ⟨rerr, werr, buf, r, w, l, c, wr, done, nR, nW, close⟩
  simp only [Bool.not_eq_true] at hw
  simp only [Unlock]
  rw [hw]

/-- C33 (sentinel normalisation). `Read`, `ReadUnsafe` and `ReadByte` never return the
sentinel `WriterIoEOF`, in any state and for any buffer. And in a state in which the close
error to report is the sentinel (the pipe is closed, `readCloseError` is `WriterIoEOF`, the
ring is empty, the buffer is not released and the mutex is free) `Read` returns
`(0, io.EOF)`, `ReadUnsafe` with a non-empty destination returns `(0, io.EOF)` and `ReadByte`
returns `io.EOF`. -/
theorem C33_sentinel_normalised (p : pipe) (r : PipeReader) (b : List byte)
    (past : Nat → byte) :
    (∀ n e b1, (p.read b).2 = .ret (n, e, b1) → e ≠ some .WriterIoEOF) ∧
      (∀ n e b1, (p.readUnsafe b past).2.1 = .ret (n, e, b1) → e ≠ some .WriterIoEOF) ∧
      (∀ x e, r.ReadByte.2 = .ret (x, e) → e ≠ some .WriterIoEOF) ∧
      (p.close = true → p.readCloseError = some .WriterIoEOF → p.l = 0 → p.buf ≠ none →
        p.wr = false →
          (p.read b).2 = .ret (0, some .EOF, b) ∧
            (b ≠ [] → (p.readUnsafe b past).2.1 = .ret (0, some .EOF, b)) ∧
            (r.pipe = p → r.ReadByte.2 = .ret (0, some .EOF))) := by
  refine ⟨fun n e b1 h => read_no_sentinel p b n e b1 h,
    fun n e b1 h => readUnsafe_no_sentinel p b past n e b1 h,
    fun x e h => ReadByte_no_sentinel r x e h, ?_⟩
  intro hc he hl hbuf hwr
  obtain ⟨buf, hb⟩ := Option.ne_none_iff_exists'.mp hbuf
  have hread : ∀ b0 : List byte, (p.read b0) = (p, .ret (0, some .EOF, b0)) := by
    intro b0
    unfold pipe.read
    simp [hc, he, hl, hb, hwr, error.isReaderError, normEOF]
  refine ⟨by rw [hread], ?_, ?_⟩
  · intro hne
    have hbl : ¬ b.length = 0 := fun h => hne (List.length_eq_zero.mp h)
    unfold pipe.readUnsafe
    simp [hc, he, hl, hb, hwr, hbl, error.isReaderError, normEOF]
  · intro hrp
    unfold PipeReader.ReadByte
    rw [hrp]
    cases hL : Lock p with
    | none => simp [Lock, hwr] at hL
    | some p1 =>
      have hU := Unlock_Lock p p1 hL
      have hp1 : p1 = { p with wr := true } := by
        simp [Lock, hwr] at hL; exact hL.symm
      have hb1 : p1.buf = some buf := by rw [hp1]; exact hb
      have hl1 : ¬ 0 < p1.l := by rw [hp1]; show ¬ 0 < p.l; omega
      simp only [hb1, hl1, if_false, hU, hread]
      rfl

theorem C33_sentinel_normalised_witness :
    (pipe4.closeWrite none).1.close = true ∧
      (pipe4.closeWrite none).1.readCloseError = some .WriterIoEOF ∧
      ((pipe4.closeWrite none).1.read [0, 0]).2 = .ret (0, some .EOF, [0, 0]) ∧
      (((pipe4.closeWrite none).1.readUnsafe [0, 0] (fun _ => 0)).2.1 =
        .ret (0, some .EOF, [0, 0])) ∧
      ({ pipe := (pipe4.closeWrite none).1, bytes := [true], pooled := 0 } :
        PipeReader).ReadByte.2 = .ret (0, some .EOF) :=
  ⟨by decide, by decide,
    ((C33_sentinel_normalised (pipe4.closeWrite none).1
      { pipe := (pipe4.closeWrite none).1, bytes := [true], pooled := 0 } [0, 0]
      (fun _ => 0)).2.2.2 (by decide) (by decide) (by decide) (by decide) (by decide)).1,
    ((C33_sentinel_normalised (pipe4.closeWrite none).1
      { pipe := (pipe4.closeWrite none).1, bytes := [true], pooled := 0 } [0, 0]
      (fun _ => 0)).2.2.2 (by decide) (by decide) (by decide) (by decide) (by decide)).2.1
      (by decide),
    ((C33_sentinel_normalised (pipe4.closeWrite none).1
      { pipe := (pipe4.closeWrite none).1, bytes := [true], pooled := 0 } [0, 0]
      (fun _ => 0)).2.2.2 (by decide) (by decide) (by decide) (by decide) (by decide)).2.2 rfl⟩

theorem copyMustLoop_eq {ρ σ : Type} (Read : ReadFn ρ) (Write : WriteFn σ) (bufLen bufCap : Nat)
    (fuel : Nat) : ∀ (r : ρ) (s : σ) (written : Int),
      copyMustLoop Read Write bufLen bufCap fuel r s written =
        copyLoop Read Write bufLen bufCap fuel r s written := by
  induction fuel with
  | zero => intro r s written; rfl
  | succ k ih =>
    intro r s written
    unfold copyMustLoop copyLoop
    simp only [ih]
    rcases hrd : Read r bufLen with ⟨r1, data, er⟩
    simp only [gt_iff_lt]
    by_cases hnr : (0 : Int) < (data.length : Int)
    · simp only [hnr, if_true]
      by_cases hcap : bufCap < data.length
      · simp only [hcap, if_true]
      · simp only [hcap, if_false]
        rcases hwr : Write s data with ⟨s1, nw, ew⟩
        cases er with
        | none => simp
        | some e =>
          by_cases he : e = .EOF
          · subst he; simp
          · simp [he]
    · simp only [hnr, if_false]
      cases er with
      | none => simp
      | some e =>
        by_cases he : e = .EOF
        · subst he; simp
        · simp [he]

theorem readVerdict_some (e : error) :
    readVerdict (some e) = .stop 0 (if e = .EOF then none else some e) := by
  cases e <;> simp [readVerdict]

theorem writeVerdict_full (offered : Nat) (e : error) :
    writeVerdict offered offered none (some e) =
      .stop offered (if e = .EOF then none else some e) := by
  cases e <;> simp [writeVerdict]

theorem copyLoop_eq_rule {ρ σ : Type} (Read : ReadFn ρ) (Write : WriteFn σ) (bufLen bufCap : Nat)
    (fuel : Nat) : ∀ (r : ρ) (s : σ) (written : Int),
      copyLoop Read Write bufLen bufCap fuel r s written =
        copyRule Read Write bufLen bufCap fuel r s written := by
  induction fuel with
  | zero => intro r s written; rfl
  | succ k ih =>
    intro r s written
    unfold copyLoop copyRule
    simp only [ih]
    rcases hrd : Read r bufLen with ⟨r1, data, er⟩
    simp only
    by_cases hd : data = []
    · subst hd
      simp only [List.length_nil, Nat.cast_zero, lt_self_iff_false, if_false, if_true]
      rcases er with _ | e
      · simp [readVerdict]
      · simp [readVerdict_some]
    · have hpos : (0 : Int) < (data.length : Int) := by
        have := List.length_pos.mpr hd
        omega
      simp only [hpos, hd, if_true, if_false]
      by_cases hcap : bufCap < data.length
      · simp only [hcap, if_true]
      · simp only [hcap, if_false]
        rcases hwr : Write s data with ⟨s1, nw, ew⟩
        simp only
        by_cases hneg : nw < 0
        · have hinv : nw < 0 ∨ (data.length : Int) < nw := Or.inl hneg
          cases ew with
          | none => simp [writeVerdict, hneg, hinv]
          | some x => simp [writeVerdict, hneg, hinv]
        · by_cases hbig : (data.length : Int) < nw
          · have hinv : nw < 0 ∨ (data.length : Int) < nw := Or.inr hbig
            cases ew with
            | none => simp [writeVerdict, hneg, hbig, hinv]
            | some x => simp [writeVerdict, hneg, hbig, hinv]
          · have hinv : ¬ (nw < 0 ∨ (data.length : Int) < nw) := by
              rintro (h | h)
              · exact hneg h
              · exact hbig h
            cases ew with
            | some x => simp [writeVerdict, hneg, hbig, hinv]
            | none =>
              by_cases hshort : nw < (data.length : Int)
              · have hne : ¬ (data.length : Int) = nw := by omega
                simp [writeVerdict, hneg, hbig, hinv, hshort, hne]
              · have heq : nw = (data.length : Int) := by omega
                subst heq
                rcases er with _ | e
                · simp [writeVerdict, hneg]
                · simp [writeVerdict_full, hneg]

theorem copyLoop_more {ρ σ : Type} (Read : ReadFn ρ) (Write : WriteFn σ) (bufLen bufCap : Nat)
    (fuel : Nat) : ∀ (r : ρ) (s : σ) (written : Int) (x : Int × Option error),
      (copyLoop Read Write bufLen bufCap fuel r s written).2.2 = .ret x →
        copyLoop Read Write bufLen bufCap (fuel + 1) r s written =
          copyLoop Read Write bufLen bufCap fuel r s written := by
  induction fuel with
  | zero =>
    intro r s written x h
    exact absurd h (by simp [copyLoop])
  | succ k ih =>
    intro r s written x h
    conv_lhs => unfold copyLoop
    conv_rhs => unfold copyLoop
    unfold copyLoop at h
    rcases hrd : Read r bufLen with ⟨r1, data, er⟩
    simp only [hrd] at h ⊢
    by_cases hnr : (0 : Int) < (data.length : Int)
    · simp only [hnr, if_true] at h ⊢
      by_cases hcap : bufCap < data.length
      · simp only [hcap, if_true]
      · simp only [hcap, if_false] at h ⊢
        rcases hwr : Write s data with ⟨s1, nw, ew⟩
        simp only [hwr] at h ⊢
        split_ifs at h ⊢ <;>
          first
          | rfl
          | (cases er <;> first | rfl | exact ih _ _ _ x h)
    · simp only [hnr, if_false] at h ⊢
      cases er with
      | some e => rfl
      | none => exact ih _ _ _ x h

/-- C34 (copy loop accounting). For a `src` and a `dst` that implement neither `WriterTo`
nor `ReaderFrom` and a non-empty `buf`, `CopyBuffer` and `CopyBufferMust` end in the same
reader state, the same writer state and the same result, for every number of rounds. That
result is the one of the accounting rule `copyRule`: `written` is the sum of the counts the
writes reported (an invalid count taken as 0), and `err` is the write error, the
invalid-write error, `io.ErrShortWrite`, the read error, or nil after `io.EOF`. Once the
copy has returned, more rounds change nothing. -/
theorem C34_copy_accounting {ρ σ : Type} (P : Pool) (Read : ReadFn ρ) (Write : WriteFn σ)
    (lim : Option Int) (buf : Bytes) (fuel : Nat) (r : ρ) (s : σ) (hbuf : 0 < buf.B.length) :
    CopyBuffer P Read Write none none lim (some buf) fuel r s =
        CopyBufferMust Read Write (some buf) fuel r s ∧
      CopyBufferMust Read Write (some buf) fuel r s =
        copyRule Read Write buf.B.length buf.mem.length fuel r s 0 ∧
      (∀ x, (CopyBufferMust Read Write (some buf) fuel r s).2.2 = .ret x →
        CopyBufferMust Read Write (some buf) (fuel + 1) r s =
          CopyBufferMust Read Write (some buf) fuel r s) := by
  have hne : ¬ buf.B.length = 0 := by omega
  refine ⟨?_, ?_, ?_⟩
  · simp only [CopyBuffer, CopyBufferMust, hne, if_false, copyBuffer, copyMustLoop_eq]
  · simp only [CopyBufferMust, hne, if_false, copyMustLoop_eq, copyLoop_eq_rule]
  · intro x hx
    simp only [CopyBufferMust, hne, if_false, copyMustLoop_eq] at hx ⊢
    exact copyLoop_more Read Write _ _ fuel r s 0 x hx

theorem C34_copy_accounting_witness :
    0 < buf2.B.length ∧
      (CopyBuffer poolFull listRead shortWrite none none none (some buf2) 5 [1, 2, 3] [] =
          CopyBufferMust listRead shortWrite (some buf2) 5 [1, 2, 3] [] ∧
        CopyBufferMust listRead shortWrite (some buf2) 5 [1, 2, 3] [] =
          copyRule listRead shortWrite buf2.B.length buf2.mem.length 5 [1, 2, 3] [] 0 ∧
        (∀ x, (CopyBufferMust listRead shortWrite (some buf2) 5 [1, 2, 3] []).2.2 = .ret x →
          CopyBufferMust listRead shortWrite (some buf2) (5 + 1) [1, 2, 3] [] =
            CopyBufferMust listRead shortWrite (some buf2) 5 [1, 2, 3] [])) :=
  ⟨by decide, C34_copy_accounting poolFull listRead shortWrite none buf2 5 [1, 2, 3] []
    (by decide)⟩

theorem init_eq :
    init = some
      { applicationPrefixHash := lit "appl", textPrefixHash := lit "text",
        imagePrefixHash := lit "imag",
        applicationMimes := [lit "/jav", lit "/jso", lit "/xml"],
        textMimes := [lit "/htm", lit "/css", lit "/pla", lit "/xml", lit "/csv", lit "/yam",
          lit "/mar"],
        imageMimes := lit "/svg" } := by
  decide

theorem slicesIndex_ge {α : Type} [DecidableEq α] (s : List α) (v : α) :
    -1 ≤ slicesIndex s v := by
  induction s with
  | nil => simp [slicesIndex]
  | cons x xs ih =>
    unfold slicesIndex
    split_ifs <;> omega

theorem slicesIndex_ne_iff {α : Type} [DecidableEq α] (s : List α) (v : α) :
    slicesIndex s v ≠ -1 ↔ v ∈ s := by
  induction s with
  | nil => simp [slicesIndex]
  | cons x xs ih =>
    have hge := slicesIndex_ge xs v
    unfold slicesIndex
    by_cases hx : x = v
    · simp [hx]
    · have hne : ¬ v = x := fun e => hx e.symm
      by_cases hi : slicesIndex xs v = -1
      · have : v ∉ xs := fun hm => (ih.mpr hm) hi
        simp [hx, hi, this, hne]
      · have hm : v ∈ xs := ih.mp hi
        have h2 : ¬ (slicesIndex xs v + 1 = -1) := by omega
        simp [hx, hi, hm, h2]

theorem word32_in (s : List byte) (k : Nat) (h : k + 4 ≤ s.length) :
    word32 s k = some (slice s k (k + 4)) := by
  simp [word32, h]

/-- What `CheckMimeOk` computes: it compares the first four bytes of `mime` and the four
bytes behind the name of the group, nothing else. -/
theorem CheckMimeOk_eq (mime : List byte) :
    CheckMimeOk mime = some (decide (
      (15 ≤ mime.length ∧ slice mime 0 4 = lit "appl" ∧
          slice mime 11 15 ∈ [lit "/jav", lit "/jso", lit "/xml"]) ∨
        (8 ≤ mime.length ∧ slice mime 0 4 = lit "text" ∧
          slice mime 4 8 ∈ [lit "/htm", lit "/css", lit "/pla", lit "/xml", lit "/csv",
            lit "/yam", lit "/mar"]) ∨
        (13 ≤ mime.length ∧ slice mime 0 4 = lit "imag" ∧ slice mime 5 9 = lit "/svg"))) := by
  have e1 : applicationMinLen = 15 := by decide
  have e2 : textMinLen = 8 := by decide
  have e3 : imageMinLen = 13 := by decide
  have k1 : applicationPrefixL = 11 := by decide
  have k2 : texPrefixL = 4 := by decide
  have k3 : imagePrefixL = 5 := by decide
  have d1 : lit "appl" ≠ lit "text" := by decide
  have d2 : lit "appl" ≠ lit "imag" := by decide
  have d3 : lit "text" ≠ lit "imag" := by decide
  unfold CheckMimeOk
  rw [init_eq]
  unfold CheckMimeOkWith
  simp only [e1, e2, e3, k1, k2, k3]
  by_cases h4 : mime.length < 4
  · have n1 : ¬ 15 ≤ mime.length := by omega
    have n2 : ¬ 8 ≤ mime.length := by omega
    have n3 : ¬ 13 ≤ mime.length := by omega
    simp [h4, n1, n2, n3]
  · rw [if_neg h4, word32_in mime 0 (by omega)]
    simp only [Nat.zero_add]
    by_cases ha : slice mime 0 4 = lit "appl"
    · have nt : ¬ slice mime 0 4 = lit "text" := by rw [ha]; exact d1
      have ni : ¬ slice mime 0 4 = lit "imag" := by rw [ha]; exact d2
      rw [if_pos ha]
      by_cases hl : mime.length < 15
      · have n1 : ¬ 15 ≤ mime.length := by omega
        simp [hl, n1, nt, ni]
      · rw [if_neg hl, word32_in mime 11 (by omega)]
        have p1 : 15 ≤ mime.length := by omega
        simp only [ha, d1, d2, p1, true_and, false_and, and_false, or_false, slicesIndex_ne_iff,
          Nat.reduceAdd, ne_eq, not_false_eq_true]
    · rw [if_neg ha]
      by_cases ht : slice mime 0 4 = lit "text"
      · have ni : ¬ slice mime 0 4 = lit "imag" := by rw [ht]; exact d3
        rw [if_pos ht]
        by_cases hl : mime.length < 8
        · have n1 : ¬ 8 ≤ mime.length := by omega
          simp [hl, n1, ha, ni]
        · rw [if_neg hl, word32_in mime 4 (by omega)]
          have p1 : 8 ≤ mime.length := by omega
          simp only [ht, d1.symm, d3, p1, true_and, false_and, and_false, or_false, false_or,
            slicesIndex_ne_iff, Nat.reduceAdd, ne_eq, not_false_eq_true]
      · rw [if_neg ht]
        by_cases hi : slice mime 0 4 = lit "imag"
        · rw [if_pos hi]
          by_cases hl : mime.length < 13
          · have n1 : ¬ 13 ≤ mime.length := by omega
            simp [hl, n1, ha, ht]
          · rw [if_neg hl, word32_in mime 5 (by omega)]
            have p1 : 13 ≤ mime.length := by omega
            simp only [hi, d2.symm, d3.symm, p1, true_and, false_and, and_false, or_false,
              false_or, Nat.reduceAdd, ne_eq, not_false_eq_true]
            congr 1
            exact decide_eq_decide.mpr ⟨fun h => h.symm, fun h => h.symm⟩
        · rw [if_neg hi]
          simp [ha, ht, hi]

theorem slice_append_left (A suf : List byte) (lo hi : Nat) (h : hi ≤ A.length) :
    slice (A ++ suf) lo hi = slice A lo hi := by
  unfold slice
  rw [List.take_append_of_le_length h]

theorem CheckMimeOk_append (A suf : List byte) (h : CheckMimeOk A = some true) :
    CheckMimeOk (A ++ suf) = some true := by
  rw [CheckMimeOk_eq] at h ⊢
  simp only [Option.some.injEq, decide_eq_true_eq] at h ⊢
  have hlen : (A ++ suf).length = A.length + suf.length := List.length_append _ _
  rcases h with ⟨h1, h2, h3⟩ | ⟨h1, h2, h3⟩ | ⟨h1, h2, h3⟩
  · left
    rw [slice_append_left A suf 0 4 (by omega), slice_append_left A suf 11 15 (by omega)]
    exact ⟨by omega, h2, h3⟩
  · right; left
    rw [slice_append_left A suf 0 4 (by omega), slice_append_left A suf 4 8 (by omega)]
    exact ⟨by omega, h2, h3⟩
  · right; right
    rw [slice_append_left A suf 0 4 (by omega), slice_append_left A suf 5 9 (by omega)]
    exact ⟨by omega, h2, h3⟩

theorem listed_ok : ∀ t ∈ compressedMimes, CheckMimeOk t = some true := by
  decide

/-- C35 (what a true result of CheckMimeOk says, as the code has it). If `CheckMimeOk(mime)`
returns true, then `mime` has at least 15 bytes, starts with `"appl"` and holds `"/jav"`,
`"/jso"` or `"/xml"` at offset 11; or it has at least 8 bytes, starts with `"text"` and
holds `"/htm"`, `"/css"`, `"/pla"`, `"/xml"`, `"/csv"`, `"/yam"` or `"/mar"` at offset 4; or
it has at least 13 bytes, starts with `"imag"` and holds `"/svg"` at offset 5. These are the
first four bytes of a listed type and the four bytes that follow the name of its group. -/
theorem C35_true_means_words_match (mime : List byte) (h : CheckMimeOk mime = some true) :
    (15 ≤ mime.length ∧ slice mime 0 4 = lit "appl" ∧
        slice mime 11 15 ∈ [lit "/jav", lit "/jso", lit "/xml"]) ∨
      (8 ≤ mime.length ∧ slice mime 0 4 = lit "text" ∧
        slice mime 4 8 ∈ [lit "/htm", lit "/css", lit "/pla", lit "/xml", lit "/csv",
          lit "/yam", lit "/mar"]) ∨
      (13 ≤ mime.length ∧ slice mime 0 4 = lit "imag" ∧ slice mime 5 9 = lit "/svg") := by
  rw [CheckMimeOk_eq] at h
  simpa only [Option.some.injEq, decide_eq_true_eq] using h

/-- C35, as stated, fails: `CheckMimeOk("application/java-archive")` is true, and the
string begins with none of the eleven listed types. -/
theorem C35_counterexample :
    CheckMimeOk (lit "application/java-archive") = some true ∧
      ∀ t ∈ compressedMimes, HasPrefix (lit "application/java-archive") t = false := by
  constructor <;> decide

theorem C35_true_means_words_match_witness :
    CheckMimeOk (lit "text/htmx") = some true ∧
      ((15 ≤ (lit "text/htmx").length ∧ slice (lit "text/htmx") 0 4 = lit "appl" ∧
          slice (lit "text/htmx") 11 15 ∈ [lit "/jav", lit "/jso", lit "/xml"]) ∨
        (8 ≤ (lit "text/htmx").length ∧ slice (lit "text/htmx") 0 4 = lit "text" ∧
          slice (lit "text/htmx") 4 8 ∈ [lit "/htm", lit "/css", lit "/pla", lit "/xml",
            lit "/csv", lit "/yam", lit "/mar"]) ∨
        (13 ≤ (lit "text/htmx").length ∧ slice (lit "text/htmx") 0 4 = lit "imag" ∧
          slice (lit "text/htmx") 5 9 = lit "/svg")) :=
  ⟨by decide, C35_true_means_words_match (lit "text/htmx") (by decide)⟩

/-- C36 (CheckMimeOk is complete). For every listed type `t` and every suffix `suf`,
`CheckMimeOk` returns true on `t` followed by `suf`. -/
theorem C36_listed_types_pass (t suf : List byte) (ht : t ∈ compressedMimes) :
    CheckMimeOk (t ++ suf) = some true :=
  CheckMimeOk_append t suf (listed_ok t ht)

theorem C36_listed_types_pass_witness :
    lit "text/html" ∈ compressedMimes ∧
      CheckMimeOk (lit "text/html" ++ lit "; charset=utf-8") = some true :=
  ⟨by decide, C36_listed_types_pass (lit "text/html") (lit "; charset=utf-8") (by decide)⟩

/-- C37 (CheckMimeOk stays in bounds). `init` completes: every word it reads lies inside
the array or the `compressedMimes` entry it reads from. And for every `mime`, of any
length, `CheckMimeOk` returns a result: every word it reads lies inside `mime`. -/
theorem C37_words_in_bounds (mime : List byte) :
    init.isSome = true ∧ (CheckMimeOk mime).isSome = true :=
  ⟨by rw [init_eq]; rfl, by rw [CheckMimeOk_eq]; rfl⟩

theorem drop_after (L p : List byte) (c : byte) :
    List.drop ((L.length : Int).toNat + 1) (L ++ c :: p) = p := by
  rw [Int.toNat_ofNat]
  have : L ++ c :: p = (L ++ [c]) ++ p := by simp
  rw [this]
  exact List.drop_left' (by simp)

theorem take_before (L p : List byte) (c : byte) :
    List.take ((L.length : Int).toNat) (L ++ c :: p) = L := by
  rw [Int.toNat_ofNat]
  exact List.take_left' rfl

/-- C38 (SplitHostAndPort inverts joining). For every port `p` without a `':'`: if the
host `h` has no `':'` and `len(h) + len(p) + 1 >= 3`, then `SplitHostAndPort(h + ":" + p)`
returns `(h, p, nil)`; and if `v` holds at least one `':'`, then
`SplitHostAndPort("[" + v + "]:" + p)` returns `(v, p, nil)`. Neither call panics or
reaches `net.SplitHostPort`. -/
theorem C38_split_inverts_join
    (netSplit : List byte → List byte × List byte × Option addrError) (h v p : List byte)
    (hp : byteOf ':' ∉ p) :
    (byteOf ':' ∉ h → 3 ≤ h.length + p.length + 1 →
        SplitHostAndPort netSplit (h ++ lit ":" ++ p) = some (h, p, none)) ∧
      (byteOf ':' ∈ v →
        SplitHostAndPort netSplit (lit "[" ++ v ++ lit "]:" ++ p) = some (v, p, none)) := by
  have hc : lit ":" = [byteOf ':'] := by decide
  have hl : lit "[" = [byteOf '['] := by decide
  have hr : lit "]:" = [byteOf ']', byteOf ':'] := by decide
  have hne : byteOf ']' ≠ byteOf ':' := by decide
  have hne2 : byteOf '[' ≠ byteOf ':' := by decide
  constructor
  · intro hh hlen
    have e : h ++ lit ":" ++ p = h ++ byteOf ':' :: p := by simp [hc]
    rw [e]
    have hlast := LastIndexByte_last h p (byteOf ':') hp
    have hcount : Count (h ++ byteOf ':' :: p) (byteOf ':') = 1 := by
      unfold Count
      rw [List.count_append, List.count_cons_self, List.count_eq_zero.mpr hh,
        List.count_eq_zero.mpr hp]
    unfold SplitHostAndPort
    have hlen2 : ¬ (h ++ byteOf ':' :: p).length < 3 := by
      simp only [List.length_append, List.length_cons]; omega
    simp only [hlen2, if_false, hcount, hlast]
    rw [drop_after, take_before]
    simp
  · intro hv
    have e : lit "[" ++ v ++ lit "]:" ++ p = (byteOf '[' :: v ++ [byteOf ']']) ++ byteOf ':' :: p := by
      simp [hl, hr]
    rw [e]
    have hlast := LastIndexByte_last (byteOf '[' :: v ++ [byteOf ']']) p (byteOf ':') hp
    have hvc : 0 < List.count (byteOf ':') v := List.count_pos_iff.mpr hv
    have hcount : Count ((byteOf '[' :: v ++ [byteOf ']']) ++ byteOf ':' :: p) (byteOf ':') =
        List.count (byteOf ':') v + 1 := by
      unfold Count
      rw [List.count_append, List.count_cons_self, List.count_eq_zero.mpr hp]
      simp [List.count_cons, hne, hne2]
    unfold SplitHostAndPort
    have hlen2 : ¬ ((byteOf '[' :: v ++ [byteOf ']']) ++ byteOf ':' :: p).length < 3 := by
      simp only [List.length_append, List.length_cons]; omega
    have hc0 : ¬ (List.count (byteOf ':') v + 1 = 0) := by omega
    have hc1 : ¬ (List.count (byteOf ':') v + 1 = 1) := by omega
    simp only [hlen2, if_false, hcount, hlast, hc0, hc1]
    have hL : ((byteOf '[' :: v ++ [byteOf ']']).length : Int) = (v.length : Int) + 2 := by
      simp; omega
    have hidx : (((byteOf '[' :: v ++ [byteOf ']']).length : Int) - 1).toNat = v.length + 1 := by
      rw [hL]; omega
    have hget : ((byteOf '[' :: v ++ [byteOf ']']) ++ byteOf ':' :: p)[v.length + 1]? =
        some (byteOf ']') := by
      have : (byteOf '[' :: v ++ [byteOf ']']) ++ byteOf ':' :: p =
          (byteOf '[' :: v) ++ (byteOf ']' :: byteOf ':' :: p) := by simp
      rw [this, List.getElem?_append_right (by simp)]
      simp
    have hpos : ((byteOf '[' :: v ++ [byteOf ']']).length : Int) > 0 := by rw [hL]; omega
    have h1 : (1 : Int) ≤ ((byteOf '[' :: v ++ [byteOf ']']).length : Int) - 1 := by
      rw [hL]; omega
    have hsl : slice ((byteOf '[' :: v ++ [byteOf ']']) ++ byteOf ':' :: p) 1 (v.length + 1) = v := by
      unfold slice
      have : (byteOf '[' :: v ++ [byteOf ']']) ++ byteOf ':' :: p =
          (byteOf '[' :: v) ++ (byteOf ']' :: byteOf ':' :: p) := by simp
      rw [this, List.take_left' (by simp)]
      rfl
    rw [hidx, drop_after, hsl]
    simp only [hpos, hget, true_and, if_true, h1]

theorem C38_split_inverts_join_witness :
    byteOf ':' ∉ lit "80" ∧
      SplitHostAndPort noSplit (lit "example.com" ++ lit ":" ++ lit "80") =
        some (lit "example.com", lit "80", none) ∧
      SplitHostAndPort noSplit (lit "[" ++ lit "::1" ++ lit "]:" ++ lit "80") =
        some (lit "::1", lit "80", none) :=
  ⟨by decide,
    (C38_split_inverts_join noSplit (lit "example.com") (lit "::1") (lit "80") (by decide)).1
      (by decide) (by decide),
    (C38_split_inverts_join noSplit (lit "example.com") (lit "::1") (lit "80") (by decide)).2
      (by decide)⟩

theorem IndexByte_ge (s : List byte) (c : byte) : -1 ≤ IndexByte s c := by
  induction s with
  | nil => simp [IndexByte]
  | cons x xs ih =>
    unfold IndexByte
    split_ifs <;> omega

theorem IndexByte_le_Last (s : List byte) (c : byte) : IndexByte s c ≤ LastIndexByte s c := by
  induction s with
  | nil => simp [IndexByte, LastIndexByte]
  | cons x xs ih =>
    have h1 := IndexByte_ge xs c
    have h2 := LastIndexByte_ge xs c
    unfold IndexByte LastIndexByte
    split_ifs <;> omega

theorem last_of_append (X Y : List byte) (hY : Y ≠ []) :
    (X ++ Y)[(X ++ Y).length - 1]? = Y[Y.length - 1]? := by
  have hl : 0 < Y.length := List.length_pos.mpr hY
  rw [List.getElem?_append_right (by simp only [List.length_append]; omega)]
  congr 1
  simp only [List.length_append]
  omega

theorem head_of_append (X Y : List byte) (hX : X ≠ []) : (X ++ Y)[0]? = X[0]? := by
  cases X with
  | nil => exact absurd rfl hX
  | cons a t => simp

/-- A result of `AddMissingPort` that opens with a bracket and ends in a port comes back
unchanged. -/
theorem AddMissingPort_bracketed (X : List byte) (t t2 : Bool) (hX : X[0]? = some (byteOf '[')) :
    AddMissingPort (X ++ (if t = true then lit ":443" else lit ":80")) t2 =
      X ++ (if t = true then lit ":443" else lit ":80") := by
  have hXne : X ≠ [] := by
    intro h; rw [h] at hX; simp at hX
  have hport : (if t = true then lit ":443" else lit ":80") ≠ [] := by
    cases t <;> decide
  have hlast : (if t = true then lit ":443" else lit ":80")[
      (if t = true then lit ":443" else lit ":80").length - 1]? ≠ some (byteOf ']') := by
    cases t <;> decide
  unfold AddMissingPort
  have hlen : ¬ (X ++ (if t = true then lit ":443" else lit ":80")).length = 0 := by
    have := List.length_pos.mpr hXne
    simp only [List.length_append]; omega
  rw [if_neg hlen, head_of_append X _ hXne, if_pos hX, last_of_append X _ hport,
    if_pos hlast]

/-- C39 (AddMissingPort is idempotent). For every `addr` and all booleans `t1`, `t2`,
`AddMissingPort(AddMissingPort(addr, t1), t2)` is `AddMissingPort(addr, t1)`: a result that
got a port ends in a digit behind a `':'` and is returned unchanged by the second call. -/
theorem C39_AddMissingPort_idempotent (addr : List byte) (t1 t2 : Bool) :
    AddMissingPort (AddMissingPort addr t1) t2 = AddMissingPort addr t1 := by
  have hport : ∀ t : Bool, (if t = true then lit ":443" else lit ":80") =
      byteOf ':' :: (if t = true then lit "443" else lit "80") := by
    intro t; cases t <;> decide
  have hnocolon : ∀ t : Bool, byteOf ':' ∉ (if t = true then lit "443" else lit "80") := by
    intro t; cases t <;> decide
  by_cases h0 : addr.length = 0
  · have : addr = [] := List.length_eq_zero.mp h0
    subst this
    rfl
  have hne : addr ≠ [] := fun h => h0 (by rw [h]; rfl)
  by_cases hb : addr[0]? = some (byteOf '[')
  · by_cases hlast : addr[addr.length - 1]? ≠ some (byteOf ']')
    · have e : AddMissingPort addr t1 = addr := by
        unfold AddMissingPort
        rw [if_neg h0, if_pos hb, if_pos hlast]
      have e2 : AddMissingPort addr t2 = addr := by
        unfold AddMissingPort
        rw [if_neg h0, if_pos hb, if_pos hlast]
      rw [e, e2]
    · have e : AddMissingPort addr t1 = addr ++ (if t1 = true then lit ":443" else lit ":80") := by
        unfold AddMissingPort
        rw [if_neg h0, if_pos hb, if_neg hlast]
      rw [e]
      exact AddMissingPort_bracketed addr t1 t2 hb
  · by_cases hl : LastIndexByte addr (byteOf ':') > 0
    · by_cases hf : IndexByte
          (addr.take (LastIndexByte addr (byteOf ':')).toNat) (byteOf ':') > 0
      · have e : AddMissingPort addr t1 =
            (lit "[" ++ addr ++ lit "]") ++ (if t1 = true then lit ":443" else lit ":80") := by
          unfold AddMissingPort
          rw [if_neg h0, if_neg hb, if_pos hl, if_pos hf]
        rw [e]
        have hlb : lit "[" = [byteOf '['] := by decide
        exact AddMissingPort_bracketed _ t1 t2 (by rw [hlb]; simp)
      · have e : AddMissingPort addr t1 = addr := by
          unfold AddMissingPort
          rw [if_neg h0, if_neg hb, if_pos hl, if_neg hf]
        have e2 : AddMissingPort addr t2 = addr := by
          unfold AddMissingPort
          rw [if_neg h0, if_neg hb, if_pos hl, if_neg hf]
        rw [e, e2]
    · have e : AddMissingPort addr t1 = addr ++ (if t1 = true then lit ":443" else lit ":80") := by
        unfold AddMissingPort
        rw [if_neg h0, if_neg hb, if_neg hl]
      rw [e]
      have hlen : ¬ (addr ++ (if t1 = true then lit ":443" else lit ":80")).length = 0 := by
        have := List.length_pos.mpr hne
        simp only [List.length_append]; omega
      have hb2 : ¬ (addr ++ (if t1 = true then lit ":443" else lit ":80"))[0]? =
          some (byteOf '[') := by
        rw [head_of_append addr _ hne]; exact hb
      have hL : LastIndexByte (addr ++ (if t1 = true then lit ":443" else lit ":80"))
          (byteOf ':') = addr.length := by
        rw [hport t1]
        exact LastIndexByte_last addr _ _ (hnocolon t1)
      have hpos : (addr.length : Int) > 0 := by
        have := List.length_pos.mpr hne
        omega
      have htake : (addr ++ (if t1 = true then lit ":443" else lit ":80")).take
          ((addr.length : Int).toNat) = addr := by
        rw [Int.toNat_ofNat]; exact List.take_left' rfl
      have hfirst : ¬ IndexByte addr (byteOf ':') > 0 := by
        have := IndexByte_le_Last addr (byteOf ':')
        omega
      unfold AddMissingPort
      rw [if_neg hlen, if_neg hb2]
      simp only [hL, hpos, if_true, htake, hfirst, if_false]

/-- C40 (code defect). `ExtractHostname` returns at once, with the empty string, when the
address holds no `':'`, where `SplitHostAndPort` returns the address as host: for
`"example.com"` the one gives `""` and the other `"example.com"`. And for a bracketed
address with a port it keeps the brackets that `SplitHostAndPort` strips: for `"[::1]:80"`
the one gives `"[::1]"` and the other `"::1"`. They agree on `"example.com:80"`. -/
theorem C40_ExtractHostname_differs :
    SplitHostAndPort noSplit (lit "example.com") = some (lit "example.com", [], none) ∧
      ExtractHostname (lit "example.com") = some [] ∧
      SplitHostAndPort noSplit (lit "[::1]:80") = some (lit "::1", lit "80", none) ∧
      ExtractHostname (lit "[::1]:80") = some (lit "[::1]") ∧
      SplitHostAndPort noSplit (lit "example.com:80") = some (lit "example.com", lit "80", none) ∧
      ExtractHostname (lit "example.com:80") = some (lit "example.com") := by
  refine ⟨?_, ?_, ?_, ?_, ?_, ?_⟩ <;> decide

end Goutils
